import Mathlib

/-!
# EEPROM emulation on two flash pages (APME103_EEPROM_Emulation)

A shallow embedding of `Program/src/eeprom.c` and `Program/inc/eeprom.h`.

The flash is a map from byte addresses to 16-bit half-words.  The stateful C
functions become functions that take the flash state and return the status
together with the new state.  The vendor flash driver (`FMC_Unlock`,
`FMC_Lock`, `FMC_ErasePage`, `FMC_ProgramHalfWord`) is not part of the sources
and is modelled from the specification.
-/

namespace EEPROM

/-! ## The flash driver (external collaborator) -/

/-- Modelled from the spec: the status type `FMC_STATUS_T` returned by the flash driver
(declared in the vendor header `apm32e10x_fmc.h`, which is not part of the sources).
`eeprom.c` names only `FMC_STATUS_COMPLETE` and `FMC_STATUS_ERROR_PG`; the other
constructors stand for the remaining hardware errors a driver call may report. -/
inductive FMC_STATUS_T where
  | FMC_STATUS_BUSY
  | FMC_STATUS_ERROR_PG
  | FMC_STATUS_ERROR_WRP
  | FMC_STATUS_COMPLETE
  | FMC_STATUS_TIMEOUT
  deriving DecidableEq, Repr

open FMC_STATUS_T

/-- One call of the flash driver, as recorded in the history of a run, together with the state
of the controller's write-enable flag at the time of the call. -/
inductive FlashOp where
  | erase (address : Nat) (enabled : Bool)
  | program (address data : Nat) (enabled : Bool)
  deriving DecidableEq, Repr

/-- The machine state seen by the EEPROM emulation.

* `cell a` is the half-word stored at byte address `a` (only its low 16 bits are read);
* `unlocked` is the write-enable flag of the flash controller;
* `script` lists the statuses the driver reports for its next erase/program calls, one
  per call; once the script is used up every call succeeds.  The empty script is the
  flash on which all operations succeed;
* `log` is the history of erase/program calls, most recent first. -/
structure Flash where
  cell : Nat → Nat
  unlocked : Bool
  script : List FMC_STATUS_T
  log : List FlashOp

/-- A 16-bit read `*(__IO uint16_t*)a`. -/
def read16 (s : Flash) (a : Nat) : Nat := s.cell a % 65536

/-- A 32-bit read `*(__IO uint32_t*)a` (little endian: the half-word at `a` is the low half). -/
def read32 (s : Flash) (a : Nat) : Nat := read16 s a + 65536 * read16 s (a + 2)

/-- Modelled from the spec: `FMC_Unlock()` of the flash driver, the "enable" of the
controller's write-enable state. -/
def FMC_Unlock (s : Flash) : Flash := { s with unlocked := true }

/-- Modelled from the spec: `FMC_Lock()` of the flash driver, the "disable" of the
controller's write-enable state. -/
def FMC_Lock (s : Flash) : Flash := { s with unlocked := false }

/-- The status the driver reports for its next erase/program call. -/
def nextStatus (s : Flash) : FMC_STATUS_T :=
  match s.script with
  | [] => FMC_STATUS_COMPLETE
  | st :: _ => st

/-- Modelled from the spec: `FMC_ErasePage(address)` of the flash driver
("erase_block(address) -> Status, blocking; leaves the block in the erased pattern").
The block is the sector of `sector_size` bytes that starts at `address`.  A call that
reports an error leaves the flash content as it was. -/
def FMC_ErasePage (sector_size : Nat) (s : Flash) (address : Nat) : FMC_STATUS_T × Flash :=
  let st := nextStatus s
  if st = FMC_STATUS_COMPLETE then
    (FMC_STATUS_COMPLETE,
      { s with
        cell := fun a => if address ≤ a ∧ a < address + sector_size then 0xFFFF else s.cell a
        script := s.script.tail
        log := FlashOp.erase address s.unlocked :: s.log })
  else
    (st, { s with script := s.script.tail, log := FlashOp.erase address s.unlocked :: s.log })

/-- Modelled from the spec: `FMC_ProgramHalfWord(address, data)` of the flash driver
("program_halfword(address, value) -> Status, a single blocking write of one 16-bit flash
cell").  Programming can only clear bits: the cell afterwards holds the bitwise AND of its
old content and the data, so an erased cell (`0xFFFF`) holds exactly the 16-bit data.  A
call that reports an error leaves the flash content as it was. -/
def FMC_ProgramHalfWord (s : Flash) (address data : Nat) : FMC_STATUS_T × Flash :=
  let st := nextStatus s
  if st = FMC_STATUS_COMPLETE then
    (FMC_STATUS_COMPLETE,
      { s with
        cell := fun a => if a = address then read16 s address &&& (data % 65536) else s.cell a
        script := s.script.tail
        log := FlashOp.program address data s.unlocked :: s.log })
  else
    (st, { s with script := s.script.tail, log := FlashOp.program address data s.unlocked :: s.log })

/-! ## Constants of `eeprom.h` and `eeprom.c` -/

/-- Sector number of one page (`EE_SECTOR_NUM`). -/
def EE_SECTOR_NUM : Nat := 1

/-- Sector size in bytes (`EE_SECTOR_SIZE`). -/
def EE_SECTOR_SIZE : Nat := 1024 * 2

/-- Flash size in KB: `(*(uint16_t *)0x1FFFF7E0) & 0xFFFF`, where `fsr` is the content of the
device's flash-size register (a constant of the device). -/
def EE_FLASH_SIZE (fsr : Nat) : Nat := fsr % 65536

/-- Page size in bytes (`EE_PAGE_SIZE`). -/
def EE_PAGE_SIZE : Nat := EE_SECTOR_NUM * EE_SECTOR_SIZE

/-- Base address of the EEPROM region:
`(uint32_t)(0x08000000 + 1024 * EE_FLASH_SIZE - EE_PAGE_SIZE * 2)`. -/
def EE_BASE_ADDRESS (fsr : Nat) : Nat :=
  (0x08000000 + 1024 * EE_FLASH_SIZE fsr - EE_PAGE_SIZE * 2) % 2 ^ 32

/-- Base address of page 0 (`EE_PAGE0_ADDRESS`). -/
def EE_PAGE0_ADDRESS (fsr : Nat) : Nat := EE_BASE_ADDRESS fsr

/-- Base address of page 1 (`EE_PAGE1_ADDRESS`). -/
def EE_PAGE1_ADDRESS (fsr : Nat) : Nat := EE_PAGE0_ADDRESS fsr + EE_PAGE_SIZE

/-- Maximum number of variables (`EE_PARA_MAX_NUMBER`): `(uint16_t)(EE_PAGE_SIZE / 4 - 1)`. -/
def EE_PARA_MAX_NUMBER : Nat := (EE_PAGE_SIZE / 4 - 1) % 65536

def EE_VALID_PAGE0 : Nat := 0x0000
def EE_VALID_PAGE1 : Nat := 0x0001
def EE_VALID_PAGE_NONE : Nat := 0x0002

def EE_PAGE_ERASED : Nat := 0xFFFF
def EE_PAGE_TRANSFER : Nat := 0xCCCC
def EE_PAGE_VALID : Nat := 0x0000

/-- The mode of `flash_ee_valid_page_get` (`ee_valid_page_type`). -/
inductive ee_valid_page_type where
  | EE_VALID_PAGE_READ
  | EE_VALID_PAGE_WRITE
  deriving DecidableEq, Repr

open ee_valid_page_type

/-! ## The functions of `eeprom.c` -/

/-- The `for` loop of `flash_ee_page_erase`: `n` sectors remain, `i` is the loop counter. -/
def flash_ee_page_erase_loop (page_address : Nat) : Nat → Nat → Flash → FMC_STATUS_T × Flash
  | 0, _, s => (FMC_STATUS_COMPLETE, s)
  | n + 1, i, s =>
    let erase_address := page_address + i * EE_SECTOR_SIZE
    let r := FMC_ErasePage EE_SECTOR_SIZE s erase_address
    if r.1 ≠ FMC_STATUS_COMPLETE then r
    else flash_ee_page_erase_loop page_address n (i + 1) r.2

/-- Embedding of `flash_ee_page_erase`: erase the sectors of one page, stopping at the first error. -/
def flash_ee_page_erase (s : Flash) (page_address : Nat) : FMC_STATUS_T × Flash :=
  flash_ee_page_erase_loop page_address EE_SECTOR_NUM 0 s

/-- Embedding of `flash_ee_valid_page_get`: the page that is authoritative in the given mode. -/
def flash_ee_valid_page_get (fsr : Nat) (s : Flash) (mode : ee_valid_page_type) : Nat :=
  let page0_status := read16 s (EE_PAGE0_ADDRESS fsr)
  let page1_status := read16 s (EE_PAGE1_ADDRESS fsr)
  if mode = EE_VALID_PAGE_READ then
    if page0_status = EE_PAGE_VALID then EE_VALID_PAGE0
    else if page1_status = EE_PAGE_VALID then EE_VALID_PAGE1
    else EE_VALID_PAGE_NONE
  else
    if page0_status = EE_PAGE_TRANSFER then EE_VALID_PAGE0
    else if page1_status = EE_PAGE_TRANSFER then EE_VALID_PAGE1
    else if page0_status = EE_PAGE_VALID then EE_VALID_PAGE0
    else if page1_status = EE_PAGE_VALID then EE_VALID_PAGE1
    else EE_VALID_PAGE_NONE

/-- The `while (find_address < end_address)` loop of `flash_ee_write_no_check`.  The first
argument bounds the number of iterations; `flash_ee_write_no_check` passes the loop variant
`end_address - find_address`, which every iteration decreases. -/
def flash_ee_write_no_check_loop (address data end_address : Nat) :
    Nat → Nat → Flash → FMC_STATUS_T × Flash
  | 0, _, s => (FMC_STATUS_ERROR_PG, s)
  | fuel + 1, find_address, s =>
    if find_address < end_address then
      if read32 s find_address = 0xFFFFFFFF then
        let r1 := FMC_ProgramHalfWord s find_address data
        if r1.1 ≠ FMC_STATUS_COMPLETE then r1
        else
          let r2 := FMC_ProgramHalfWord r1.2 (find_address + 2) address
          if r2.1 ≠ FMC_STATUS_COMPLETE then r2
          else (FMC_STATUS_COMPLETE, r2.2)
      else
        flash_ee_write_no_check_loop address data end_address fuel (find_address + 4) s
    else (FMC_STATUS_ERROR_PG, s)

/-- Embedding of `flash_ee_write_no_check`: append the record `(data, address)` at the first
free slot of the write-mode page. -/
def flash_ee_write_no_check (fsr : Nat) (s : Flash) (address data : Nat) : FMC_STATUS_T × Flash :=
  let valid_page := flash_ee_valid_page_get fsr s EE_VALID_PAGE_WRITE
  if valid_page = EE_VALID_PAGE_NONE then (FMC_STATUS_ERROR_PG, s)
  else
    let find_address := EE_BASE_ADDRESS fsr + valid_page * EE_PAGE_SIZE
    let end_address := EE_BASE_ADDRESS fsr + valid_page * EE_PAGE_SIZE + EE_PAGE_SIZE - 2
    flash_ee_write_no_check_loop address data end_address (end_address - find_address)
      find_address s

/-- The `while (find_address > start_address)` loop of `flash_ee_data_read`.  The result is the
read status and the content of `*pdata` afterwards.  The first argument bounds the number of
iterations; `flash_ee_data_read` passes the loop variant `find_address - start_address`. -/
def flash_ee_data_read_loop (s : Flash) (address start_address : Nat) :
    Nat → Nat → Nat → Nat × Nat
  | 0, _, pdata => (1, pdata)
  | fuel + 1, find_address, pdata =>
    if find_address > start_address then
      let data_address := read16 s find_address
      if address = data_address then (0, read16 s (find_address - 2))
      else flash_ee_data_read_loop s address start_address fuel (find_address - 4) pdata
    else (1, pdata)

/-- Embedding of `flash_ee_data_read`: the read status and the content of `*pdata` afterwards
(`pdata` is its content before the call, which a failed read leaves as it was). -/
def flash_ee_data_read (fsr : Nat) (s : Flash) (address pdata : Nat) : Nat × Nat :=
  let valid_page := flash_ee_valid_page_get fsr s EE_VALID_PAGE_READ
  if valid_page = EE_VALID_PAGE_NONE then (EE_VALID_PAGE_NONE, pdata)
  else
    let start_address := EE_BASE_ADDRESS fsr + valid_page * EE_PAGE_SIZE + 4
    let find_address := EE_BASE_ADDRESS fsr + valid_page * EE_PAGE_SIZE + EE_PAGE_SIZE - 2
    flash_ee_data_read_loop s address start_address (find_address - start_address)
      find_address pdata

/-- The `for (idx = 0; idx < EE_PARA_MAX_NUMBER; idx++)` loop of `flash_ee_copy_to_new_page`:
`n` bounds the remaining iterations, `data` is the local variable of that name.  A status other
than `FMC_STATUS_COMPLETE` is the early return of the function. -/
def flash_ee_copy_to_new_page_loop (fsr : Nat) : Nat → Nat → Nat → Flash → FMC_STATUS_T × Flash
  | 0, _, _, s => (FMC_STATUS_COMPLETE, s)
  | n + 1, idx, data, s =>
    if idx < EE_PARA_MAX_NUMBER then
      let r := flash_ee_data_read fsr s idx data
      if r.1 = 0 then
        let w := flash_ee_write_no_check fsr s idx r.2
        if w.1 ≠ FMC_STATUS_COMPLETE then w
        else flash_ee_copy_to_new_page_loop fsr n (idx + 1) r.2 w.2
      else flash_ee_copy_to_new_page_loop fsr n (idx + 1) r.2 s
    else (FMC_STATUS_COMPLETE, s)

/-- The part of `flash_ee_copy_to_new_page` after the two page addresses are chosen. -/
def flash_ee_copy_to_new_page_body (fsr : Nat) (s : Flash)
    (full_page_address empty_page_address : Nat) : FMC_STATUS_T × Flash :=
  let r1 := FMC_ProgramHalfWord s empty_page_address EE_PAGE_TRANSFER
  if r1.1 ≠ FMC_STATUS_COMPLETE then r1
  else
    let r2 := flash_ee_copy_to_new_page_loop fsr EE_PARA_MAX_NUMBER 0 0 r1.2
    if r2.1 ≠ FMC_STATUS_COMPLETE then r2
    else
      let r3 := flash_ee_page_erase r2.2 full_page_address
      if r3.1 ≠ FMC_STATUS_COMPLETE then r3
      else
        let r4 := FMC_ProgramHalfWord r3.2 empty_page_address EE_PAGE_VALID
        if r4.1 ≠ FMC_STATUS_COMPLETE then r4
        else (FMC_STATUS_COMPLETE, r4.2)

/-- Embedding of `flash_ee_copy_to_new_page`: transfer the data of the valid page to the other
page.  The local `data` is uninitialised in C and is only used after a successful read has set
it; the model starts it at 0. -/
def flash_ee_copy_to_new_page (fsr : Nat) (s : Flash) : FMC_STATUS_T × Flash :=
  let valid_page := flash_ee_valid_page_get fsr s EE_VALID_PAGE_READ
  if valid_page = EE_VALID_PAGE0 then
    flash_ee_copy_to_new_page_body fsr s (EE_PAGE0_ADDRESS fsr) (EE_PAGE1_ADDRESS fsr)
  else if valid_page = EE_VALID_PAGE1 then
    flash_ee_copy_to_new_page_body fsr s (EE_PAGE1_ADDRESS fsr) (EE_PAGE0_ADDRESS fsr)
  else (FMC_STATUS_ERROR_PG, s)

/-- Embedding of `flash_ee_format`: erase both pages and mark page 0 valid. -/
def flash_ee_format (fsr : Nat) (s : Flash) : FMC_STATUS_T × Flash :=
  let r1 := flash_ee_page_erase s (EE_PAGE0_ADDRESS fsr)
  if r1.1 ≠ FMC_STATUS_COMPLETE then r1
  else
    let r2 := flash_ee_page_erase r1.2 (EE_PAGE1_ADDRESS fsr)
    if r2.1 ≠ FMC_STATUS_COMPLETE then r2
    else FMC_ProgramHalfWord r2.2 (EE_PAGE0_ADDRESS fsr) EE_PAGE_VALID

/-- Embedding of `flash_ee_format_check`: 0 when the format is correct, 1 otherwise. -/
def flash_ee_format_check (page0_status page1_status : Nat) : Nat :=
  if page0_status = page1_status then 1
  else if page0_status ≠ EE_PAGE_ERASED ∧ page0_status ≠ EE_PAGE_TRANSFER ∧
      page0_status ≠ EE_PAGE_VALID then 1
  else if page1_status ≠ EE_PAGE_ERASED ∧ page1_status ≠ EE_PAGE_TRANSFER ∧
      page1_status ≠ EE_PAGE_VALID then 1
  else 0

/-- Embedding of `flash_ee_full_check`: when the last slot of the valid page is occupied,
transfer the data to the other page. -/
def flash_ee_full_check (fsr : Nat) (s : Flash) : FMC_STATUS_T × Flash :=
  let valid_page := flash_ee_valid_page_get fsr s EE_VALID_PAGE_READ
  if valid_page = EE_VALID_PAGE_NONE then (FMC_STATUS_ERROR_PG, s)
  else
    let end_address := EE_BASE_ADDRESS fsr + valid_page * EE_PAGE_SIZE + EE_PAGE_SIZE - 2
    if read32 s (end_address - 2) ≠ 0xFFFFFFFF then
      let r := flash_ee_copy_to_new_page fsr s
      if r.1 ≠ FMC_STATUS_COMPLETE then r
      else (FMC_STATUS_COMPLETE, r.2)
    else (FMC_STATUS_COMPLETE, s)

/-- Embedding of `flash_ee_erase_transfer`: mark the page in transfer state valid. -/
def flash_ee_erase_transfer (fsr : Nat) (s : Flash) (page0_status _page1_status : Nat) :
    FMC_STATUS_T × Flash :=
  if page0_status = EE_PAGE_TRANSFER then
    FMC_ProgramHalfWord s (EE_PAGE0_ADDRESS fsr) EE_PAGE_VALID
  else
    FMC_ProgramHalfWord s (EE_PAGE1_ADDRESS fsr) EE_PAGE_VALID

/-- Embedding of `flash_ee_valid_transfer`: erase the page in transfer state and transfer the
data again. -/
def flash_ee_valid_transfer (fsr : Nat) (s : Flash) (page0_status _page1_status : Nat) :
    FMC_STATUS_T × Flash :=
  let erase_page_address :=
    if page0_status = EE_PAGE_TRANSFER then EE_PAGE0_ADDRESS fsr else EE_PAGE1_ADDRESS fsr
  let r := flash_ee_page_erase s erase_page_address
  if r.1 ≠ FMC_STATUS_COMPLETE then r
  else flash_ee_copy_to_new_page fsr r.2

/-- The part of `flash_ee_init` between `FMC_Unlock()` and the final `FMC_Lock()`; every early
return of the C function locks the flash and returns the status, which `flash_ee_init` does
with the pair returned here. -/
def flash_ee_init_body (fsr : Nat) (s0 : Flash) : FMC_STATUS_T × Flash :=
  let page0_status := read16 s0 (EE_PAGE0_ADDRESS fsr)
  let page1_status := read16 s0 (EE_PAGE1_ADDRESS fsr)
  let r1 := if page0_status = EE_PAGE_ERASED then flash_ee_page_erase s0 (EE_PAGE0_ADDRESS fsr)
    else (FMC_STATUS_COMPLETE, s0)
  if r1.1 ≠ FMC_STATUS_COMPLETE then r1
  else
    let r2 := if page1_status = EE_PAGE_ERASED then
        flash_ee_page_erase r1.2 (EE_PAGE1_ADDRESS fsr)
      else (FMC_STATUS_COMPLETE, r1.2)
    if r2.1 ≠ FMC_STATUS_COMPLETE then r2
    else
      let r3 := if flash_ee_format_check page0_status page1_status ≠ 0 then
          flash_ee_format fsr r2.2
        else (FMC_STATUS_COMPLETE, r2.2)
      if r3.1 ≠ FMC_STATUS_COMPLETE then r3
      else
        let r4 :=
          if (page0_status = EE_PAGE_ERASED ∧ page1_status = EE_PAGE_TRANSFER) ∨
              (page0_status = EE_PAGE_TRANSFER ∧ page1_status = EE_PAGE_ERASED) then
            flash_ee_erase_transfer fsr r3.2 page0_status page1_status
          else (FMC_STATUS_COMPLETE, r3.2)
        if r4.1 ≠ FMC_STATUS_COMPLETE then r4
        else
          let r5 :=
            if (page0_status = EE_PAGE_VALID ∧ page1_status = EE_PAGE_TRANSFER) ∨
                (page0_status = EE_PAGE_TRANSFER ∧ page1_status = EE_PAGE_VALID) then
              flash_ee_valid_transfer fsr r4.2 page0_status page1_status
            else (FMC_STATUS_COMPLETE, r4.2)
          if r5.1 ≠ FMC_STATUS_COMPLETE then r5
          else
            let r6 := flash_ee_full_check fsr r5.2
            if r6.1 ≠ FMC_STATUS_COMPLETE then r6
            else (FMC_STATUS_COMPLETE, r6.2)

/-- Embedding of `flash_ee_init`: boot-time recovery of the two pages. -/
def flash_ee_init (fsr : Nat) (s : Flash) : FMC_STATUS_T × Flash :=
  let r := flash_ee_init_body fsr (FMC_Unlock s)
  (r.1, FMC_Lock r.2)

/-- The part of `flash_ee_data_write` between `FMC_Unlock()` and the final `FMC_Lock()`. -/
def flash_ee_data_write_body (fsr : Nat) (s0 : Flash) (address data : Nat) :
    FMC_STATUS_T × Flash :=
  let r1 := flash_ee_full_check fsr s0
  if r1.1 ≠ FMC_STATUS_COMPLETE then r1
  else
    let r2 := flash_ee_write_no_check fsr r1.2 address data
    if r2.1 ≠ FMC_STATUS_COMPLETE then r2
    else
      let r3 := flash_ee_full_check fsr r2.2
      if r3.1 ≠ FMC_STATUS_COMPLETE then r3
      else (FMC_STATUS_COMPLETE, r3.2)

/-- Embedding of `flash_ee_data_write`: full check, append, full check, with the flash unlocked
for the duration of the call. -/
def flash_ee_data_write (fsr : Nat) (s : Flash) (address data : Nat) : FMC_STATUS_T × Flash :=
  let r := flash_ee_data_write_body fsr (FMC_Unlock s) address data
  (r.1, FMC_Lock r.2)

/-! ## Vocabulary of the properties -/

/-- Base address of page `p` (0 or 1): `EE_BASE_ADDRESS + p * EE_PAGE_SIZE`. -/
def pageAddress (fsr p : Nat) : Nat := EE_BASE_ADDRESS fsr + p * EE_PAGE_SIZE

/-- Value half-word of record slot `i` of the page at `P` (byte offset `4 + 4 * i`). -/
def slotVal (s : Flash) (P i : Nat) : Nat := read16 s (P + 4 + 4 * i)

/-- Key half-word of record slot `i` of the page at `P` (byte offset `6 + 4 * i`). -/
def slotKey (s : Flash) (P i : Nat) : Nat := read16 s (P + 6 + 4 * i)

/-- Record slot `i` of the page at `P` is in the erased pattern. -/
def SlotFree (s : Flash) (P i : Nat) : Prop := slotVal s P i = 0xFFFF ∧ slotKey s P i = 0xFFFF

/-- The value of the record at the highest address among the first `n` slots of the page at `P`
whose key half-word is `k`, if there is one. -/
def lookup (s : Flash) (P k : Nat) : Nat → Option Nat
  | 0 => none
  | n + 1 => if k = slotKey s P n then some (slotVal s P n) else lookup s P k n

/-- The outcome of a read: status 0 with the value found, or status 1 with `*pdata` untouched. -/
def readResult (o : Option Nat) (pdata : Nat) : Nat × Nat :=
  match o with
  | some v => (0, v)
  | none => (1, pdata)

/-- The number of keys below `n` that have a record in the page at `P`. -/
def foundCount (s : Flash) (P : Nat) : Nat → Nat
  | 0 => 0
  | n + 1 => foundCount s P n + (if (lookup s P n EE_PARA_MAX_NUMBER).isSome then 1 else 0)

/-- Every half-word of the page at `P` reads as erased. -/
def PageErased (s : Flash) (P : Nat) : Prop :=
  ∀ a, P ≤ a → a < P + EE_PAGE_SIZE → read16 s a = 0xFFFF

/-- Page `p` is valid and the other page is entirely erased, on a flash whose operations all
succeed. -/
def Stable (fsr : Nat) (s : Flash) (p : Nat) : Prop :=
  s.script = [] ∧ p ≤ 1 ∧ read16 s (pageAddress fsr p) = EE_PAGE_VALID ∧
    PageErased s (pageAddress fsr (1 - p))

/-- The state invariant of the store: page `p` is valid, the other page is entirely erased, and
in page `p` exactly the slots from `m` on are free. -/
def Holds (fsr : Nat) (s : Flash) (p m : Nat) : Prop :=
  Stable fsr s p ∧ m ≤ EE_PARA_MAX_NUMBER ∧
    (∀ i, i < m → ¬ SlotFree s (pageAddress fsr p) i) ∧
    (∀ i, m ≤ i → i < EE_PARA_MAX_NUMBER → SlotFree s (pageAddress fsr p) i)

/-- A freshly formatted store: page 0 valid and empty, page 1 erased, on a flash whose
operations all succeed. -/
def FreshlyFormatted (fsr : Nat) (s : Flash) : Prop :=
  s.script = [] ∧ read16 s (EE_PAGE0_ADDRESS fsr) = EE_PAGE_VALID ∧
    (∀ a, EE_PAGE0_ADDRESS fsr < a → a < EE_PAGE0_ADDRESS fsr + EE_PAGE_SIZE →
      read16 s a = 0xFFFF) ∧
    PageErased s (EE_PAGE1_ADDRESS fsr)

/-- The store states reachable from a freshly formatted store by calls to
`flash_ee_data_write` (with any arguments and any outcome). -/
inductive Reachable (fsr : Nat) : Flash → Prop where
  | fresh (s : Flash) : FreshlyFormatted fsr s → Reachable fsr s
  | write (s : Flash) (address data : Nat) :
      Reachable fsr s → Reachable fsr (flash_ee_data_write fsr s address data).2

/-- Exactly one page has status Valid and the other has status Erased. -/
def OneValidOtherErased (fsr : Nat) (s : Flash) : Prop :=
  (read16 s (EE_PAGE0_ADDRESS fsr) = EE_PAGE_VALID ∧
      read16 s (EE_PAGE1_ADDRESS fsr) = EE_PAGE_ERASED) ∨
    (read16 s (EE_PAGE0_ADDRESS fsr) = EE_PAGE_ERASED ∧
      read16 s (EE_PAGE1_ADDRESS fsr) = EE_PAGE_VALID)

/-- The number of erase calls in the history of the flash. -/
def eraseCount (s : Flash) : Nat :=
  (s.log.filter (fun o => match o with
    | FlashOp.erase _ _ => true
    | FlashOp.program _ _ _ => false)).length

/-- The concrete freshly formatted flash: page 0 marked valid, every other half-word erased. -/
def freshFlash (fsr : Nat) : Flash :=
  { cell := fun a => if a = EE_PAGE0_ADDRESS fsr then 0 else 0xFFFF
    unlocked := false
    script := []
    log := [] }

/-- The store after `flash_ee_data_write(k, val k)` for the keys `k = 0, ..., n - 1` in order. -/
def writeKeys (fsr : Nat) (val : Nat → Nat) : Nat → Flash → Flash
  | 0, s => s
  | n + 1, s => (flash_ee_data_write fsr (writeKeys fsr val n s) n (val n)).2

/-- The two program calls of `flash_ee_write_no_check` at the slot found at byte address `a`:
the data half-word at `a`, then the variable address at `a + 2`. -/
def programRecord (s : Flash) (a address data : Nat) : FMC_STATUS_T × Flash :=
  let r1 := FMC_ProgramHalfWord s a data
  if r1.1 ≠ FMC_STATUS_COMPLETE then r1
  else
    let r2 := FMC_ProgramHalfWord r1.2 (a + 2) address
    if r2.1 ≠ FMC_STATUS_COMPLETE then r2
    else (FMC_STATUS_COMPLETE, r2.2)

/-- Progress of a compaction from the valid page `p`, whose content is as in `s`, into the
other page: in the state `t` the target page is marked Transfer, the keys below `idx` have been
migrated into its first `m` slots and its remaining slots are free. -/
def Copying (fsr : Nat) (s t : Flash) (p idx m : Nat) : Prop :=
  p ≤ 1 ∧
  (∀ a, ¬ (pageAddress fsr (1 - p) ≤ a ∧ a < pageAddress fsr (1 - p) + EE_PAGE_SIZE) →
    t.cell a = s.cell a) ∧
  read16 s (pageAddress fsr p) = EE_PAGE_VALID ∧
  read16 t (pageAddress fsr (1 - p)) = EE_PAGE_TRANSFER ∧
  (∀ i, i < m → ¬ SlotFree t (pageAddress fsr (1 - p)) i) ∧
  (∀ i, m ≤ i → i < EE_PARA_MAX_NUMBER → SlotFree t (pageAddress fsr (1 - p)) i) ∧
  (∀ k, k ≠ 0xFFFF → lookup t (pageAddress fsr (1 - p)) k EE_PARA_MAX_NUMBER
      = if k < idx then lookup s (pageAddress fsr p) k EE_PARA_MAX_NUMBER else none) ∧
  m = foundCount s (pageAddress fsr p) idx

/-- The data of the valid page `p` of `s` has been migrated to the other page in `f`: the source
page is erased, the target holds one record for every key below `EE_PARA_MAX_NUMBER` that the
source had, in its lowest slots, and nothing else. -/
def Migrated (fsr : Nat) (s f : Flash) (p : Nat) : Prop :=
  PageErased f (pageAddress fsr p) ∧
  (∀ i, i < foundCount s (pageAddress fsr p) EE_PARA_MAX_NUMBER →
    ¬ SlotFree f (pageAddress fsr (1 - p)) i) ∧
  (∀ i, foundCount s (pageAddress fsr p) EE_PARA_MAX_NUMBER ≤ i → i < EE_PARA_MAX_NUMBER →
    SlotFree f (pageAddress fsr (1 - p)) i) ∧
  (∀ k, k ≠ 0xFFFF → lookup f (pageAddress fsr (1 - p)) k EE_PARA_MAX_NUMBER
      = if k < EE_PARA_MAX_NUMBER then lookup s (pageAddress fsr p) k EE_PARA_MAX_NUMBER
        else none)

/-- The valid page `p` of `s` is untouched in `f` and the other page is still marked Erased or
Transfer. -/
def Intact (fsr : Nat) (s f : Flash) (p : Nat) : Prop :=
  (∀ a, pageAddress fsr p ≤ a → a < pageAddress fsr p + EE_PAGE_SIZE → f.cell a = s.cell a) ∧
  (read16 f (pageAddress fsr (1 - p)) = EE_PAGE_ERASED ∨
    read16 f (pageAddress fsr (1 - p)) = EE_PAGE_TRANSFER)

/-- The part of `flash_ee_data_write` after the first fullness check: append the record, then
check for fullness again. -/
def writeTail (fsr : Nat) (s : Flash) (address data : Nat) : FMC_STATUS_T × Flash :=
  let r2 := flash_ee_write_no_check fsr s address data
  if r2.1 ≠ FMC_STATUS_COMPLETE then r2
  else
    let r3 := flash_ee_full_check fsr r2.2
    if r3.1 ≠ FMC_STATUS_COMPLETE then r3
    else (FMC_STATUS_COMPLETE, r3.2)

/-- The 32-bit word that `flash_ee_full_check` tests: the last record slot of the page that is
valid in read mode. -/
def lastSlotWord (fsr : Nat) (s : Flash) : Nat :=
  read32 s (EE_BASE_ADDRESS fsr + flash_ee_valid_page_get fsr s EE_VALID_PAGE_READ * EE_PAGE_SIZE
    + EE_PAGE_SIZE - 2 - 2)

/-- A concrete flash with a record for a key outside the key range: page 0 is valid and its
first slot holds the value 7 under the key 511; every other half-word is erased. -/
def strayKeyFlash (fsr : Nat) : Flash :=
  { cell := fun a =>
      if a = EE_PAGE0_ADDRESS fsr then 0
      else if a = EE_PAGE0_ADDRESS fsr + 4 then 7
      else if a = EE_PAGE0_ADDRESS fsr + 6 then 511
      else 0xFFFF
    unlocked := false
    script := []
    log := [] }

/-- The driver statuses of a run that loses power after `n` flash operations: the first `n`
erase/program calls are carried out, the next one is not. -/
def cutAfter (n : Nat) : List FMC_STATUS_T :=
  List.replicate n FMC_STATUS_COMPLETE ++ [FMC_STATUS_TIMEOUT]

/-- The flash found at the next boot when `flash_ee_copy_to_new_page` is started in the state
`s` and power is lost after `n` of its flash operations (the compaction runs to its end when it
has no more than `n` operations).  The power cycle leaves the flash locked and working. -/
def crashDuringCopy (fsr : Nat) (s : Flash) (n : Nat) : Flash :=
  { (flash_ee_copy_to_new_page fsr { s with script := cutAfter n }).2 with
    script := []
    unlocked := false }

/-! ## The demo of `main.c` -/

/-- Size of the two buffers of `main.c` (`BUF_SIZE`). -/
def BUF_SIZE : Nat := 10

/-- The values written by the demo (`buf_write`). -/
def buf_write : List Nat :=
  [0x2000, 0x2001, 0x2002, 0x2003, 0x2004, 0x2005, 0x2006, 0x2007, 0x2008, 0x2009]

/-- The `for` loop of `buffer_compare`: `n` bounds the remaining iterations, `i` is the index. -/
def buffer_compare_loop (buffer1 buffer2 : List Nat) (len : Nat) : Nat → Nat → Nat
  | 0, _ => 0
  | n + 1, i =>
    if i < len then
      if buffer1.getD i 0 ≠ buffer2.getD i 0 then 1
      else buffer_compare_loop buffer1 buffer2 len n (i + 1)
    else 0

/-- Embedding of `buffer_compare`: 0 when the first `len` entries of the buffers are equal, 1
otherwise. -/
def buffer_compare (buffer1 buffer2 : List Nat) (len : Nat) : Nat :=
  buffer_compare_loop buffer1 buffer2 len len 0

/-- The first `for` loop of `main`: write `buf_write[i]` under the key `i`. -/
def main_write_loop (fsr : Nat) : Nat → Nat → Flash → Flash
  | 0, _, s => s
  | n + 1, i, s =>
    if i < BUF_SIZE then
      main_write_loop fsr n (i + 1) (flash_ee_data_write fsr s i (buf_write.getD i 0)).2
    else s

/-- The second `for` loop of `main`: read the key `i` into `buf_read[i]`. -/
def main_read_loop (fsr : Nat) (s : Flash) : Nat → Nat → List Nat → List Nat
  | 0, _, buf_read => buf_read
  | n + 1, i, buf_read =>
    if i < BUF_SIZE then
      main_read_loop fsr s n (i + 1)
        (buf_read.set i (flash_ee_data_read fsr s i (buf_read.getD i 0)).2)
    else buf_read

/-- Embedding of `main` up to the comparison of the two buffers: whether LED2 is switched on,
the content of `buf_read`, and the flash after the writes.  `buf_read` is a zero-initialised
global. -/
def main (fsr : Nat) (s : Flash) : Bool × List Nat × Flash :=
  let s1 := FMC_Unlock s
  let s2 := (flash_ee_init fsr s1).2
  let s3 := main_write_loop fsr BUF_SIZE 0 s2
  let buf_read := main_read_loop fsr s3 BUF_SIZE 0 (List.replicate BUF_SIZE 0)
  (buffer_compare buf_write buf_read BUF_SIZE == 0, buf_read, s3)

/-! ## Vocabulary of the driver history -/

/-- The state of the write-enable flag recorded with a driver call. -/
def opEnabled : FlashOp → Bool
  | FlashOp.erase _ e => e
  | FlashOp.program _ _ e => e

/-- The status the driver reports for its call number `i` (counting from 0) from the state `s`
on. -/
def statusAt (s : Flash) (i : Nat) : FMC_STATUS_T := s.script.getD i FMC_STATUS_COMPLETE

/-- The number of driver calls made on the way from the state `s` to the state `t`. -/
def callsBetween (s t : Flash) : Nat := t.log.length - s.log.length

/-- The run from the state `s` to the result `r` is a sequence of driver calls, each made with
the write-enable flag as it is in `s`, the flag is left as it was, and either every call
succeeded or the last call is the first one that failed and its status is the result. -/
def Run (s : Flash) (r : FMC_STATUS_T × Flash) : Prop :=
  ∃ new : List FlashOp,
    r.2.log = new ++ s.log ∧
    r.2.script = s.script.drop new.length ∧
    r.2.unlocked = s.unlocked ∧
    (∀ op, op ∈ new → opEnabled op = s.unlocked) ∧
    ((∀ i, i < new.length → statusAt s i = FMC_STATUS_COMPLETE) ∨
      (∃ n, new.length = n + 1 ∧ (∀ i, i < n → statusAt s i = FMC_STATUS_COMPLETE) ∧
        statusAt s n ≠ FMC_STATUS_COMPLETE ∧ r.1 = statusAt s n))

/-- A flash whose two pages read Valid (every half-word is zero) and whose driver carries out one
call and fails the next one with a timeout. -/
def zeroFlashOneCall : Flash :=
  { cell := fun _ => 0
    unlocked := false
    script := [FMC_STATUS_T.FMC_STATUS_COMPLETE, FMC_STATUS_T.FMC_STATUS_TIMEOUT]
    log := [] }

/-- The concrete freshly formatted content on a driver that carries out one call and fails the
next one with a timeout. -/
def freshFlashOneCall (fsr : Nat) : Flash :=
  { freshFlash fsr with
    script := [FMC_STATUS_T.FMC_STATUS_COMPLETE, FMC_STATUS_T.FMC_STATUS_TIMEOUT] }

/-- The blank flash: every half-word reads erased, so that no page is valid. -/
def blankFlash : Flash :=
  { cell := fun _ => 0xFFFF
    unlocked := false
    script := []
    log := [] }

/-- The store states of one power-up on the initial flash `s0`: the state in which
`flash_ee_init` has returned `FMC_STATUS_COMPLETE`, and the states in which calls of
`flash_ee_data_write` (with any arguments and any outcome) have returned since. -/
inductive AfterInit (fsr : Nat) (s0 : Flash) : Flash → Prop where
  | init : (flash_ee_init fsr s0).1 = FMC_STATUS_COMPLETE →
      AfterInit fsr s0 (flash_ee_init fsr s0).2
  | write (t : Flash) (address data : Nat) :
      AfterInit fsr s0 t → AfterInit fsr s0 (flash_ee_data_write fsr t address data).2

/-- A concrete flash whose valid page has a gap: page 0 is valid, its record slot 0 is erased
and its record slot 1 holds the value 9 under the key 5; every other half-word is erased. -/
def gapFlash (fsr : Nat) : Flash :=
  { cell := fun a =>
      if a = EE_PAGE0_ADDRESS fsr then 0
      else if a = EE_PAGE0_ADDRESS fsr + 8 then 9
      else if a = EE_PAGE0_ADDRESS fsr + 10 then 5
      else 0xFFFF
    unlocked := false
    script := []
    log := [] }

/-! ## Basic facts -/

theorem EE_PAGE_SIZE_eq : EE_PAGE_SIZE = 2048 := rfl

theorem EE_SECTOR_SIZE_eq : EE_SECTOR_SIZE = 2048 := rfl

theorem EE_PARA_MAX_NUMBER_eq : EE_PARA_MAX_NUMBER = 511 := rfl

theorem EE_PAGE0_ADDRESS_eq (fsr : Nat) : EE_PAGE0_ADDRESS fsr = pageAddress fsr 0 := by
  simp [EE_PAGE0_ADDRESS, pageAddress]

theorem EE_PAGE1_ADDRESS_eq (fsr : Nat) : EE_PAGE1_ADDRESS fsr = pageAddress fsr 1 := by
  simp [EE_PAGE1_ADDRESS, EE_PAGE0_ADDRESS, pageAddress]

theorem pageAddress_zero (fsr : Nat) : pageAddress fsr 0 = EE_BASE_ADDRESS fsr := by
  simp [pageAddress]

theorem pageAddress_one (fsr : Nat) : pageAddress fsr 1 = EE_BASE_ADDRESS fsr + 2048 := by
  simp [pageAddress, EE_PAGE_SIZE_eq]

theorem read16_lt (s : Flash) (a : Nat) : read16 s a < 65536 := by
  unfold read16; omega

theorem read32_eq_ffffffff (s : Flash) (a : Nat) :
    read32 s a = 0xFFFFFFFF ↔ read16 s a = 0xFFFF ∧ read16 s (a + 2) = 0xFFFF := by
  have h1 := read16_lt s a
  have h2 := read16_lt s (a + 2)
  unfold read32
  omega

theorem and_ffff (x : Nat) : 65535 &&& (x % 65536) = x % 65536 := by
  have h := Nat.and_pow_two_sub_one_eq_mod (x % 65536) 16
  rw [Nat.and_comm]
  simpa using h

/-! ### The driver on cells -/

theorem nextStatus_nil {s : Flash} (h : s.script = []) : nextStatus s = FMC_STATUS_COMPLETE := by
  simp [nextStatus, h]

theorem program_fst (s : Flash) (a d : Nat) : (FMC_ProgramHalfWord s a d).1 = nextStatus s := by
  unfold FMC_ProgramHalfWord
  by_cases h : nextStatus s = FMC_STATUS_COMPLETE <;> simp [h]

theorem program_script (s : Flash) (a d : Nat) :
    (FMC_ProgramHalfWord s a d).2.script = s.script.tail := by
  unfold FMC_ProgramHalfWord
  by_cases h : nextStatus s = FMC_STATUS_COMPLETE <;> simp [h]

theorem program_unlocked (s : Flash) (a d : Nat) :
    (FMC_ProgramHalfWord s a d).2.unlocked = s.unlocked := by
  unfold FMC_ProgramHalfWord
  by_cases h : nextStatus s = FMC_STATUS_COMPLETE <;> simp [h]

theorem program_log (s : Flash) (a d : Nat) :
    (FMC_ProgramHalfWord s a d).2.log = FlashOp.program a d s.unlocked :: s.log := by
  unfold FMC_ProgramHalfWord
  by_cases h : nextStatus s = FMC_STATUS_COMPLETE <;> simp [h]

theorem program_cell_other (s : Flash) (a d x : Nat) (hx : x ≠ a) :
    (FMC_ProgramHalfWord s a d).2.cell x = s.cell x := by
  unfold FMC_ProgramHalfWord
  by_cases h : nextStatus s = FMC_STATUS_COMPLETE <;> simp [h, hx]

theorem program_cell_fail (s : Flash) (a d : Nat)
    (h : (FMC_ProgramHalfWord s a d).1 ≠ FMC_STATUS_COMPLETE) :
    (FMC_ProgramHalfWord s a d).2.cell = s.cell := by
  rw [program_fst] at h
  unfold FMC_ProgramHalfWord
  simp [h]

theorem program_read16_other (s : Flash) (a d x : Nat) (hx : x ≠ a) :
    read16 (FMC_ProgramHalfWord s a d).2 x = read16 s x := by
  unfold read16
  rw [program_cell_other s a d x hx]

theorem program_read16_same (s : Flash) (a d : Nat)
    (h : (FMC_ProgramHalfWord s a d).1 = FMC_STATUS_COMPLETE) :
    read16 (FMC_ProgramHalfWord s a d).2 a = read16 s a &&& (d % 65536) := by
  rw [program_fst] at h
  have hlt : read16 s a &&& (d % 65536) < 65536 :=
    lt_of_le_of_lt Nat.and_le_left (read16_lt s a)
  unfold FMC_ProgramHalfWord
  simp only [h, if_true]
  show (if a = a then read16 s a &&& (d % 65536) else s.cell a) % 65536 = _
  simp [Nat.mod_eq_of_lt hlt]

theorem program_read16_erased (s : Flash) (a d : Nat)
    (h : (FMC_ProgramHalfWord s a d).1 = FMC_STATUS_COMPLETE) (he : read16 s a = 0xFFFF) :
    read16 (FMC_ProgramHalfWord s a d).2 a = d % 65536 := by
  rw [program_read16_same s a d h, he]
  exact and_ffff d

theorem program_read16_zero (s : Flash) (a : Nat)
    (h : (FMC_ProgramHalfWord s a 0).1 = FMC_STATUS_COMPLETE) :
    read16 (FMC_ProgramHalfWord s a 0).2 a = 0 := by
  rw [program_read16_same s a 0 h]
  simp

theorem program_eraseCount (s : Flash) (a d : Nat) :
    eraseCount (FMC_ProgramHalfWord s a d).2 = eraseCount s := by
  simp [eraseCount, program_log]

theorem erase_fst (n : Nat) (s : Flash) (a : Nat) : (FMC_ErasePage n s a).1 = nextStatus s := by
  unfold FMC_ErasePage
  by_cases h : nextStatus s = FMC_STATUS_COMPLETE <;> simp [h]

theorem erase_script (n : Nat) (s : Flash) (a : Nat) :
    (FMC_ErasePage n s a).2.script = s.script.tail := by
  unfold FMC_ErasePage
  by_cases h : nextStatus s = FMC_STATUS_COMPLETE <;> simp [h]

theorem erase_unlocked (n : Nat) (s : Flash) (a : Nat) :
    (FMC_ErasePage n s a).2.unlocked = s.unlocked := by
  unfold FMC_ErasePage
  by_cases h : nextStatus s = FMC_STATUS_COMPLETE <;> simp [h]

theorem erase_log (n : Nat) (s : Flash) (a : Nat) :
    (FMC_ErasePage n s a).2.log = FlashOp.erase a s.unlocked :: s.log := by
  unfold FMC_ErasePage
  by_cases h : nextStatus s = FMC_STATUS_COMPLETE <;> simp [h]

theorem erase_cell_outside (n : Nat) (s : Flash) (a x : Nat) (hx : ¬ (a ≤ x ∧ x < a + n)) :
    (FMC_ErasePage n s a).2.cell x = s.cell x := by
  unfold FMC_ErasePage
  by_cases h : nextStatus s = FMC_STATUS_COMPLETE <;> simp [h]
  intro h1 h2
  exact absurd ⟨h1, h2⟩ hx

theorem erase_cell_fail (n : Nat) (s : Flash) (a : Nat)
    (h : (FMC_ErasePage n s a).1 ≠ FMC_STATUS_COMPLETE) :
    (FMC_ErasePage n s a).2.cell = s.cell := by
  rw [erase_fst] at h
  unfold FMC_ErasePage
  simp [h]

theorem erase_read16_inside (n : Nat) (s : Flash) (a x : Nat)
    (h : (FMC_ErasePage n s a).1 = FMC_STATUS_COMPLETE) (h1 : a ≤ x) (h2 : x < a + n) :
    read16 (FMC_ErasePage n s a).2 x = 0xFFFF := by
  rw [erase_fst] at h
  unfold FMC_ErasePage read16
  simp [h, h1, h2]

theorem erase_read16_outside (n : Nat) (s : Flash) (a x : Nat) (hx : ¬ (a ≤ x ∧ x < a + n)) :
    read16 (FMC_ErasePage n s a).2 x = read16 s x := by
  unfold read16
  rw [erase_cell_outside n s a x hx]

theorem page_erase_eq (s : Flash) (P : Nat) :
    flash_ee_page_erase s P = FMC_ErasePage EE_SECTOR_SIZE s P := by
  unfold flash_ee_page_erase
  simp only [EE_SECTOR_NUM, flash_ee_page_erase_loop, Nat.zero_mul, Nat.add_zero]
  by_cases h : (FMC_ErasePage EE_SECTOR_SIZE s P).1 = FMC_STATUS_COMPLETE
  · simp only [h, ne_eq, not_true_eq_false, if_false]
    rw [← h]
  · simp [h]

/-! ### Page resolution -/

theorem valid_page_read (fsr : Nat) (s : Flash) (p : Nat) (hp : p ≤ 1)
    (hv : read16 s (pageAddress fsr p) = EE_PAGE_VALID)
    (ho : read16 s (pageAddress fsr (1 - p)) ≠ EE_PAGE_VALID) :
    flash_ee_valid_page_get fsr s EE_VALID_PAGE_READ = p := by
  unfold flash_ee_valid_page_get
  rw [EE_PAGE0_ADDRESS_eq, EE_PAGE1_ADDRESS_eq]
  have h01 : p = 0 ∨ p = 1 := by omega
  rcases h01 with rfl | rfl
  · simp [hv, EE_VALID_PAGE0]
  · simp only [Nat.sub_self] at ho
    simp [hv, ho, EE_VALID_PAGE1]

theorem valid_page_write_transfer (fsr : Nat) (s : Flash) (q : Nat) (hq : q ≤ 1)
    (hv : read16 s (pageAddress fsr q) = EE_PAGE_TRANSFER)
    (ho : read16 s (pageAddress fsr (1 - q)) ≠ EE_PAGE_TRANSFER) :
    flash_ee_valid_page_get fsr s EE_VALID_PAGE_WRITE = q := by
  unfold flash_ee_valid_page_get
  rw [EE_PAGE0_ADDRESS_eq, EE_PAGE1_ADDRESS_eq]
  have h01 : q = 0 ∨ q = 1 := by omega
  rcases h01 with rfl | rfl
  · simp [hv, EE_VALID_PAGE0]
  · simp only [Nat.sub_self] at ho
    simp [hv, ho, EE_VALID_PAGE1]

theorem valid_page_write_valid (fsr : Nat) (s : Flash) (p : Nat) (hp : p ≤ 1)
    (hv : read16 s (pageAddress fsr p) = EE_PAGE_VALID)
    (ho : read16 s (pageAddress fsr (1 - p)) = EE_PAGE_ERASED) :
    flash_ee_valid_page_get fsr s EE_VALID_PAGE_WRITE = p := by
  unfold flash_ee_valid_page_get
  rw [EE_PAGE0_ADDRESS_eq, EE_PAGE1_ADDRESS_eq]
  have h01 : p = 0 ∨ p = 1 := by omega
  rcases h01 with rfl | rfl
  · simp only [Nat.sub_zero] at ho
    simp [hv, ho, EE_VALID_PAGE0, EE_PAGE_VALID, EE_PAGE_TRANSFER, EE_PAGE_ERASED]
  · simp only [Nat.sub_self] at ho
    simp [hv, ho, EE_VALID_PAGE1, EE_PAGE_VALID, EE_PAGE_TRANSFER, EE_PAGE_ERASED]

/-- The write-mode page, when there is one, has status Transfer or Valid. -/
theorem valid_page_write_status (fsr : Nat) (s : Flash) (q : Nat) (hq : q ≤ 1)
    (h : flash_ee_valid_page_get fsr s EE_VALID_PAGE_WRITE = q) :
    read16 s (pageAddress fsr q) = EE_PAGE_TRANSFER ∨
      read16 s (pageAddress fsr q) = EE_PAGE_VALID := by
  unfold flash_ee_valid_page_get at h
  rw [EE_PAGE0_ADDRESS_eq, EE_PAGE1_ADDRESS_eq] at h
  simp only [EE_VALID_PAGE0, EE_VALID_PAGE1, EE_VALID_PAGE_NONE] at h
  split_ifs at h <;> (subst h; simp_all)

/-! ### The reader -/

theorem lookup_succ (s : Flash) (P k n : Nat) :
    lookup s P k (n + 1)
      = if k = slotKey s P n then some (slotVal s P n) else lookup s P k n := rfl

theorem lookup_lt (s : Flash) (P k : Nat) (n v : Nat) (h : lookup s P k n = some v) :
    v < 65536 := by
  induction n with
  | zero => simp [lookup] at h
  | succ n ih =>
    unfold lookup at h
    split_ifs at h
    · cases h
      exact read16_lt _ _
    · exact ih h

theorem lookup_congr (s t : Flash) (P k : Nat) (n : Nat)
    (h : ∀ i, i < n → slotKey t P i = slotKey s P i ∧ slotVal t P i = slotVal s P i) :
    lookup t P k n = lookup s P k n := by
  induction n with
  | zero => rfl
  | succ n ih =>
    unfold lookup
    rw [(h n (Nat.lt_succ_self n)).1, (h n (Nat.lt_succ_self n)).2,
      ih (fun i hi => h i (Nat.lt_succ_of_lt hi))]

theorem lookup_skip (s : Flash) (P k : Nat) (m d : Nat)
    (h : ∀ i, m ≤ i → i < m + d → slotKey s P i ≠ k) :
    lookup s P k (m + d) = lookup s P k m := by
  induction d with
  | zero => rfl
  | succ d ih =>
    have hk : ¬ k = slotKey s P (m + d) := fun e => h (m + d) (by omega) (by omega) e.symm
    show lookup s P k ((m + d) + 1) = _
    rw [lookup_succ, if_neg hk]
    exact ih (fun i h1 h2 => h i h1 (by omega))

theorem lookup_none_iff (s : Flash) (P k : Nat) (n : Nat) :
    lookup s P k n = none ↔ ∀ i, i < n → slotKey s P i ≠ k := by
  induction n with
  | zero => simp [lookup]
  | succ n ih =>
    unfold lookup
    constructor
    · intro h i hi
      split_ifs at h with hk
      rcases Nat.lt_succ_iff_lt_or_eq.mp hi with h1 | rfl
      · exact ih.mp h i h1
      · exact fun e => hk e.symm
    · intro h
      rw [if_neg (fun e => h n (Nat.lt_succ_self n) e.symm)]
      exact ih.mpr (fun i hi => h i (Nat.lt_succ_of_lt hi))

theorem read_loop_eq (s : Flash) (k P : Nat) (n : Nat) :
    ∀ fuel pdata, n ≤ fuel →
      flash_ee_data_read_loop s k (P + 4) fuel (P + 4 * n + 2) pdata
        = readResult (lookup s P k n) pdata := by
  induction n with
  | zero =>
    intro fuel pdata _
    cases fuel with
    | zero => simp [flash_ee_data_read_loop, lookup, readResult]
    | succ f => simp [flash_ee_data_read_loop, lookup, readResult]
  | succ n ih =>
    intro fuel pdata hf
    cases fuel with
    | zero => omega
    | succ f =>
      unfold flash_ee_data_read_loop lookup
      have hgt : P + 4 * (n + 1) + 2 > P + 4 := by omega
      have e1 : P + 4 * (n + 1) + 2 = P + 6 + 4 * n := by omega
      have e2 : P + 4 * (n + 1) + 2 - 2 = P + 4 + 4 * n := by omega
      have e3 : P + 4 * (n + 1) + 2 - 4 = P + 4 * n + 2 := by omega
      simp only [hgt, if_true, e2, e3]
      rw [e1]
      by_cases hk : k = read16 s (P + 6 + 4 * n)
      · simp [slotKey, slotVal, ← hk, readResult]
      · simp only [slotKey, hk, if_false]
        exact ih f pdata (by omega)

/-- The reader returns the newest record of the valid page. -/
theorem read_eq (fsr : Nat) (s : Flash) (p : Nat) (hp : p ≤ 1)
    (h : flash_ee_valid_page_get fsr s EE_VALID_PAGE_READ = p) (k pdata : Nat) :
    flash_ee_data_read fsr s k pdata
      = readResult (lookup s (pageAddress fsr p) k EE_PARA_MAX_NUMBER) pdata := by
  unfold flash_ee_data_read
  simp only [h]
  have hne : p ≠ EE_VALID_PAGE_NONE := by unfold EE_VALID_PAGE_NONE; omega
  simp only [hne, if_false]
  have e1 : EE_BASE_ADDRESS fsr + p * EE_PAGE_SIZE + EE_PAGE_SIZE - 2
      = pageAddress fsr p + 4 * 511 + 2 := by
    unfold pageAddress; rw [EE_PAGE_SIZE_eq]; omega
  have e2 : EE_BASE_ADDRESS fsr + p * EE_PAGE_SIZE + 4 = pageAddress fsr p + 4 := rfl
  rw [e1, e2, EE_PARA_MAX_NUMBER_eq]
  exact read_loop_eq s k (pageAddress fsr p) 511 _ pdata (by omega)

/-! ### The writer -/

theorem write_loop_skip (k v P : Nat) (s : Flash) (d : Nat) :
    ∀ fuel j, d ≤ fuel → j + d ≤ 512 →
      (∀ i, j ≤ i → i < j + d → read32 s (P + 4 * i) ≠ 0xFFFFFFFF) →
      flash_ee_write_no_check_loop k v (P + 2046) fuel (P + 4 * j) s
        = flash_ee_write_no_check_loop k v (P + 2046) (fuel - d) (P + 4 * (j + d)) s := by
  induction d with
  | zero => intro fuel j _ _ _; rfl
  | succ d ih =>
    intro fuel j hf hj h
    cases fuel with
    | zero => omega
    | succ f =>
      have hlt : P + 4 * j < P + 2046 := by omega
      have hne := h j (le_refl j) (by omega)
      rw [flash_ee_write_no_check_loop]
      simp only [hlt, if_true, hne, if_false]
      have e1 : P + 4 * j + 4 = P + 4 * (j + 1) := by omega
      have e2 : f + 1 - (d + 1) = f - d := by omega
      have e3 : j + (d + 1) = (j + 1) + d := by omega
      rw [e1, e2, e3]
      exact ih f (j + 1) (by omega) (by omega) (fun i h1 h2 => h i (by omega) (by omega))

theorem write_loop_found (k v P : Nat) (s : Flash) (fuel j : Nat) (hf : 0 < fuel)
    (hj : j ≤ 511) (h : read32 s (P + 4 * j) = 0xFFFFFFFF) :
    flash_ee_write_no_check_loop k v (P + 2046) fuel (P + 4 * j) s
      = programRecord s (P + 4 * j) k v := by
  cases fuel with
  | zero => omega
  | succ f =>
    have hlt : P + 4 * j < P + 2046 := by omega
    rw [flash_ee_write_no_check_loop]
    simp only [hlt, if_true, h]
    rfl

theorem write_loop_end (k v P : Nat) (s : Flash) (fuel : Nat) :
    flash_ee_write_no_check_loop k v (P + 2046) fuel (P + 4 * 512) s
      = (FMC_STATUS_ERROR_PG, s) := by
  cases fuel with
  | zero => rfl
  | succ f =>
    have hlt : ¬ (P + 4 * 512 < P + 2046) := by omega
    rw [flash_ee_write_no_check_loop]
    simp only [hlt, if_false]

theorem slotFree_iff_read32 (s : Flash) (P i : Nat) :
    SlotFree s P i ↔ read32 s (P + 4 * (i + 1)) = 0xFFFFFFFF := by
  rw [read32_eq_ffffffff]
  unfold SlotFree slotVal slotKey
  have e1 : P + 4 * (i + 1) = P + 4 + 4 * i := by omega
  have e2 : P + 4 + 4 * i + 2 = P + 6 + 4 * i := by omega
  rw [e1, e2]

theorem write_no_check_unfold (fsr : Nat) (s : Flash) (q : Nat) (hq : q ≤ 1)
    (h : flash_ee_valid_page_get fsr s EE_VALID_PAGE_WRITE = q) (k v : Nat) :
    flash_ee_write_no_check fsr s k v
      = flash_ee_write_no_check_loop k v (pageAddress fsr q + 2046) 2046
          (pageAddress fsr q + 4 * 0) s := by
  unfold flash_ee_write_no_check
  simp only [h]
  have hne : q ≠ EE_VALID_PAGE_NONE := by unfold EE_VALID_PAGE_NONE; omega
  simp only [hne, if_false]
  have e1 : EE_BASE_ADDRESS fsr + q * EE_PAGE_SIZE + EE_PAGE_SIZE - 2
      = pageAddress fsr q + 2046 := by
    unfold pageAddress; rw [EE_PAGE_SIZE_eq]; omega
  have e2 : EE_BASE_ADDRESS fsr + q * EE_PAGE_SIZE = pageAddress fsr q := rfl
  rw [e1, e2]
  have e3 : pageAddress fsr q + 2046 - pageAddress fsr q = 2046 := by omega
  rw [e3]
  simp only [Nat.mul_zero, Nat.add_zero]

theorem header_word_ne (fsr : Nat) (s : Flash) (q : Nat) (hq : q ≤ 1)
    (h : flash_ee_valid_page_get fsr s EE_VALID_PAGE_WRITE = q) :
    read32 s (pageAddress fsr q + 4 * 0) ≠ 0xFFFFFFFF := by
  intro hh
  rw [read32_eq_ffffffff] at hh
  have e : pageAddress fsr q + 4 * 0 = pageAddress fsr q := by omega
  rw [e] at hh
  rcases valid_page_write_status fsr s q hq h with h1 | h1
  · rw [h1] at hh; simp [EE_PAGE_TRANSFER] at hh
  · rw [h1] at hh; simp [EE_PAGE_VALID] at hh

/-- The writer appends at the lowest free slot. -/
theorem write_no_check_found (fsr : Nat) (s : Flash) (q m : Nat) (hq : q ≤ 1)
    (h : flash_ee_valid_page_get fsr s EE_VALID_PAGE_WRITE = q) (hm : m < 511)
    (hused : ∀ i, i < m → ¬ SlotFree s (pageAddress fsr q) i)
    (hfree : SlotFree s (pageAddress fsr q) m) (k v : Nat) :
    flash_ee_write_no_check fsr s k v
      = programRecord s (pageAddress fsr q + 4 + 4 * m) k v := by
  rw [write_no_check_unfold fsr s q hq h]
  rw [write_loop_skip k v (pageAddress fsr q) s (m + 1) 2046 0 (by omega) (by omega)]
  · rw [write_loop_found k v (pageAddress fsr q) s _ _ (by omega) (by omega)]
    · have e : pageAddress fsr q + 4 * (0 + (m + 1)) = pageAddress fsr q + 4 + 4 * m := by omega
      rw [e]
    · have := (slotFree_iff_read32 s (pageAddress fsr q) m).mp hfree
      have e : 0 + (m + 1) = m + 1 := by omega
      rw [e]; exact this
  · intro i _ hi
    rcases Nat.eq_zero_or_pos i with rfl | hpos
    · exact header_word_ne fsr s q hq h
    · obtain ⟨i', rfl⟩ : ∃ i', i = i' + 1 := ⟨i - 1, by omega⟩
      intro hh
      exact hused i' (by omega) ((slotFree_iff_read32 s (pageAddress fsr q) i').mpr hh)

/-- The writer reports a full page without touching the flash. -/
theorem write_no_check_full (fsr : Nat) (s : Flash) (q : Nat) (hq : q ≤ 1)
    (h : flash_ee_valid_page_get fsr s EE_VALID_PAGE_WRITE = q)
    (hused : ∀ i, i < 511 → ¬ SlotFree s (pageAddress fsr q) i) (k v : Nat) :
    flash_ee_write_no_check fsr s k v = (FMC_STATUS_ERROR_PG, s) := by
  rw [write_no_check_unfold fsr s q hq h]
  rw [write_loop_skip k v (pageAddress fsr q) s 512 2046 0 (by omega) (by omega)]
  · exact write_loop_end k v (pageAddress fsr q) s _
  · intro i _ hi
    rcases Nat.eq_zero_or_pos i with rfl | hpos
    · exact header_word_ne fsr s q hq h
    · obtain ⟨i', rfl⟩ : ∃ i', i = i' + 1 := ⟨i - 1, by omega⟩
      intro hh
      exact hused i' (by omega) ((slotFree_iff_read32 s (pageAddress fsr q) i').mpr hh)

theorem programRecord_frame (s : Flash) (a k v x : Nat) (h1 : x ≠ a) (h2 : x ≠ a + 2) :
    (programRecord s a k v).2.cell x = s.cell x := by
  unfold programRecord
  simp only
  split_ifs
  · exact program_cell_other s a v x h1
  · rw [program_cell_other _ _ _ x h2, program_cell_other s a v x h1]
  · rw [program_cell_other _ _ _ x h2, program_cell_other s a v x h1]

theorem programRecord_read16_other (s : Flash) (a k v x : Nat) (h1 : x ≠ a) (h2 : x ≠ a + 2) :
    read16 (programRecord s a k v).2 x = read16 s x := by
  unfold read16
  rw [programRecord_frame s a k v x h1 h2]

theorem programRecord_steps (s : Flash) (a k v : Nat)
    (h : (programRecord s a k v).1 = FMC_STATUS_COMPLETE) :
    (FMC_ProgramHalfWord s a v).1 = FMC_STATUS_COMPLETE ∧
    (FMC_ProgramHalfWord (FMC_ProgramHalfWord s a v).2 (a + 2) k).1 = FMC_STATUS_COMPLETE ∧
    (programRecord s a k v).2 = (FMC_ProgramHalfWord (FMC_ProgramHalfWord s a v).2 (a + 2) k).2 := by
  unfold programRecord at h ⊢
  simp only at h ⊢
  by_cases h1 : (FMC_ProgramHalfWord s a v).1 = FMC_STATUS_COMPLETE
  · by_cases h2 : (FMC_ProgramHalfWord (FMC_ProgramHalfWord s a v).2 (a + 2) k).1
        = FMC_STATUS_COMPLETE
    · simp [h1, h2]
    · simp [h1, h2] at h
  · simp [h1] at h

theorem programRecord_read16_val (s : Flash) (a k v : Nat)
    (h : (programRecord s a k v).1 = FMC_STATUS_COMPLETE) (he : read16 s a = 0xFFFF) :
    read16 (programRecord s a k v).2 a = v % 65536 := by
  obtain ⟨h1, _, h3⟩ := programRecord_steps s a k v h
  rw [h3, program_read16_other _ _ _ a (by omega)]
  exact program_read16_erased s a v h1 he

theorem programRecord_read16_key (s : Flash) (a k v : Nat)
    (h : (programRecord s a k v).1 = FMC_STATUS_COMPLETE) (he : read16 s (a + 2) = 0xFFFF) :
    read16 (programRecord s a k v).2 (a + 2) = k % 65536 := by
  obtain ⟨_, h2, h3⟩ := programRecord_steps s a k v h
  rw [h3]
  apply program_read16_erased _ _ _ h2
  rw [program_read16_other _ _ _ (a + 2) (by omega)]
  exact he

theorem programRecord_nil (s : Flash) (a k v : Nat) (h : s.script = []) :
    (programRecord s a k v).1 = FMC_STATUS_COMPLETE ∧ (programRecord s a k v).2.script = [] := by
  have h1 : (FMC_ProgramHalfWord s a v).1 = FMC_STATUS_COMPLETE := by
    rw [program_fst]; exact nextStatus_nil h
  have hs1 : (FMC_ProgramHalfWord s a v).2.script = [] := by
    rw [program_script, h]; rfl
  have h2 : (FMC_ProgramHalfWord (FMC_ProgramHalfWord s a v).2 (a + 2) k).1
      = FMC_STATUS_COMPLETE := by
    rw [program_fst]; exact nextStatus_nil hs1
  have hs2 : (FMC_ProgramHalfWord (FMC_ProgramHalfWord s a v).2 (a + 2) k).2.script = [] := by
    rw [program_script, hs1]; rfl
  unfold programRecord
  simp [h1, h2, hs2]

theorem programRecord_eraseCount (s : Flash) (a k v : Nat) :
    eraseCount (programRecord s a k v).2 = eraseCount s := by
  unfold programRecord
  simp only
  split_ifs <;> simp [program_eraseCount]

theorem programRecord_unlocked (s : Flash) (a k v : Nat) :
    (programRecord s a k v).2.unlocked = s.unlocked := by
  unfold programRecord
  simp only
  split_ifs <;> simp [program_unlocked]

/-- Slots of a page after a record has been programmed into its free slot `m`. -/
theorem programRecord_slots (s : Flash) (P m k v : Nat)
    (h : (programRecord s (P + 4 + 4 * m) k v).1 = FMC_STATUS_COMPLETE)
    (hfree : SlotFree s P m) (i : Nat) :
    slotKey (programRecord s (P + 4 + 4 * m) k v).2 P i
        = (if i = m then k % 65536 else slotKey s P i) ∧
      slotVal (programRecord s (P + 4 + 4 * m) k v).2 P i
        = (if i = m then v % 65536 else slotVal s P i) := by
  unfold SlotFree slotVal slotKey at hfree
  unfold slotVal slotKey
  have e : P + 6 + 4 * m = P + 4 + 4 * m + 2 := by omega
  by_cases hi : i = m
  · subst hi
    simp only [if_true]
    constructor
    · rw [e]
      apply programRecord_read16_key s _ k v h
      rw [← e]; exact hfree.2
    · exact programRecord_read16_val s _ k v h hfree.1
  · simp only [hi, if_false]
    constructor
    · exact programRecord_read16_other s _ k v _ (by omega) (by omega)
    · exact programRecord_read16_other s _ k v _ (by omega) (by omega)

/-! ### Compaction -/

theorem pageAddress_eq (fsr p : Nat) : pageAddress fsr p = EE_BASE_ADDRESS fsr + p * 2048 := rfl

theorem foundCount_le (s : Flash) (P n : Nat) : foundCount s P n ≤ n := by
  induction n with
  | zero => simp [foundCount]
  | succ n ih =>
    unfold foundCount
    split_ifs <;> omega

theorem foundCount_succ (s : Flash) (P n : Nat) :
    foundCount s P (n + 1)
      = foundCount s P n + (if (lookup s P n EE_PARA_MAX_NUMBER).isSome then 1 else 0) := rfl

/-- If the count reaches `n`, every key below `n` has a record. -/
theorem foundCount_full (s : Flash) (P n : Nat) (h : foundCount s P n = n) :
    ∀ k, k < n → (lookup s P k EE_PARA_MAX_NUMBER).isSome := by
  induction n with
  | zero => intro k hk; omega
  | succ n ih =>
    rw [foundCount_succ] at h
    have hle := foundCount_le s P n
    intro k hk
    split_ifs at h with hs
    · rcases Nat.lt_succ_iff_lt_or_eq.mp hk with h1 | rfl
      · exact ih (by omega) k h1
      · exact hs
    · omega

/-- If every key below `n` has a record, the count is `n`. -/
theorem foundCount_all (s : Flash) (P n : Nat)
    (h : ∀ k, k < n → (lookup s P k EE_PARA_MAX_NUMBER).isSome) : foundCount s P n = n := by
  induction n with
  | zero => rfl
  | succ n ih =>
    rw [foundCount_succ, ih (fun k hk => h k (Nat.lt_succ_of_lt hk)),
      if_pos (h n (Nat.lt_succ_self n))]

theorem copying_lookup_src (fsr : Nat) (s t : Flash) (p idx m : Nat)
    (h : Copying fsr s t p idx m) (k n : Nat) (hn : n ≤ 511) :
    lookup t (pageAddress fsr p) k n = lookup s (pageAddress fsr p) k n := by
  obtain ⟨hp, hfr, -⟩ := h
  apply lookup_congr
  intro i hi
  unfold slotKey slotVal read16
  rw [EE_PAGE_SIZE_eq] at hfr
  simp only [pageAddress_eq] at hfr ⊢
  have h01 : p = 0 ∨ p = 1 := by omega
  constructor
  · rw [hfr _ (by rcases h01 with rfl | rfl <;> omega)]
  · rw [hfr _ (by rcases h01 with rfl | rfl <;> omega)]

theorem copying_status_src (fsr : Nat) (s t : Flash) (p idx m : Nat)
    (h : Copying fsr s t p idx m) : read16 t (pageAddress fsr p) = EE_PAGE_VALID := by
  obtain ⟨hp, hfr, hv, -⟩ := h
  rw [← hv]
  unfold read16
  rw [EE_PAGE_SIZE_eq] at hfr
  simp only [pageAddress_eq] at hfr ⊢
  have h01 : p = 0 ∨ p = 1 := by omega
  rw [hfr _ (by rcases h01 with rfl | rfl <;> omega)]

theorem copying_read (fsr : Nat) (s t : Flash) (p idx m : Nat)
    (h : Copying fsr s t p idx m) (k d : Nat) :
    flash_ee_data_read fsr t k d
      = readResult (lookup s (pageAddress fsr p) k EE_PARA_MAX_NUMBER) d := by
  have hv := copying_status_src fsr s t p idx m h
  have hsrc := copying_lookup_src fsr s t p idx m h k 511 (le_refl _)
  obtain ⟨hp, -, -, ht, -⟩ := h
  rw [read_eq fsr t p hp (valid_page_read fsr t p hp hv (by rw [ht]; decide)) k d,
    EE_PARA_MAX_NUMBER_eq, hsrc]

theorem copying_skip (fsr : Nat) (s t : Flash) (p idx m : Nat)
    (h : Copying fsr s t p idx m)
    (hn : lookup s (pageAddress fsr p) idx EE_PARA_MAX_NUMBER = none) :
    Copying fsr s t p (idx + 1) m := by
  obtain ⟨hp, hfr, hv, ht, hused, hfree, hlk, hm⟩ := h
  refine ⟨hp, hfr, hv, ht, hused, hfree, ?_, ?_⟩
  · intro k hk
    rw [hlk k hk]
    by_cases h1 : k < idx
    · simp [h1, Nat.lt_succ_of_lt h1]
    · by_cases h2 : k = idx
      · subst h2; simp [hn]
      · have : ¬ k < idx + 1 := by omega
        simp [h1, this]
  · rw [foundCount_succ, hn]; simpa using hm

theorem copying_write (fsr : Nat) (s t : Flash) (p idx m : Nat)
    (h : Copying fsr s t p idx m) (hidx : idx < 511) (v : Nat) :
    flash_ee_write_no_check fsr t idx v
      = programRecord t (pageAddress fsr (1 - p) + 4 + 4 * m) idx v := by
  have hv := copying_status_src fsr s t p idx m h
  obtain ⟨hp, -, -, ht, hused, hfree, -, hm⟩ := h
  have hq : 1 - p ≤ 1 := by omega
  have hm' : m < 511 := by
    have := foundCount_le s (pageAddress fsr p) idx; omega
  have e : 1 - (1 - p) = p := by omega
  have hw : flash_ee_valid_page_get fsr t EE_VALID_PAGE_WRITE = 1 - p :=
    valid_page_write_transfer fsr t (1 - p) hq ht (by rw [e, hv]; decide)
  exact write_no_check_found fsr t (1 - p) m hq hw hm' hused
    (hfree m (le_refl m) (by rw [EE_PARA_MAX_NUMBER_eq]; exact hm')) idx v

/-- Free slots at the top of a page do not matter to the reader (for keys other than the
erased pattern). -/
theorem lookup_free_suffix (s : Flash) (P k m : Nat) (hm : m ≤ 511) (hk : k ≠ 0xFFFF)
    (hfree : ∀ i, m ≤ i → i < EE_PARA_MAX_NUMBER → SlotFree s P i) :
    lookup s P k EE_PARA_MAX_NUMBER = lookup s P k m := by
  have h := lookup_skip s P k m (511 - m) (fun i h1 h2 e => by
    have hf := (hfree i h1 (by rw [EE_PARA_MAX_NUMBER_eq]; omega)).2
    rw [e] at hf
    exact hk hf)
  rw [show m + (511 - m) = 511 by omega] at h
  rw [EE_PARA_MAX_NUMBER_eq]
  exact h

theorem copying_step (fsr : Nat) (s t : Flash) (p idx m v : Nat)
    (h : Copying fsr s t p idx m) (hidx : idx < 511)
    (hl : lookup s (pageAddress fsr p) idx EE_PARA_MAX_NUMBER = some v)
    (hw : (programRecord t (pageAddress fsr (1 - p) + 4 + 4 * m) idx v).1
      = FMC_STATUS_COMPLETE) :
    Copying fsr s (programRecord t (pageAddress fsr (1 - p) + 4 + 4 * m) idx v).2 p
      (idx + 1) (m + 1) := by
  obtain ⟨hp, hfr, hv, ht, hused, hfree, hlk, hm⟩ := h
  have hm' : m < 511 := by
    have := foundCount_le s (pageAddress fsr p) idx; omega
  have hfm : SlotFree t (pageAddress fsr (1 - p)) m :=
    hfree m (le_refl m) (by rw [EE_PARA_MAX_NUMBER_eq]; exact hm')
  have hslots := programRecord_slots t (pageAddress fsr (1 - p)) m idx v hw hfm
  have hvlt : v < 65536 := lookup_lt _ _ _ _ _ hl
  have hidx' : idx % 65536 = idx := Nat.mod_eq_of_lt (by omega)
  have hv' : v % 65536 = v := Nat.mod_eq_of_lt hvlt
  refine ⟨hp, ?_, hv, ?_, ?_, ?_, ?_, ?_⟩
  · intro a ha
    rw [← hfr a ha]
    rw [EE_PAGE_SIZE_eq] at ha
    exact programRecord_frame t _ idx v a (by omega) (by omega)
  · rw [programRecord_read16_other t _ idx v _ (by omega) (by omega)]
    exact ht
  · intro i hi hf
    by_cases him : i = m
    · have hk := (hslots i).1
      rw [if_pos him, hidx'] at hk
      have := hf.2
      rw [hk] at this
      omega
    · have hk := (hslots i).1
      have hvv := (hslots i).2
      rw [if_neg him] at hk hvv
      apply hused i (by omega)
      unfold SlotFree at hf ⊢
      rw [← hk, ← hvv]
      exact hf
  · intro i h1 h2
    have him : i ≠ m := by omega
    have hk := (hslots i).1
    have hvv := (hslots i).2
    rw [if_neg him] at hk hvv
    have := hfree i (by omega) h2
    unfold SlotFree at this ⊢
    rw [hk, hvv]
    exact this
  · intro k hk
    have hfree' : ∀ i, m + 1 ≤ i → i < EE_PARA_MAX_NUMBER →
        SlotFree (programRecord t (pageAddress fsr (1 - p) + 4 + 4 * m) idx v).2
          (pageAddress fsr (1 - p)) i := by
      intro i h1 h2
      have him : i ≠ m := by omega
      have hk := (hslots i).1
      have hvv := (hslots i).2
      rw [if_neg him] at hk hvv
      have := hfree i (by omega) h2
      unfold SlotFree at this ⊢
      rw [hk, hvv]
      exact this
    rw [lookup_free_suffix _ _ k (m + 1) (by omega) hk hfree', lookup_succ]
    have hkm := (hslots m).1
    have hvm := (hslots m).2
    rw [if_pos rfl, hidx'] at hkm
    rw [if_pos rfl, hv'] at hvm
    rw [hkm, hvm]
    have hold : lookup (programRecord t (pageAddress fsr (1 - p) + 4 + 4 * m) idx v).2
        (pageAddress fsr (1 - p)) k m = lookup t (pageAddress fsr (1 - p)) k m := by
      apply lookup_congr
      intro i hi
      have him : i ≠ m := by omega
      have hk := (hslots i).1
      have hvv := (hslots i).2
      rw [if_neg him] at hk hvv
      exact ⟨hk, hvv⟩
    rw [hold, ← lookup_free_suffix t _ k m (by omega) hk hfree, hlk k hk]
    by_cases h1 : k = idx
    · subst h1
      simp [hl]
    · by_cases h2 : k < idx
      · simp [h1, h2, Nat.lt_succ_of_lt h2]
      · have : ¬ k < idx + 1 := by omega
        simp [h1, h2, this]
  · rw [foundCount_succ, hl]
    simp [hm]

/-- The copy loop of a compaction: it only touches the record area of the target page; when it
runs to its end all keys below `EE_PARA_MAX_NUMBER` are migrated; on a flash whose operations
all succeed it runs to its end. -/
theorem copy_loop_spec (fsr : Nat) (s : Flash) (p : Nat) :
    ∀ n idx data t m, idx + n = 511 → Copying fsr s t p idx m →
      (∀ a, ¬ (pageAddress fsr (1 - p) + 4 ≤ a ∧ a < pageAddress fsr (1 - p) + 2048) →
        (flash_ee_copy_to_new_page_loop fsr n idx data t).2.cell a = t.cell a) ∧
      ((flash_ee_copy_to_new_page_loop fsr n idx data t).1 = FMC_STATUS_COMPLETE →
        Copying fsr s (flash_ee_copy_to_new_page_loop fsr n idx data t).2 p 511
          (foundCount s (pageAddress fsr p) 511)) ∧
      (t.script = [] →
        (flash_ee_copy_to_new_page_loop fsr n idx data t).1 = FMC_STATUS_COMPLETE ∧
        (flash_ee_copy_to_new_page_loop fsr n idx data t).2.script = []) ∧
      eraseCount (flash_ee_copy_to_new_page_loop fsr n idx data t).2 = eraseCount t ∧
      (flash_ee_copy_to_new_page_loop fsr n idx data t).2.unlocked = t.unlocked := by
  intro n
  induction n with
  | zero =>
    intro idx data t m hn h
    have : idx = 511 := by omega
    subst this
    have hm := h.2.2.2.2.2.2.2
    subst hm
    have e : flash_ee_copy_to_new_page_loop fsr 0 511 data t = (FMC_STATUS_COMPLETE, t) := rfl
    rw [e]
    exact ⟨fun _ _ => rfl, fun _ => h, fun hs => ⟨rfl, hs⟩, rfl, rfl⟩
  | succ n ih =>
    intro idx data t m hn h
    have hidx : idx < 511 := by omega
    rw [flash_ee_copy_to_new_page_loop]
    simp only [EE_PARA_MAX_NUMBER_eq, hidx, if_true]
    rw [copying_read fsr s t p idx m h idx data]
    cases hl : lookup s (pageAddress fsr p) idx EE_PARA_MAX_NUMBER with
    | none =>
      simp only [readResult]
      simp only [show ¬ ((1 : Nat) = 0) by omega, if_false]
      exact ih (idx + 1) data t m (by omega) (copying_skip fsr s t p idx m h hl)
    | some v =>
      simp only [readResult, if_true]
      rw [copying_write fsr s t p idx m h hidx v]
      have hm' : m < 511 := by
        have := foundCount_le s (pageAddress fsr p) idx
        have := h.2.2.2.2.2.2.2
        omega
      by_cases hw : (programRecord t (pageAddress fsr (1 - p) + 4 + 4 * m) idx v).1
          = FMC_STATUS_COMPLETE
      · rw [if_neg (fun hne => hne hw)]
        have hstep := copying_step fsr s t p idx m v h hidx hl hw
        obtain ⟨i1, i2, i3, i4, i5⟩ := ih (idx + 1) v _ (m + 1) (by omega) hstep
        refine ⟨?_, i2, ?_, ?_, ?_⟩
        · intro a ha
          rw [i1 a ha]
          exact programRecord_frame t _ idx v a (by omega) (by omega)
        · intro hs
          exact i3 (programRecord_nil t _ idx v hs).2
        · rw [i4, programRecord_eraseCount]
        · rw [i5, programRecord_unlocked]
      · have hw' : (programRecord t (pageAddress fsr (1 - p) + 4 + 4 * m) idx v).1
            ≠ FMC_STATUS_COMPLETE := hw
        rw [if_pos hw']
        refine ⟨?_, fun hc => absurd hc hw, ?_, ?_, ?_⟩
        · intro a ha
          exact programRecord_frame t _ idx v a (by omega) (by omega)
        · intro hs
          exact absurd (programRecord_nil t _ idx v hs).1 hw
        · exact programRecord_eraseCount _ _ _ _
        · exact programRecord_unlocked _ _ _ _

theorem pages_disjoint (fsr p : Nat) (hp : p ≤ 1) :
    pageAddress fsr p + 2048 ≤ pageAddress fsr (1 - p) ∨
      pageAddress fsr (1 - p) + 2048 ≤ pageAddress fsr p := by
  simp only [pageAddress_eq]
  omega

theorem slots_congr (s t : Flash) (P : Nat)
    (h : ∀ a, P + 4 ≤ a → a < P + 2048 → read16 t a = read16 s a) (i : Nat) (hi : i < 511) :
    slotKey t P i = slotKey s P i ∧ slotVal t P i = slotVal s P i := by
  unfold slotKey slotVal
  exact ⟨h _ (by omega) (by omega), h _ (by omega) (by omega)⟩

theorem slotFree_congr (s t : Flash) (P : Nat)
    (h : ∀ a, P + 4 ≤ a → a < P + 2048 → read16 t a = read16 s a) (i : Nat) (hi : i < 511) :
    SlotFree t P i ↔ SlotFree s P i := by
  unfold SlotFree
  rw [(slots_congr s t P h i hi).1, (slots_congr s t P h i hi).2]

theorem lookup_page_congr (s t : Flash) (P k : Nat)
    (h : ∀ a, P + 4 ≤ a → a < P + 2048 → read16 t a = read16 s a) :
    lookup t P k EE_PARA_MAX_NUMBER = lookup s P k EE_PARA_MAX_NUMBER := by
  rw [EE_PARA_MAX_NUMBER_eq]
  exact lookup_congr s t P k 511 (fun i hi => slots_congr s t P h i hi)

theorem read16_of_cell {s t : Flash} {a : Nat} (h : t.cell a = s.cell a) :
    read16 t a = read16 s a := by
  unfold read16; rw [h]

/-- Marking the erased target page Transfer starts a compaction. -/
theorem copying_start (fsr : Nat) (s : Flash) (p : Nat) (hp : p ≤ 1)
    (hv : read16 s (pageAddress fsr p) = EE_PAGE_VALID)
    (he : PageErased s (pageAddress fsr (1 - p)))
    (h1 : (FMC_ProgramHalfWord s (pageAddress fsr (1 - p)) EE_PAGE_TRANSFER).1
      = FMC_STATUS_COMPLETE) :
    Copying fsr s (FMC_ProgramHalfWord s (pageAddress fsr (1 - p)) EE_PAGE_TRANSFER).2 p 0 0 := by
  rw [PageErased, EE_PAGE_SIZE_eq] at he
  have hfree : ∀ i, i < 511 →
      SlotFree (FMC_ProgramHalfWord s (pageAddress fsr (1 - p)) EE_PAGE_TRANSFER).2
        (pageAddress fsr (1 - p)) i := by
    intro i hi
    unfold SlotFree slotVal slotKey
    rw [program_read16_other _ _ _ _ (by omega), program_read16_other _ _ _ _ (by omega)]
    exact ⟨he _ (by omega) (by omega), he _ (by omega) (by omega)⟩
  refine ⟨hp, ?_, hv, ?_, ?_, ?_, ?_, rfl⟩
  · intro a ha
    rw [EE_PAGE_SIZE_eq] at ha
    exact program_cell_other _ _ _ a (by omega)
  · rw [program_read16_erased _ _ _ h1 (he _ (le_refl _) (by omega))]
    rfl
  · intro i hi; omega
  · intro i _ hi
    exact hfree i (by rw [EE_PARA_MAX_NUMBER_eq] at hi; exact hi)
  · intro k hk
    simp only [Nat.not_lt_zero, if_false]
    rw [lookup_none_iff]
    intro i hi e
    rw [EE_PARA_MAX_NUMBER_eq] at hi
    have := (hfree i hi).2
    rw [e] at this
    exact hk this

/-- After the copy loop has run to its end, erasing the source page leaves the data migrated. -/
theorem migrated_of_copying (fsr : Nat) (s t f : Flash) (p : Nat)
    (h : Copying fsr s t p 511 (foundCount s (pageAddress fsr p) 511))
    (hA : PageErased f (pageAddress fsr p))
    (hT : ∀ a, pageAddress fsr (1 - p) + 4 ≤ a → a < pageAddress fsr (1 - p) + 2048 →
      read16 f a = read16 t a) :
    Migrated fsr s f p := by
  obtain ⟨hp, hfr, hv, ht, hused, hfree, hlk, -⟩ := h
  have hs : ∀ i, i < 511 →
      slotKey f (pageAddress fsr (1 - p)) i = slotKey t (pageAddress fsr (1 - p)) i ∧
      slotVal f (pageAddress fsr (1 - p)) i = slotVal t (pageAddress fsr (1 - p)) i := by
    intro i hi
    unfold slotKey slotVal
    exact ⟨hT _ (by omega) (by omega), hT _ (by omega) (by omega)⟩
  have hsf : ∀ i, i < 511 →
      (SlotFree f (pageAddress fsr (1 - p)) i ↔ SlotFree t (pageAddress fsr (1 - p)) i) := by
    intro i hi
    unfold SlotFree
    rw [(hs i hi).1, (hs i hi).2]
  have hM := foundCount_le s (pageAddress fsr p) 511
  rw [Migrated]
  simp only [EE_PARA_MAX_NUMBER_eq] at hfree hlk ⊢
  refine ⟨hA, ?_, ?_, ?_⟩
  · intro i hi hf
    exact hused i hi ((hsf i (by omega)).mp hf)
  · intro i h1 h2
    exact (hsf i h2).mpr (hfree i h1 h2)
  · intro k hk
    rw [← hlk k hk]
    exact lookup_congr t f _ k 511 hs

theorem erase_eraseCount (n : Nat) (s : Flash) (a : Nat) :
    eraseCount (FMC_ErasePage n s a).2 = eraseCount s + 1 := by
  simp [eraseCount, erase_log]

/-- Compaction from the valid page `p` into the erased other page, under any behaviour of the
flash driver: when it completes the data is migrated and the target is valid; when it is cut
short either the source is intact or the data is migrated and the target still marked Transfer;
on a flash whose operations all succeed it completes. -/
theorem copy_body_spec (fsr : Nat) (s : Flash) (p : Nat) (hp : p ≤ 1)
    (hv : read16 s (pageAddress fsr p) = EE_PAGE_VALID)
    (he : PageErased s (pageAddress fsr (1 - p))) :
    ∀ r, r = flash_ee_copy_to_new_page_body fsr s (pageAddress fsr p) (pageAddress fsr (1 - p)) →
    (r.1 = FMC_STATUS_COMPLETE →
      Migrated fsr s r.2 p ∧ read16 r.2 (pageAddress fsr (1 - p)) = EE_PAGE_VALID ∧
      (∀ a, ¬ (pageAddress fsr p ≤ a ∧ a < pageAddress fsr p + 2048) →
        ¬ (pageAddress fsr (1 - p) ≤ a ∧ a < pageAddress fsr (1 - p) + 2048) →
        r.2.cell a = s.cell a) ∧
      eraseCount r.2 = eraseCount s + 1 ∧ r.2.unlocked = s.unlocked) ∧
    (r.1 ≠ FMC_STATUS_COMPLETE →
      Intact fsr s r.2 p ∨
        (Migrated fsr s r.2 p ∧ read16 r.2 (pageAddress fsr (1 - p)) = EE_PAGE_TRANSFER)) ∧
    (s.script = [] → r.1 = FMC_STATUS_COMPLETE ∧ r.2.script = []) := by
  intro r hr
  have hd := pages_disjoint fsr p hp
  have heT : read16 s (pageAddress fsr (1 - p)) = EE_PAGE_ERASED :=
    he _ (le_refl _) (by rw [EE_PAGE_SIZE_eq]; omega)
  unfold flash_ee_copy_to_new_page_body at hr
  simp only at hr
  by_cases h1 : (FMC_ProgramHalfWord s (pageAddress fsr (1 - p)) EE_PAGE_TRANSFER).1
      = FMC_STATUS_COMPLETE
  swap
  · -- the Transfer mark is not programmed
    rw [if_pos h1] at hr
    subst hr
    refine ⟨fun hc => absurd hc h1, fun _ => Or.inl ⟨?_, Or.inl ?_⟩, fun hs => ?_⟩
    · intro a _ _
      rw [program_cell_fail _ _ _ h1]
    · rw [← heT]
      exact read16_of_cell (by rw [program_cell_fail _ _ _ h1])
    · exact absurd (by rw [program_fst]; exact nextStatus_nil hs) h1
  rw [if_neg (fun hne => hne h1)] at hr
  have hc0 := copying_start fsr s p hp hv he h1
  obtain ⟨l1, l2, l3, l4, l5⟩ := copy_loop_spec fsr s p 511 0 0 _ 0 rfl hc0
  rw [EE_PARA_MAX_NUMBER_eq] at hr
  generalize ht1 : (FMC_ProgramHalfWord s (pageAddress fsr (1 - p)) EE_PAGE_TRANSFER).2 = t1
    at hr hc0 l1 l2 l3 l4 l5
  have ht1s : t1.script = s.script.tail := by rw [← ht1, program_script]
  have ht1e : eraseCount t1 = eraseCount s := by rw [← ht1, program_eraseCount]
  have ht1u : t1.unlocked = s.unlocked := by rw [← ht1, program_unlocked]
  have ht1c : ∀ a, a ≠ pageAddress fsr (1 - p) → t1.cell a = s.cell a := by
    intro a ha; rw [← ht1]; exact program_cell_other _ _ _ a ha
  have ht1T : read16 t1 (pageAddress fsr (1 - p)) = EE_PAGE_TRANSFER := hc0.2.2.2.1
  by_cases h2 : (flash_ee_copy_to_new_page_loop fsr 511 0 0 t1).1 = FMC_STATUS_COMPLETE
  swap
  · -- the copy loop is cut short
    rw [if_pos h2] at hr
    subst hr
    refine ⟨fun hc => absurd hc h2, fun _ => Or.inl ⟨?_, Or.inr ?_⟩, fun hs => ?_⟩
    · intro a ha1 ha2
      rw [EE_PAGE_SIZE_eq] at ha2
      rw [l1 a (by omega), ht1c a (by omega)]
    · rw [← ht1T]
      exact read16_of_cell (l1 _ (by omega))
    · exact absurd (l3 (by rw [ht1s, hs]; rfl)).1 h2
  rw [if_neg (fun hne => hne h2)] at hr
  have hc2 := l2 h2
  generalize ht2 : (flash_ee_copy_to_new_page_loop fsr 511 0 0 t1).2 = t2
    at hr hc2 l1 l2 l3 l4 l5
  have ht2T : read16 t2 (pageAddress fsr (1 - p)) = EE_PAGE_TRANSFER := hc2.2.2.2.1
  rw [page_erase_eq, EE_SECTOR_SIZE_eq] at hr
  by_cases h3 : (FMC_ErasePage 2048 t2 (pageAddress fsr p)).1 = FMC_STATUS_COMPLETE
  swap
  · -- the source page is not erased
    rw [if_pos h3] at hr
    subst hr
    refine ⟨fun hc => absurd hc h3, fun _ => Or.inl ⟨?_, Or.inr ?_⟩, fun hs => ?_⟩
    · intro a ha1 ha2
      rw [EE_PAGE_SIZE_eq] at ha2
      rw [erase_cell_fail _ _ _ h3, l1 a (by omega), ht1c a (by omega)]
    · rw [← ht2T]
      exact read16_of_cell (by rw [erase_cell_fail _ _ _ h3])
    · have := (l3 (by rw [ht1s, hs]; rfl)).2
      exact absurd (by rw [erase_fst]; exact nextStatus_nil this) h3
  rw [if_neg (fun hne => hne h3)] at hr
  have hA3 : PageErased (FMC_ErasePage 2048 t2 (pageAddress fsr p)).2 (pageAddress fsr p) := by
    intro a ha1 ha2
    rw [EE_PAGE_SIZE_eq] at ha2
    exact erase_read16_inside _ _ _ _ h3 ha1 ha2
  have hT3 : ∀ a, pageAddress fsr (1 - p) ≤ a → a < pageAddress fsr (1 - p) + 2048 →
      read16 (FMC_ErasePage 2048 t2 (pageAddress fsr p)).2 a = read16 t2 a := by
    intro a ha1 ha2
    exact erase_read16_outside _ _ _ _ (by omega)
  generalize ht3 : (FMC_ErasePage 2048 t2 (pageAddress fsr p)).2 = t3 at hr hA3 hT3
  have ht3s : t3.script = t2.script.tail := by rw [← ht3, erase_script]
  have ht3e : eraseCount t3 = eraseCount t2 + 1 := by rw [← ht3, erase_eraseCount]
  have ht3u : t3.unlocked = t2.unlocked := by rw [← ht3, erase_unlocked]
  have ht3c : ∀ a, ¬ (pageAddress fsr p ≤ a ∧ a < pageAddress fsr p + 2048) →
      t3.cell a = t2.cell a := by
    intro a ha; rw [← ht3]; exact erase_cell_outside _ _ _ _ ha
  -- every state whose cells agree with `t3` away from the target header holds the migrated data
  have hmig : ∀ f : Flash, (∀ a, a ≠ pageAddress fsr (1 - p) → read16 f a = read16 t3 a) →
      Migrated fsr s f p := by
    intro f hf
    apply migrated_of_copying fsr s t2 f p hc2
    · intro a ha1 ha2
      rw [hf a (by rw [EE_PAGE_SIZE_eq] at ha2; omega)]
      exact hA3 a ha1 ha2
    · intro a ha1 ha2
      rw [hf a (by omega)]
      exact hT3 a (by omega) ha2
  by_cases h4 : (FMC_ProgramHalfWord t3 (pageAddress fsr (1 - p)) EE_PAGE_VALID).1
      = FMC_STATUS_COMPLETE
  swap
  · -- the Valid mark is not programmed
    rw [if_pos h4] at hr
    subst hr
    refine ⟨fun hc => absurd hc h4, fun _ => Or.inr ⟨?_, ?_⟩, fun hs => ?_⟩
    · exact hmig _ (fun a _ => read16_of_cell (by rw [program_cell_fail _ _ _ h4]))
    · rw [← ht2T, ← hT3 _ (le_refl _) (by omega)]
      exact read16_of_cell (by rw [program_cell_fail _ _ _ h4])
    · have := (l3 (by rw [ht1s, hs]; rfl)).2
      exact absurd (by rw [program_fst]; exact nextStatus_nil (by rw [ht3s, this]; rfl)) h4
  rw [if_neg (fun hne => hne h4)] at hr
  subst hr
  refine ⟨fun _ => ⟨?_, ?_, ?_, ?_, ?_⟩, fun hc => absurd rfl hc, fun hs => ⟨rfl, ?_⟩⟩
  · exact hmig _ (fun a ha => program_read16_other _ _ _ a ha)
  · exact program_read16_zero t3 _ h4
  · intro a ha1 ha2
    show (FMC_ProgramHalfWord t3 (pageAddress fsr (1 - p)) EE_PAGE_VALID).2.cell a = _
    rw [program_cell_other _ _ _ a (by omega), ht3c a ha1, l1 a (by omega), ht1c a (by omega)]
  · show eraseCount (FMC_ProgramHalfWord t3 (pageAddress fsr (1 - p)) EE_PAGE_VALID).2 = _
    rw [program_eraseCount, ht3e, l4, ht1e]
  · show (FMC_ProgramHalfWord t3 (pageAddress fsr (1 - p)) EE_PAGE_VALID).2.unlocked = _
    rw [program_unlocked, ht3u, l5, ht1u]
  · show (FMC_ProgramHalfWord t3 (pageAddress fsr (1 - p)) EE_PAGE_VALID).2.script = _
    have := (l3 (by rw [ht1s, hs]; rfl)).2
    rw [program_script, ht3s, this]
    rfl

theorem copy_unfold (fsr : Nat) (s : Flash) (p : Nat) (hp : p ≤ 1)
    (h : flash_ee_valid_page_get fsr s EE_VALID_PAGE_READ = p) :
    flash_ee_copy_to_new_page fsr s
      = flash_ee_copy_to_new_page_body fsr s (pageAddress fsr p) (pageAddress fsr (1 - p)) := by
  unfold flash_ee_copy_to_new_page
  simp only [h, EE_PAGE0_ADDRESS_eq, EE_PAGE1_ADDRESS_eq, EE_VALID_PAGE0, EE_VALID_PAGE1]
  have h01 : p = 0 ∨ p = 1 := by omega
  rcases h01 with rfl | rfl
  · simp
  · simp

/-! ### The fullness gate -/

theorem full_check_free (fsr : Nat) (s : Flash) (p : Nat) (hp : p ≤ 1)
    (h : flash_ee_valid_page_get fsr s EE_VALID_PAGE_READ = p)
    (hfree : SlotFree s (pageAddress fsr p) 510) :
    flash_ee_full_check fsr s = (FMC_STATUS_COMPLETE, s) := by
  unfold flash_ee_full_check
  simp only [h]
  have hne : p ≠ EE_VALID_PAGE_NONE := by unfold EE_VALID_PAGE_NONE; omega
  have e : EE_BASE_ADDRESS fsr + p * EE_PAGE_SIZE + EE_PAGE_SIZE - 2 - 2
      = pageAddress fsr p + 4 * (510 + 1) := by
    unfold pageAddress; rw [EE_PAGE_SIZE_eq]; omega
  have hr := (slotFree_iff_read32 s (pageAddress fsr p) 510).mp hfree
  simp only [hne, if_false, e, hr, ne_eq, not_true_eq_false]

theorem full_check_full (fsr : Nat) (s : Flash) (p : Nat) (hp : p ≤ 1)
    (h : flash_ee_valid_page_get fsr s EE_VALID_PAGE_READ = p)
    (hfull : ¬ SlotFree s (pageAddress fsr p) 510) :
    flash_ee_full_check fsr s
      = flash_ee_copy_to_new_page_body fsr s (pageAddress fsr p) (pageAddress fsr (1 - p)) := by
  unfold flash_ee_full_check
  simp only [h]
  have hne : p ≠ EE_VALID_PAGE_NONE := by unfold EE_VALID_PAGE_NONE; omega
  have e : EE_BASE_ADDRESS fsr + p * EE_PAGE_SIZE + EE_PAGE_SIZE - 2 - 2
      = pageAddress fsr p + 4 * (510 + 1) := by
    unfold pageAddress; rw [EE_PAGE_SIZE_eq]; omega
  have hr : read32 s (pageAddress fsr p + 4 * (510 + 1)) ≠ 0xFFFFFFFF :=
    fun hh => hfull ((slotFree_iff_read32 s (pageAddress fsr p) 510).mpr hh)
  rw [copy_unfold fsr s p hp h]
  simp only [hne, if_false, e, hr, ne_eq, not_false_eq_true, if_true]
  split_ifs with hc
  · rw [← hc]
  · rfl

/-! ### States with one valid page and one erased page -/

theorem stable_other_erased (fsr : Nat) (s : Flash) (p : Nat) (h : Stable fsr s p) :
    read16 s (pageAddress fsr (1 - p)) = EE_PAGE_ERASED :=
  h.2.2.2 _ (le_refl _) (by rw [EE_PAGE_SIZE_eq]; omega)

theorem stable_valid_read (fsr : Nat) (s : Flash) (p : Nat) (h : Stable fsr s p) :
    flash_ee_valid_page_get fsr s EE_VALID_PAGE_READ = p :=
  valid_page_read fsr s p h.2.1 h.2.2.1
    (by rw [stable_other_erased fsr s p h]; decide)

theorem stable_valid_write (fsr : Nat) (s : Flash) (p : Nat) (h : Stable fsr s p) :
    flash_ee_valid_page_get fsr s EE_VALID_PAGE_WRITE = p :=
  valid_page_write_valid fsr s p h.2.1 h.2.2.1 (stable_other_erased fsr s p h)

theorem stable_read (fsr : Nat) (s : Flash) (p : Nat) (h : Stable fsr s p) (k d : Nat) :
    flash_ee_data_read fsr s k d
      = readResult (lookup s (pageAddress fsr p) k EE_PARA_MAX_NUMBER) d :=
  read_eq fsr s p h.2.1 (stable_valid_read fsr s p h) k d

theorem stable_one_valid (fsr : Nat) (s : Flash) (p : Nat) (h : Stable fsr s p) :
    OneValidOtherErased fsr s := by
  have ho := stable_other_erased fsr s p h
  obtain ⟨-, hp, hv, -⟩ := h
  unfold OneValidOtherErased
  rw [EE_PAGE0_ADDRESS_eq, EE_PAGE1_ADDRESS_eq]
  have h01 : p = 0 ∨ p = 1 := by omega
  rcases h01 with rfl | rfl
  · exact Or.inl ⟨hv, ho⟩
  · exact Or.inr ⟨ho, hv⟩

/-- A completed compaction, on a flash whose operations all succeed. -/
theorem compact_stable (fsr : Nat) (s : Flash) (p : Nat) (h : Stable fsr s p) :
    ∀ r, r = flash_ee_copy_to_new_page_body fsr s (pageAddress fsr p) (pageAddress fsr (1 - p)) →
      r.1 = FMC_STATUS_COMPLETE ∧
      Holds fsr r.2 (1 - p) (foundCount s (pageAddress fsr p) EE_PARA_MAX_NUMBER) ∧
      Migrated fsr s r.2 p ∧
      (∀ a, ¬ (pageAddress fsr p ≤ a ∧ a < pageAddress fsr p + 2048) →
        ¬ (pageAddress fsr (1 - p) ≤ a ∧ a < pageAddress fsr (1 - p) + 2048) →
        r.2.cell a = s.cell a) ∧
      eraseCount r.2 = eraseCount s + 1 ∧ r.2.unlocked = s.unlocked := by
  intro r hr
  obtain ⟨hs, hp, hv, he⟩ := h
  obtain ⟨c1, -, c3⟩ := copy_body_spec fsr s p hp hv he r hr
  obtain ⟨hc, hscr⟩ := c3 hs
  obtain ⟨m1, m2, m3, m4, m5⟩ := c1 hc
  refine ⟨hc, ⟨⟨hscr, by omega, m2, ?_⟩, ?_, m1.2.1, m1.2.2.1⟩, m1, m3, m4, m5⟩
  · rw [show 1 - (1 - p) = p by omega]
    exact m1.1
  · exact foundCount_le _ _ _

/-! ### The store invariant -/

theorem holds_slot510 (fsr : Nat) (s : Flash) (p m : Nat) (h : Holds fsr s p m) :
    SlotFree s (pageAddress fsr p) 510 ↔ m ≤ 510 := by
  obtain ⟨-, hm, hused, hfree⟩ := h
  rw [EE_PARA_MAX_NUMBER_eq] at hm hfree
  constructor
  · intro hf
    by_contra hc
    exact hused 510 (by omega) hf
  · intro hle
    exact hfree 510 hle (by omega)

/-- The fullness gate on a store that satisfies the invariant: nothing happens while the last
slot is free, and a full page is compacted into the other page. -/
theorem full_check_holds (fsr : Nat) (s : Flash) (p m : Nat) (h : Holds fsr s p m) :
    ∀ r, r = flash_ee_full_check fsr s →
      (m ≤ 510 ∧ r = (FMC_STATUS_COMPLETE, s)) ∨
      (m = 511 ∧ r.1 = FMC_STATUS_COMPLETE ∧
        Holds fsr r.2 (1 - p) (foundCount s (pageAddress fsr p) EE_PARA_MAX_NUMBER) ∧
        Migrated fsr s r.2 p ∧ eraseCount r.2 = eraseCount s + 1 ∧
        r.2.unlocked = s.unlocked) := by
  intro r hr
  have hst := h.1
  have hread := stable_valid_read fsr s p hst
  have hm := h.2.1
  rw [EE_PARA_MAX_NUMBER_eq] at hm
  by_cases hle : m ≤ 510
  · left
    rw [hr, full_check_free fsr s p hst.2.1 hread ((holds_slot510 fsr s p m h).mpr hle)]
    exact ⟨hle, rfl⟩
  · right
    rw [full_check_full fsr s p hst.2.1 hread
      (fun hf => hle ((holds_slot510 fsr s p m h).mp hf))] at hr
    obtain ⟨c1, c2, c3, -, c5, c6⟩ := compact_stable fsr s p hst r hr
    exact ⟨by omega, c1, c2, c3, c5, c6⟩

/-- Appending a record to a store that satisfies the invariant and has a free slot. -/
theorem append_holds (fsr : Nat) (s : Flash) (p m : Nat) (h : Holds fsr s p m) (hm : m ≤ 510)
    (k v : Nat) :
    ∀ r, r = flash_ee_write_no_check fsr s k v →
      r.1 = FMC_STATUS_COMPLETE ∧
      (∃ m2, Holds fsr r.2 p m2 ∧ m ≤ m2 ∧ m2 ≤ m + 1 ∧ (k % 65536 ≠ 0xFFFF → m2 = m + 1)) ∧
      (∀ k', k' ≠ 0xFFFF → lookup r.2 (pageAddress fsr p) k' EE_PARA_MAX_NUMBER
        = if k' = k % 65536 then some (v % 65536)
          else lookup s (pageAddress fsr p) k' EE_PARA_MAX_NUMBER) ∧
      eraseCount r.2 = eraseCount s ∧ r.2.unlocked = s.unlocked := by
  intro r hr
  obtain ⟨hst, -, hused, hfree⟩ := h
  have hw := stable_valid_write fsr s p hst
  obtain ⟨hs, hp, hv, he⟩ := hst
  have hfm : SlotFree s (pageAddress fsr p) m :=
    hfree m (le_refl m) (by rw [EE_PARA_MAX_NUMBER_eq]; omega)
  rw [write_no_check_found fsr s p m hp hw (by omega) hused hfm k v] at hr
  subst hr
  have hd := pages_disjoint fsr p hp
  obtain ⟨hc, hscr⟩ := programRecord_nil s (pageAddress fsr p + 4 + 4 * m) k v hs
  have hslots := programRecord_slots s (pageAddress fsr p) m k v hc hfm
  have hst2 : Stable fsr (programRecord s (pageAddress fsr p + 4 + 4 * m) k v).2 p := by
    refine ⟨hscr, hp, ?_, ?_⟩
    · rw [programRecord_read16_other s _ k v _ (by omega) (by omega)]
      exact hv
    · intro a ha1 ha2
      rw [EE_PAGE_SIZE_eq] at ha2
      rw [programRecord_read16_other s _ k v _ (by omega) (by omega)]
      exact he a ha1 (by rw [EE_PAGE_SIZE_eq]; exact ha2)
  have hother : ∀ i, i ≠ m →
      (SlotFree (programRecord s (pageAddress fsr p + 4 + 4 * m) k v).2 (pageAddress fsr p) i
        ↔ SlotFree s (pageAddress fsr p) i) := by
    intro i hi
    have hk := (hslots i).1
    have hvv := (hslots i).2
    rw [if_neg hi] at hk hvv
    unfold SlotFree
    rw [hk, hvv]
  have hfree2 : ∀ i, m + 1 ≤ i → i < EE_PARA_MAX_NUMBER →
      SlotFree (programRecord s (pageAddress fsr p + 4 + 4 * m) k v).2 (pageAddress fsr p) i :=
    fun i h1 h2 => (hother i (by omega)).mpr (hfree i (by omega) h2)
  have hused2 : ∀ i, i < m →
      ¬ SlotFree (programRecord s (pageAddress fsr p + 4 + 4 * m) k v).2 (pageAddress fsr p) i :=
    fun i h1 hf => hused i h1 ((hother i (by omega)).mp hf)
  have hkm := (hslots m).1
  have hvm := (hslots m).2
  rw [if_pos rfl] at hkm hvm
  refine ⟨hc, ?_, ?_, programRecord_eraseCount _ _ _ _, programRecord_unlocked _ _ _ _⟩
  · by_cases hf : SlotFree (programRecord s (pageAddress fsr p + 4 + 4 * m) k v).2
        (pageAddress fsr p) m
    · refine ⟨m, ⟨hst2, by rw [EE_PARA_MAX_NUMBER_eq]; omega, hused2, ?_⟩, le_refl _,
        by omega, ?_⟩
      · intro i h1 h2
        rcases Nat.eq_or_lt_of_le h1 with rfl | h3
        · exact hf
        · exact hfree2 i h3 h2
      · intro hk
        have := hf.2
        rw [hkm] at this
        exact absurd this hk
    · refine ⟨m + 1, ⟨hst2, by rw [EE_PARA_MAX_NUMBER_eq]; omega, ?_, hfree2⟩, by omega,
        le_refl _, fun _ => rfl⟩
      intro i h1
      rcases Nat.lt_succ_iff_lt_or_eq.mp h1 with h3 | rfl
      · exact hused2 i h3
      · exact hf
  · intro k' hk'
    rw [lookup_free_suffix _ _ k' (m + 1) (by omega) hk' hfree2, lookup_succ, hkm, hvm]
    have hold : lookup (programRecord s (pageAddress fsr p + 4 + 4 * m) k v).2
        (pageAddress fsr p) k' m = lookup s (pageAddress fsr p) k' m := by
      apply lookup_congr
      intro i hi
      have hk := (hslots i).1
      have hvv := (hslots i).2
      have him : i ≠ m := by omega
      rw [if_neg him] at hk hvv
      exact ⟨hk, hvv⟩
    rw [hold, ← lookup_free_suffix s _ k' m (by omega) hk' hfree]

/-- Appending to a store whose valid page has no free slot fails and changes nothing. -/
theorem append_full (fsr : Nat) (s : Flash) (p : Nat) (h : Holds fsr s p 511) (k v : Nat) :
    flash_ee_write_no_check fsr s k v = (FMC_STATUS_ERROR_PG, s) :=
  write_no_check_full fsr s p h.1.2.1 (stable_valid_write fsr s p h.1) h.2.2.1 k v

theorem foundCount_congr (s f : Flash) (P Q n : Nat)
    (h : ∀ k, k < n → lookup f Q k EE_PARA_MAX_NUMBER = lookup s P k EE_PARA_MAX_NUMBER) :
    foundCount f Q n = foundCount s P n := by
  induction n with
  | zero => rfl
  | succ n ih =>
    rw [foundCount_succ, foundCount_succ, ih (fun k hk => h k (Nat.lt_succ_of_lt hk)),
      h n (Nat.lt_succ_self n)]

theorem migrated_lookup (fsr : Nat) (s f : Flash) (p : Nat) (h : Migrated fsr s f p)
    (k : Nat) (hk : k < 511) :
    lookup f (pageAddress fsr (1 - p)) k EE_PARA_MAX_NUMBER
      = lookup s (pageAddress fsr p) k EE_PARA_MAX_NUMBER := by
  have := h.2.2.2 k (by omega)
  rw [this, EE_PARA_MAX_NUMBER_eq, if_pos hk]

theorem migrated_foundCount (fsr : Nat) (s f : Flash) (p : Nat) (h : Migrated fsr s f p) :
    foundCount s (pageAddress fsr p) EE_PARA_MAX_NUMBER
      = foundCount f (pageAddress fsr (1 - p)) EE_PARA_MAX_NUMBER := by
  symm
  apply foundCount_congr
  intro k hk
  rw [EE_PARA_MAX_NUMBER_eq] at hk
  exact migrated_lookup fsr s f p h k hk

theorem data_write_body_eq (fsr : Nat) (s : Flash) (k v : Nat) :
    flash_ee_data_write_body fsr s k v
      = if (flash_ee_full_check fsr s).1 ≠ FMC_STATUS_COMPLETE then flash_ee_full_check fsr s
        else writeTail fsr (flash_ee_full_check fsr s).2 k v := rfl

/-- Append and second fullness check on a store that satisfies the invariant. -/
theorem writeTail_spec (fsr : Nat) (s : Flash) (p m : Nat) (h : Holds fsr s p m) (k v : Nat) :
    ∀ w, w = writeTail fsr s k v →
      (m = 511 ∧ w = (FMC_STATUS_ERROR_PG, s)) ∨
      (m ≤ 510 ∧ w.1 = FMC_STATUS_COMPLETE ∧ w.2.unlocked = s.unlocked ∧
        ∃ p2 m2, Holds fsr w.2 p2 m2 ∧
          (∀ k', k' < 511 → lookup w.2 (pageAddress fsr p2) k' EE_PARA_MAX_NUMBER
            = if k' = k % 65536 then some (v % 65536)
              else lookup s (pageAddress fsr p) k' EE_PARA_MAX_NUMBER) ∧
          ((p2 = p ∧ m ≤ m2 ∧ m2 ≤ m + 1 ∧ m2 ≤ 510 ∧ (k % 65536 ≠ 0xFFFF → m2 = m + 1) ∧
              eraseCount w.2 = eraseCount s) ∨
            (m = 510 ∧ p2 = 1 - p ∧
              m2 = foundCount w.2 (pageAddress fsr p2) EE_PARA_MAX_NUMBER ∧
              eraseCount w.2 = eraseCount s + 1))) := by
  intro w hw
  have hm := h.2.1
  rw [EE_PARA_MAX_NUMBER_eq] at hm
  unfold writeTail at hw
  simp only at hw
  by_cases hle : m ≤ 510
  swap
  · left
    have : m = 511 := by omega
    subst this
    rw [append_full fsr s p h k v] at hw
    simp only [ne_eq, reduceCtorEq, not_false_eq_true, if_true] at hw
    exact ⟨rfl, hw⟩
  right
  obtain ⟨a1, ⟨m2, a2, a3, a4, a5⟩, a6, a7, a8⟩ :=
    append_holds fsr s p m h hle k v _ rfl
  rw [if_neg (fun hne => hne a1)] at hw
  generalize flash_ee_write_no_check fsr s k v = r2 at hw a1 a2 a6 a7 a8
  rcases full_check_holds fsr r2.2 p m2 a2 _ rfl with ⟨b1, b2⟩ | ⟨b1, b2, b3, b4, b5, b6⟩
  · rw [b2] at hw
    simp only [ne_eq, not_true_eq_false, if_false] at hw
    subst hw
    refine ⟨hle, rfl, a8, p, m2, a2, ?_, Or.inl ⟨rfl, a3, a4, b1, a5, a7⟩⟩
    intro k' hk'
    exact a6 k' (by omega)
  · rw [if_neg (fun hne => hne b2)] at hw
    subst hw
    refine ⟨hle, rfl, by rw [b6, a8], 1 - p, _, b3, ?_, Or.inr ⟨by omega, rfl, ?_, by rw [b5, a7]⟩⟩
    · intro k' hk'
      show lookup (flash_ee_full_check fsr r2.2).2 _ _ _ = _
      rw [migrated_lookup fsr r2.2 _ p b4 k' hk']
      exact a6 k' (by omega)
    · exact migrated_foundCount fsr r2.2 _ p b4

/-! ### Locking and unlocking do not change the content -/

theorem holds_unlock (fsr : Nat) (s : Flash) (p m : Nat) :
    Holds fsr (FMC_Unlock s) p m ↔ Holds fsr s p m := Iff.rfl

theorem holds_lock (fsr : Nat) (s : Flash) (p m : Nat) :
    Holds fsr (FMC_Lock s) p m ↔ Holds fsr s p m := Iff.rfl

theorem stable_unlock (fsr : Nat) (s : Flash) (p : Nat) :
    Stable fsr (FMC_Unlock s) p ↔ Stable fsr s p := Iff.rfl

theorem stable_lock (fsr : Nat) (s : Flash) (p : Nat) :
    Stable fsr (FMC_Lock s) p ↔ Stable fsr s p := Iff.rfl

theorem lookup_unlock (s : Flash) (P k n : Nat) :
    lookup (FMC_Unlock s) P k n = lookup s P k n :=
  lookup_congr _ _ _ _ _ (fun _ _ => ⟨rfl, rfl⟩)

theorem lookup_lock (s : Flash) (P k n : Nat) :
    lookup (FMC_Lock s) P k n = lookup s P k n :=
  lookup_congr _ _ _ _ _ (fun _ _ => ⟨rfl, rfl⟩)

theorem foundCount_lock (s : Flash) (P n : Nat) :
    foundCount (FMC_Lock s) P n = foundCount s P n :=
  foundCount_congr _ _ _ _ _ (fun _ _ => lookup_lock _ _ _ _)

theorem foundCount_unlock (s : Flash) (P n : Nat) :
    foundCount (FMC_Unlock s) P n = foundCount s P n :=
  foundCount_congr _ _ _ _ _ (fun _ _ => lookup_unlock _ _ _ _)

theorem eraseCount_lock (s : Flash) : eraseCount (FMC_Lock s) = eraseCount s := rfl

theorem eraseCount_unlock (s : Flash) : eraseCount (FMC_Unlock s) = eraseCount s := rfl

/-! ### `flash_ee_data_write` on a store that satisfies the invariant -/

/-- What `flash_ee_data_write` does on a store that satisfies the invariant.  `p1`, `m1` describe
the store after the first fullness check (`e1` counts its compaction), `p2`, `m2` the store
after a successful call. -/
theorem data_write_spec (fsr : Nat) (s : Flash) (p m : Nat) (h : Holds fsr s p m) (k v : Nat) :
    ∀ w, w = flash_ee_data_write fsr s k v →
      w.2.unlocked = false ∧
      ∃ p1 m1 e1,
        ((m ≤ 510 ∧ p1 = p ∧ m1 = m ∧ e1 = 0) ∨
          (m = 511 ∧ p1 = 1 - p ∧
            m1 = foundCount s (pageAddress fsr p) EE_PARA_MAX_NUMBER ∧ e1 = 1)) ∧
        ((m1 = 511 ∧ w.1 = FMC_STATUS_ERROR_PG ∧ Holds fsr w.2 p1 511 ∧
            (∀ k', k' < 511 → lookup w.2 (pageAddress fsr p1) k' EE_PARA_MAX_NUMBER
              = lookup s (pageAddress fsr p) k' EE_PARA_MAX_NUMBER) ∧
            eraseCount w.2 = eraseCount s + e1) ∨
          (m1 ≤ 510 ∧ w.1 = FMC_STATUS_COMPLETE ∧
            ∃ p2 m2, Holds fsr w.2 p2 m2 ∧
              (∀ k', k' < 511 → lookup w.2 (pageAddress fsr p2) k' EE_PARA_MAX_NUMBER
                = if k' = k % 65536 then some (v % 65536)
                  else lookup s (pageAddress fsr p) k' EE_PARA_MAX_NUMBER) ∧
              ((p2 = p1 ∧ m1 ≤ m2 ∧ m2 ≤ m1 + 1 ∧ m2 ≤ 510 ∧
                  (k % 65536 ≠ 0xFFFF → m2 = m1 + 1) ∧
                  eraseCount w.2 = eraseCount s + e1) ∨
                (m1 = 510 ∧ p2 = 1 - p1 ∧
                  m2 = foundCount w.2 (pageAddress fsr p2) EE_PARA_MAX_NUMBER ∧
                  eraseCount w.2 = eraseCount s + e1 + 1)))) := by
  intro w hw
  unfold flash_ee_data_write at hw
  simp only at hw
  rw [data_write_body_eq] at hw
  have h0 : Holds fsr (FMC_Unlock s) p m := h
  -- the rest of the call from a store `s1` that satisfies the invariant
  have tail : ∀ (s1 : Flash) (p1 m1 e1 : Nat), Holds fsr s1 p1 m1 →
      (∀ k', k' < 511 → lookup s1 (pageAddress fsr p1) k' EE_PARA_MAX_NUMBER
        = lookup s (pageAddress fsr p) k' EE_PARA_MAX_NUMBER) →
      eraseCount s1 = eraseCount s + e1 →
      w = ((writeTail fsr s1 k v).1, FMC_Lock (writeTail fsr s1 k v).2) →
      ((m1 = 511 ∧ w.1 = FMC_STATUS_ERROR_PG ∧ Holds fsr w.2 p1 511 ∧
            (∀ k', k' < 511 → lookup w.2 (pageAddress fsr p1) k' EE_PARA_MAX_NUMBER
              = lookup s (pageAddress fsr p) k' EE_PARA_MAX_NUMBER) ∧
            eraseCount w.2 = eraseCount s + e1) ∨
          (m1 ≤ 510 ∧ w.1 = FMC_STATUS_COMPLETE ∧
            ∃ p2 m2, Holds fsr w.2 p2 m2 ∧
              (∀ k', k' < 511 → lookup w.2 (pageAddress fsr p2) k' EE_PARA_MAX_NUMBER
                = if k' = k % 65536 then some (v % 65536)
                  else lookup s (pageAddress fsr p) k' EE_PARA_MAX_NUMBER) ∧
              ((p2 = p1 ∧ m1 ≤ m2 ∧ m2 ≤ m1 + 1 ∧ m2 ≤ 510 ∧
                  (k % 65536 ≠ 0xFFFF → m2 = m1 + 1) ∧
                  eraseCount w.2 = eraseCount s + e1) ∨
                (m1 = 510 ∧ p2 = 1 - p1 ∧
                  m2 = foundCount w.2 (pageAddress fsr p2) EE_PARA_MAX_NUMBER ∧
                  eraseCount w.2 = eraseCount s + e1 + 1)))) := by
    intro s1 p1 m1 e1 h1 hl1 he1 hw1
    rcases writeTail_spec fsr s1 p1 m1 h1 k v _ rfl with ⟨t1, t2⟩ | ⟨t1, t2, -, p2, m2, t4, t5, t6⟩
    · left
      rw [t2] at hw1
      subst hw1
      subst t1
      refine ⟨rfl, rfl, h1, ?_, he1⟩
      intro k' hk'
      show lookup (FMC_Lock s1) _ _ _ = _
      rw [lookup_lock]
      exact hl1 k' hk'
    · right
      subst hw1
      refine ⟨t1, t2, p2, m2, t4, ?_, ?_⟩
      · intro k' hk'
        show lookup (FMC_Lock _) _ _ _ = _
        rw [lookup_lock, t5 k' hk', hl1 k' hk']
      · rcases t6 with ⟨u1, u2, u3, u4, u5, u6⟩ | ⟨u1, u2, u3, u4⟩
        · left
          refine ⟨u1, u2, u3, u4, u5, ?_⟩
          show eraseCount (FMC_Lock _) = _
          rw [eraseCount_lock, u6, he1]
        · right
          refine ⟨u1, u2, ?_, ?_⟩
          · show m2 = foundCount (FMC_Lock _) _ _
            rw [foundCount_lock]
            exact u3
          · show eraseCount (FMC_Lock _) = _
            rw [eraseCount_lock, u4, he1]
  have hunl : w.2.unlocked = false := by rw [hw]; rfl
  refine ⟨hunl, ?_⟩
  rcases full_check_holds fsr (FMC_Unlock s) p m h0 _ rfl with ⟨b1, b2⟩ | ⟨b1, b2, b3, b4, b5, -⟩
  · rw [b2] at hw
    simp only [ne_eq, not_true_eq_false, if_false] at hw
    refine ⟨p, m, 0, Or.inl ⟨b1, rfl, rfl, rfl⟩, ?_⟩
    exact tail (FMC_Unlock s) p m 0 h0 (fun k' _ => lookup_unlock _ _ _ _) rfl hw
  · rw [if_neg (fun hne => hne b2)] at hw
    refine ⟨1 - p, _, 1, Or.inr ⟨b1, rfl, rfl, rfl⟩, ?_⟩
    have b3' : Holds fsr (flash_ee_full_check fsr (FMC_Unlock s)).2 (1 - p)
        (foundCount s (pageAddress fsr p) EE_PARA_MAX_NUMBER) := by
      rw [← foundCount_unlock]; exact b3
    apply tail _ (1 - p) _ 1 b3' _ _ hw
    · intro k' hk'
      rw [migrated_lookup fsr _ _ p b4 k' hk', lookup_unlock]
    · rw [b5, eraseCount_unlock]

/-! ### Boot-time recovery -/

theorem page_erase_nil (s : Flash) (P : Nat) (hs : s.script = []) :
    (flash_ee_page_erase s P).1 = FMC_STATUS_COMPLETE ∧
    (flash_ee_page_erase s P).2.script = [] ∧
    PageErased (flash_ee_page_erase s P).2 P ∧
    (∀ a, ¬ (P ≤ a ∧ a < P + 2048) → (flash_ee_page_erase s P).2.cell a = s.cell a) := by
  rw [page_erase_eq, EE_SECTOR_SIZE_eq]
  have h1 : (FMC_ErasePage 2048 s P).1 = FMC_STATUS_COMPLETE := by
    rw [erase_fst]; exact nextStatus_nil hs
  refine ⟨h1, by rw [erase_script, hs]; rfl, ?_, fun a ha => erase_cell_outside _ _ _ _ ha⟩
  intro a ha1 ha2
  rw [EE_PAGE_SIZE_eq] at ha2
  exact erase_read16_inside _ _ _ _ h1 ha1 ha2

theorem program_nil (s : Flash) (a d : Nat) (hs : s.script = []) :
    (FMC_ProgramHalfWord s a d).1 = FMC_STATUS_COMPLETE ∧
    (FMC_ProgramHalfWord s a d).2.script = [] := by
  refine ⟨by rw [program_fst]; exact nextStatus_nil hs, by rw [program_script, hs]; rfl⟩

/-- The fullness gate on a store with one valid and one erased page: it succeeds, leaves such a
store, and keeps what the reader finds for every key below `EE_PARA_MAX_NUMBER`. -/
theorem full_check_stable (fsr : Nat) (u : Flash) (p : Nat) (h : Stable fsr u p) :
    (flash_ee_full_check fsr u).1 = FMC_STATUS_COMPLETE ∧
    ∃ p', Stable fsr (flash_ee_full_check fsr u).2 p' ∧
      (∀ k, k < 511 →
        lookup (flash_ee_full_check fsr u).2 (pageAddress fsr p') k EE_PARA_MAX_NUMBER
          = lookup u (pageAddress fsr p) k EE_PARA_MAX_NUMBER) ∧
      (SlotFree u (pageAddress fsr p) 510 → flash_ee_full_check fsr u = (FMC_STATUS_COMPLETE, u)) := by
  have hread := stable_valid_read fsr u p h
  by_cases hf : SlotFree u (pageAddress fsr p) 510
  · rw [full_check_free fsr u p h.2.1 hread hf]
    exact ⟨rfl, p, h, fun _ _ => rfl, fun _ => rfl⟩
  · rw [full_check_full fsr u p h.2.1 hread hf]
    obtain ⟨c1, c2, c3, -⟩ := compact_stable fsr u p h _ rfl
    exact ⟨c1, 1 - p, c2.1, fun k hk => migrated_lookup fsr u _ p c3 k hk, fun hh => absurd hh hf⟩

theorem init_body_tail (r : FMC_STATUS_T × Flash) :
    (if r.1 ≠ FMC_STATUS_COMPLETE then r else (FMC_STATUS_COMPLETE, r.2)) = r := by
  split_ifs with hc
  · rfl
  · rw [← not_not.mp hc]

theorem init_body_tail2 (r : FMC_STATUS_T × Flash) :
    (if r.1 = FMC_STATUS_COMPLETE then (FMC_STATUS_COMPLETE, r.2) else r) = r := by
  split_ifs with hc
  · rw [← hc]
  · rfl

/-- Recovery when one page is valid and the other reads as erased: the erased page is erased
again and the fullness gate runs. -/
theorem init_body_valid_erased_eq (fsr : Nat) (s0 : Flash) (q : Nat) (hq : q ≤ 1)
    (hs : s0.script = [])
    (hv : read16 s0 (pageAddress fsr q) = EE_PAGE_VALID)
    (he : read16 s0 (pageAddress fsr (1 - q)) = EE_PAGE_ERASED) :
    flash_ee_init_body fsr s0
      = flash_ee_full_check fsr (flash_ee_page_erase s0 (pageAddress fsr (1 - q))).2 := by
  obtain ⟨e1, -⟩ := page_erase_nil s0 (pageAddress fsr (1 - q)) hs
  unfold flash_ee_init_body
  simp only [EE_PAGE0_ADDRESS_eq, EE_PAGE1_ADDRESS_eq]
  have h01 : q = 0 ∨ q = 1 := by omega
  rcases h01 with rfl | rfl
  · simp only [Nat.sub_zero] at he e1 ⊢
    simp only [hv, he, e1, flash_ee_format_check, EE_PAGE_VALID, EE_PAGE_ERASED,
      EE_PAGE_TRANSFER]
    simp [init_body_tail, init_body_tail2, e1]
  · simp only [Nat.sub_self] at he e1 ⊢
    simp only [hv, he, e1, flash_ee_format_check, EE_PAGE_VALID, EE_PAGE_ERASED,
      EE_PAGE_TRANSFER]
    simp [init_body_tail, init_body_tail2, e1]

/-- Recovery when one page is valid and the other reads as erased: the valid page is kept. -/
theorem init_body_valid_erased (fsr : Nat) (s0 : Flash) (q : Nat) (hq : q ≤ 1)
    (hs : s0.script = [])
    (hv : read16 s0 (pageAddress fsr q) = EE_PAGE_VALID)
    (he : read16 s0 (pageAddress fsr (1 - q)) = EE_PAGE_ERASED) :
    ∃ u p, Stable fsr u p ∧ flash_ee_init_body fsr s0 = flash_ee_full_check fsr u ∧
      ∀ k, lookup u (pageAddress fsr p) k EE_PARA_MAX_NUMBER
        = lookup s0 (pageAddress fsr q) k EE_PARA_MAX_NUMBER := by
  obtain ⟨e1, e2, e3, e4⟩ := page_erase_nil s0 (pageAddress fsr (1 - q)) hs
  have hd := pages_disjoint fsr q hq
  refine ⟨(flash_ee_page_erase s0 (pageAddress fsr (1 - q))).2, q, ⟨e2, hq, ?_, e3⟩,
    init_body_valid_erased_eq fsr s0 q hq hs hv he, ?_⟩
  · rw [← hv]
    exact read16_of_cell (e4 _ (by omega))
  · intro k
    apply lookup_page_congr
    intro a ha1 ha2
    exact read16_of_cell (e4 _ (by omega))

theorem fresh_holds (fsr : Nat) (s : Flash) (h : FreshlyFormatted fsr s) : Holds fsr s 0 0 := by
  obtain ⟨hs, hv, hrest, he⟩ := h
  rw [EE_PAGE0_ADDRESS_eq] at hv hrest
  rw [EE_PAGE1_ADDRESS_eq] at he
  refine ⟨⟨hs, by omega, hv, he⟩, by omega, fun i hi => by omega, ?_⟩
  intro i _ hi
  rw [EE_PARA_MAX_NUMBER_eq] at hi
  rw [EE_PAGE_SIZE_eq] at hrest
  exact ⟨hrest _ (by omega) (by omega), hrest _ (by omega) (by omega)⟩

theorem format_nil (fsr : Nat) (s : Flash) (hs : s.script = []) :
    (flash_ee_format fsr s).1 = FMC_STATUS_COMPLETE ∧
    FreshlyFormatted fsr (flash_ee_format fsr s).2 := by
  obtain ⟨a1, a2, a3, a4⟩ := page_erase_nil s (EE_PAGE0_ADDRESS fsr) hs
  obtain ⟨b1, b2, b3, b4⟩ := page_erase_nil _ (EE_PAGE1_ADDRESS fsr) a2
  obtain ⟨c1, c2⟩ := program_nil (flash_ee_page_erase (flash_ee_page_erase s
    (EE_PAGE0_ADDRESS fsr)).2 (EE_PAGE1_ADDRESS fsr)).2 (EE_PAGE0_ADDRESS fsr) EE_PAGE_VALID b2
  have e : flash_ee_format fsr s = FMC_ProgramHalfWord (flash_ee_page_erase
      (flash_ee_page_erase s (EE_PAGE0_ADDRESS fsr)).2 (EE_PAGE1_ADDRESS fsr)).2
      (EE_PAGE0_ADDRESS fsr) EE_PAGE_VALID := by
    unfold flash_ee_format
    simp only [a1, b1, ne_eq, not_true_eq_false, if_false]
  rw [e]
  have h10 : EE_PAGE1_ADDRESS fsr = EE_PAGE0_ADDRESS fsr + 2048 := rfl
  refine ⟨c1, c2, program_read16_zero _ _ c1, ?_, ?_⟩
  · intro a ha1 ha2
    rw [EE_PAGE_SIZE_eq] at ha2
    rw [program_read16_other _ _ _ a (by omega), read16_of_cell (b4 a (by omega))]
    exact a3 a (by omega) (by rw [EE_PAGE_SIZE_eq]; exact ha2)
  · intro a ha1 ha2
    rw [program_read16_other _ _ _ a (by omega)]
    exact b3 a ha1 ha2

theorem format_check_ok (a b : Nat) (h : flash_ee_format_check a b = 0) :
    a ≠ b ∧ (a = EE_PAGE_ERASED ∨ a = EE_PAGE_TRANSFER ∨ a = EE_PAGE_VALID) ∧
      (b = EE_PAGE_ERASED ∨ b = EE_PAGE_TRANSFER ∨ b = EE_PAGE_VALID) := by
  unfold flash_ee_format_check at h
  split_ifs at h with h1 h2 h3
  refine ⟨h1, ?_, ?_⟩
  · by_contra hc
    push_neg at hc
    exact h2 hc
  · by_contra hc
    push_neg at hc
    exact h3 hc

/-- Recovery of an invalid format: both pages are erased and page 0 is marked valid. -/
theorem init_body_format (fsr : Nat) (s0 : Flash) (hs : s0.script = [])
    (hfc : flash_ee_format_check (read16 s0 (EE_PAGE0_ADDRESS fsr))
      (read16 s0 (EE_PAGE1_ADDRESS fsr)) ≠ 0) :
    ∃ u, FreshlyFormatted fsr u ∧ flash_ee_init_body fsr s0 = (FMC_STATUS_COMPLETE, u) := by
  unfold flash_ee_init_body
  simp only
  generalize hst0 : read16 s0 (EE_PAGE0_ADDRESS fsr) = st0 at hfc ⊢
  generalize hst1 : read16 s0 (EE_PAGE1_ADDRESS fsr) = st1 at hfc ⊢
  have hc4 : ¬ ((st0 = EE_PAGE_ERASED ∧ st1 = EE_PAGE_TRANSFER) ∨
      (st0 = EE_PAGE_TRANSFER ∧ st1 = EE_PAGE_ERASED)) := by
    intro h
    rcases h with ⟨a, b⟩ | ⟨a, b⟩ <;>
      simp [flash_ee_format_check, a, b, EE_PAGE_ERASED, EE_PAGE_TRANSFER, EE_PAGE_VALID] at hfc
  have hc5 : ¬ ((st0 = EE_PAGE_VALID ∧ st1 = EE_PAGE_TRANSFER) ∨
      (st0 = EE_PAGE_TRANSFER ∧ st1 = EE_PAGE_VALID)) := by
    intro h
    rcases h with ⟨a, b⟩ | ⟨a, b⟩ <;>
      simp [flash_ee_format_check, a, b, EE_PAGE_ERASED, EE_PAGE_TRANSFER, EE_PAGE_VALID] at hfc
  generalize hr1 : (if st0 = EE_PAGE_ERASED then flash_ee_page_erase s0 (EE_PAGE0_ADDRESS fsr)
    else (FMC_STATUS_COMPLETE, s0)) = r1
  have h1 : r1.1 = FMC_STATUS_COMPLETE ∧ r1.2.script = [] := by
    rw [← hr1]
    split_ifs
    · exact ⟨(page_erase_nil _ _ hs).1, (page_erase_nil _ _ hs).2.1⟩
    · exact ⟨rfl, hs⟩
  rw [if_neg (fun hne => hne h1.1)]
  generalize hr2 : (if st1 = EE_PAGE_ERASED then flash_ee_page_erase r1.2 (EE_PAGE1_ADDRESS fsr)
    else (FMC_STATUS_COMPLETE, r1.2)) = r2
  have h2 : r2.1 = FMC_STATUS_COMPLETE ∧ r2.2.script = [] := by
    rw [← hr2]
    split_ifs
    · exact ⟨(page_erase_nil _ _ h1.2).1, (page_erase_nil _ _ h1.2).2.1⟩
    · exact ⟨rfl, h1.2⟩
  rw [if_neg (fun hne => hne h2.1)]
  obtain ⟨f1, f2⟩ := format_nil fsr r2.2 h2.2
  simp only [hfc, ne_eq, not_false_eq_true, if_true, f1, not_true_eq_false, if_false, hc4, hc5]
  have hfree : SlotFree (flash_ee_format fsr r2.2).2 (pageAddress fsr 0) 510 :=
    (fresh_holds fsr _ f2).2.2.2 510 (by omega) (by rw [EE_PARA_MAX_NUMBER_eq]; omega)
  have hst := (fresh_holds fsr _ f2).1
  rw [full_check_free fsr _ 0 (by omega) (stable_valid_read fsr _ 0 hst) hfree]
  exact ⟨_, f2, rfl⟩

/-- Recovery when one page is marked Transfer and the other reads as erased: the erased page is
erased again and the Transfer page is promoted to Valid. -/
theorem init_body_transfer_erased (fsr : Nat) (s0 : Flash) (q : Nat) (hq : q ≤ 1)
    (hs : s0.script = [])
    (ht : read16 s0 (pageAddress fsr q) = EE_PAGE_TRANSFER)
    (he : read16 s0 (pageAddress fsr (1 - q)) = EE_PAGE_ERASED) :
    ∃ u p, Stable fsr u p ∧ flash_ee_init_body fsr s0 = flash_ee_full_check fsr u ∧
      ∀ k, lookup u (pageAddress fsr p) k EE_PARA_MAX_NUMBER
        = lookup s0 (pageAddress fsr q) k EE_PARA_MAX_NUMBER := by
  obtain ⟨e1, e2, e3, e4⟩ := page_erase_nil s0 (pageAddress fsr (1 - q)) hs
  obtain ⟨c1, c2⟩ := program_nil (flash_ee_page_erase s0 (pageAddress fsr (1 - q))).2
    (pageAddress fsr q) EE_PAGE_VALID e2
  have hd := pages_disjoint fsr q hq
  refine ⟨(FMC_ProgramHalfWord (flash_ee_page_erase s0 (pageAddress fsr (1 - q))).2
    (pageAddress fsr q) EE_PAGE_VALID).2, q, ⟨c2, hq, program_read16_zero _ _ c1, ?_⟩, ?_, ?_⟩
  · intro a ha1 ha2
    rw [EE_PAGE_SIZE_eq] at ha2
    rw [program_read16_other _ _ _ a (by omega)]
    exact e3 a ha1 (by rw [EE_PAGE_SIZE_eq]; exact ha2)
  · unfold flash_ee_init_body
    simp only [EE_PAGE0_ADDRESS_eq, EE_PAGE1_ADDRESS_eq]
    have h01 : q = 0 ∨ q = 1 := by omega
    rcases h01 with rfl | rfl
    · simp only [Nat.sub_zero] at he e1 c1 ⊢
      simp only [ht, he, e1, flash_ee_format_check, flash_ee_erase_transfer, EE_PAGE_VALID,
        EE_PAGE_ERASED, EE_PAGE_TRANSFER, EE_PAGE0_ADDRESS_eq, EE_PAGE1_ADDRESS_eq]
      simp only [EE_PAGE_VALID] at c1
      simp [init_body_tail, init_body_tail2, e1, c1]
    · simp only [Nat.sub_self] at he e1 c1 ⊢
      simp only [ht, he, e1, flash_ee_format_check, flash_ee_erase_transfer, EE_PAGE_VALID,
        EE_PAGE_ERASED, EE_PAGE_TRANSFER, EE_PAGE0_ADDRESS_eq, EE_PAGE1_ADDRESS_eq]
      simp only [EE_PAGE_VALID] at c1
      simp [init_body_tail, init_body_tail2, e1, c1]
  · intro k
    apply lookup_page_congr
    intro a ha1 ha2
    rw [program_read16_other _ _ _ a (by omega)]
    exact read16_of_cell (e4 _ (by omega))

/-- Recovery when one page is valid and the other is marked Transfer: the Transfer page is
erased and the compaction is run again from the valid page. -/
theorem init_body_valid_transfer (fsr : Nat) (s0 : Flash) (q : Nat) (hq : q ≤ 1)
    (hs : s0.script = [])
    (hv : read16 s0 (pageAddress fsr q) = EE_PAGE_VALID)
    (ht : read16 s0 (pageAddress fsr (1 - q)) = EE_PAGE_TRANSFER) :
    ∃ u p, Stable fsr u p ∧ flash_ee_init_body fsr s0 = flash_ee_full_check fsr u ∧
      ∀ k, k < 511 → lookup u (pageAddress fsr p) k EE_PARA_MAX_NUMBER
        = lookup s0 (pageAddress fsr q) k EE_PARA_MAX_NUMBER := by
  obtain ⟨e1, e2, e3, e4⟩ := page_erase_nil s0 (pageAddress fsr (1 - q)) hs
  have hd := pages_disjoint fsr q hq
  have hst : Stable fsr (flash_ee_page_erase s0 (pageAddress fsr (1 - q))).2 q := by
    refine ⟨e2, hq, ?_, e3⟩
    rw [← hv]
    exact read16_of_cell (e4 _ (by omega))
  obtain ⟨c1, c2, c3, -⟩ := compact_stable fsr _ q hst _ rfl
  have hcopy := copy_unfold fsr _ q hq (stable_valid_read fsr _ q hst)
  refine ⟨_, 1 - q, c2.1, ?_, ?_⟩
  · unfold flash_ee_init_body
    simp only [EE_PAGE0_ADDRESS_eq, EE_PAGE1_ADDRESS_eq]
    have h01 : q = 0 ∨ q = 1 := by omega
    rcases h01 with rfl | rfl
    · simp only [Nat.sub_zero] at ht e1 c1 hcopy ⊢
      simp only [hv, ht, flash_ee_format_check, flash_ee_valid_transfer, EE_PAGE_VALID,
        EE_PAGE_ERASED, EE_PAGE_TRANSFER, EE_PAGE0_ADDRESS_eq, EE_PAGE1_ADDRESS_eq]
      simp [init_body_tail, init_body_tail2, e1, c1, hcopy]
    · simp only [Nat.sub_self] at ht e1 c1 hcopy ⊢
      simp only [hv, ht, flash_ee_format_check, flash_ee_valid_transfer, EE_PAGE_VALID,
        EE_PAGE_ERASED, EE_PAGE_TRANSFER, EE_PAGE0_ADDRESS_eq, EE_PAGE1_ADDRESS_eq]
      simp [init_body_tail, init_body_tail2, e1, c1, hcopy]
  · intro k hk
    rw [migrated_lookup fsr _ _ q c3 k hk]
    apply lookup_page_congr
    intro a ha1 ha2
    exact read16_of_cell (e4 _ (by omega))

/-- With a correct format one page is the source of the recovery: it is valid next to an erased
or Transfer page, or it is marked Transfer next to an erased page. -/
theorem format_ok_cases (fsr : Nat) (s : Flash)
    (h : flash_ee_format_check (read16 s (EE_PAGE0_ADDRESS fsr))
      (read16 s (EE_PAGE1_ADDRESS fsr)) = 0) :
    ∃ q, q ≤ 1 ∧
      ((read16 s (pageAddress fsr q) = EE_PAGE_VALID ∧
          (read16 s (pageAddress fsr (1 - q)) = EE_PAGE_ERASED ∨
            read16 s (pageAddress fsr (1 - q)) = EE_PAGE_TRANSFER)) ∨
        (read16 s (pageAddress fsr q) = EE_PAGE_TRANSFER ∧
          read16 s (pageAddress fsr (1 - q)) = EE_PAGE_ERASED)) := by
  obtain ⟨hne, h0, h1⟩ := format_check_ok _ _ h
  simp only [EE_PAGE0_ADDRESS_eq, EE_PAGE1_ADDRESS_eq] at hne h0 h1
  rcases h0 with a | a | a <;> rcases h1 with b | b | b
  · exact absurd (a.trans b.symm) hne
  · exact ⟨1, le_refl _, Or.inr ⟨b, a⟩⟩
  · exact ⟨1, le_refl _, Or.inl ⟨b, Or.inl a⟩⟩
  · exact ⟨0, by omega, Or.inr ⟨a, b⟩⟩
  · exact absurd (a.trans b.symm) hne
  · exact ⟨1, le_refl _, Or.inl ⟨b, Or.inr a⟩⟩
  · exact ⟨0, by omega, Or.inl ⟨a, Or.inl b⟩⟩
  · exact ⟨0, by omega, Or.inl ⟨a, Or.inr b⟩⟩
  · exact absurd (a.trans b.symm) hne

/-- Recovery from a source page `q`: `flash_ee_init` succeeds, leaves one valid and one erased
page, and the reader finds what the source page held for every key below
`EE_PARA_MAX_NUMBER`. -/
theorem init_source (fsr : Nat) (s : Flash) (q : Nat) (hq : q ≤ 1) (hs : s.script = [])
    (hcase : (read16 s (pageAddress fsr q) = EE_PAGE_VALID ∧
          (read16 s (pageAddress fsr (1 - q)) = EE_PAGE_ERASED ∨
            read16 s (pageAddress fsr (1 - q)) = EE_PAGE_TRANSFER)) ∨
        (read16 s (pageAddress fsr q) = EE_PAGE_TRANSFER ∧
          read16 s (pageAddress fsr (1 - q)) = EE_PAGE_ERASED)) :
    (flash_ee_init fsr s).1 = FMC_STATUS_COMPLETE ∧
    ∃ p', Stable fsr (flash_ee_init fsr s).2 p' ∧
      ∀ k, k < 511 →
        lookup (flash_ee_init fsr s).2 (pageAddress fsr p') k EE_PARA_MAX_NUMBER
          = lookup s (pageAddress fsr q) k EE_PARA_MAX_NUMBER := by
  have hs0 : (FMC_Unlock s).script = [] := hs
  have key : ∃ u p, Stable fsr u p ∧
      flash_ee_init_body fsr (FMC_Unlock s) = flash_ee_full_check fsr u ∧
      ∀ k, k < 511 → lookup u (pageAddress fsr p) k EE_PARA_MAX_NUMBER
        = lookup s (pageAddress fsr q) k EE_PARA_MAX_NUMBER := by
    rcases hcase with ⟨hv, he | ht⟩ | ⟨ht, he⟩
    · obtain ⟨u, p, a, b, c⟩ := init_body_valid_erased fsr (FMC_Unlock s) q hq hs0 hv he
      exact ⟨u, p, a, b, fun k _ => by rw [c k, lookup_unlock]⟩
    · obtain ⟨u, p, a, b, c⟩ := init_body_valid_transfer fsr (FMC_Unlock s) q hq hs0 hv ht
      exact ⟨u, p, a, b, fun k hk => by rw [c k hk, lookup_unlock]⟩
    · obtain ⟨u, p, a, b, c⟩ := init_body_transfer_erased fsr (FMC_Unlock s) q hq hs0 ht he
      exact ⟨u, p, a, b, fun k _ => by rw [c k, lookup_unlock]⟩
  obtain ⟨u, p, hu, hb, hl⟩ := key
  obtain ⟨f1, p', f2, f3, -⟩ := full_check_stable fsr u p hu
  unfold flash_ee_init
  simp only [hb]
  refine ⟨f1, p', f2, ?_⟩
  intro k hk
  rw [lookup_lock, f3 k hk, hl k hk]

/-- Recovery of an invalid format: `flash_ee_init` succeeds and leaves a freshly formatted
store. -/
theorem init_format (fsr : Nat) (s : Flash) (hs : s.script = [])
    (hfc : flash_ee_format_check (read16 s (EE_PAGE0_ADDRESS fsr))
      (read16 s (EE_PAGE1_ADDRESS fsr)) ≠ 0) :
    (flash_ee_init fsr s).1 = FMC_STATUS_COMPLETE ∧
      FreshlyFormatted fsr (flash_ee_init fsr s).2 := by
  obtain ⟨u, hu, hb⟩ := init_body_format fsr (FMC_Unlock s) hs hfc
  unfold flash_ee_init
  rw [hb]
  exact ⟨rfl, hu⟩

/-- On a flash whose operations all succeed `flash_ee_init` succeeds and leaves one valid and
one erased page, whatever the flash held. -/
theorem init_stable (fsr : Nat) (s : Flash) (hs : s.script = []) :
    (flash_ee_init fsr s).1 = FMC_STATUS_COMPLETE ∧
      ∃ p', Stable fsr (flash_ee_init fsr s).2 p' := by
  by_cases hfc : flash_ee_format_check (read16 s (EE_PAGE0_ADDRESS fsr))
      (read16 s (EE_PAGE1_ADDRESS fsr)) = 0
  · obtain ⟨q, hq, hcase⟩ := format_ok_cases fsr s hfc
    obtain ⟨a, p', b, -⟩ := init_source fsr s q hq hs hcase
    exact ⟨a, p', b⟩
  · obtain ⟨a, b⟩ := init_format fsr s hs hfc
    exact ⟨a, 0, (fresh_holds fsr _ b).1⟩

theorem reachable_holds (fsr : Nat) (s : Flash) (h : Reachable fsr s) :
    ∃ p m, Holds fsr s p m := by
  induction h with
  | fresh s hf => exact ⟨0, 0, fresh_holds fsr s hf⟩
  | write s k v _ ih =>
    obtain ⟨p, m, hh⟩ := ih
    obtain ⟨-, p1, m1, e1, -, hcase⟩ := data_write_spec fsr s p m hh k v _ rfl
    rcases hcase with ⟨-, -, h1, -⟩ | ⟨-, -, p2, m2, h2, -⟩
    · exact ⟨p1, 511, h1⟩
    · exact ⟨p2, m2, h2⟩

/-! ### Writing the keys `0, 1, 2, ...` in order -/

theorem writeKeys_succ (fsr : Nat) (val : Nat → Nat) (n : Nat) (s : Flash) :
    writeKeys fsr val (n + 1) s
      = (flash_ee_data_write fsr (writeKeys fsr val n s) n (val n)).2 := rfl

theorem holds_empty_lookup (fsr : Nat) (s : Flash) (p : Nat) (h : Holds fsr s p 0)
    (k : Nat) (hk : k < 511) :
    lookup s (pageAddress fsr p) k EE_PARA_MAX_NUMBER = none := by
  rw [lookup_free_suffix s _ k 0 (by omega) (by omega) h.2.2.2]
  rfl

/-- The first 510 writes of distinct keys fill the valid page without any compaction. -/
theorem writeKeys_spec (fsr : Nat) (val : Nat → Nat) (s : Flash) (p : Nat)
    (h0 : Holds fsr s p 0) (hval : ∀ i, i < 511 → val i < 65536) :
    ∀ n, n ≤ 510 →
      Holds fsr (writeKeys fsr val n s) p n ∧
      (∀ k, k < 511 → lookup (writeKeys fsr val n s) (pageAddress fsr p) k EE_PARA_MAX_NUMBER
        = if k < n then some (val k) else none) ∧
      eraseCount (writeKeys fsr val n s) = eraseCount s ∧
      (∀ j, j < n →
        (flash_ee_data_write fsr (writeKeys fsr val j s) j (val j)).1 = FMC_STATUS_COMPLETE) := by
  intro n
  induction n with
  | zero =>
    intro _
    refine ⟨h0, ?_, rfl, fun j hj => by omega⟩
    intro k hk
    simp only [Nat.not_lt_zero, if_false]
    exact holds_empty_lookup fsr s p h0 k hk
  | succ n ih =>
    intro hn
    obtain ⟨i1, i2, i3, i4⟩ := ih (by omega)
    obtain ⟨-, p1, m1, e1, hpre, hcase⟩ :=
      data_write_spec fsr (writeKeys fsr val n s) p n i1 n (val n) _ rfl
    rw [← writeKeys_succ] at hcase
    have hn1 : n % 65536 = n := Nat.mod_eq_of_lt (by omega)
    have hv1 : val n % 65536 = val n := Nat.mod_eq_of_lt (hval n (by omega))
    rcases hpre with ⟨-, hp1, hm1, he1⟩ | ⟨hh, -⟩
    swap
    · omega
    rw [hp1, hm1, he1] at hcase
    rcases hcase with ⟨hh, -⟩ | ⟨-, w1, p2, m2, w2, w3, w4⟩
    · omega
    rcases w4 with ⟨hp2, -, -, -, w5, w6⟩ | ⟨hh, -⟩
    swap
    · omega
    have hm2 : m2 = n + 1 := w5 (by rw [hn1]; omega)
    rw [hp2] at w2 w3
    rw [hm2] at w2
    refine ⟨w2, ?_, by rw [w6, i3, Nat.add_zero], ?_⟩
    · intro k hk
      rw [w3 k hk, hn1, hv1, i2 k hk]
      by_cases h1 : k = n
      · subst h1; simp
      · by_cases h2 : k < n
        · simp [h1, h2, Nat.lt_succ_of_lt h2]
        · have : ¬ k < n + 1 := by omega
          simp [h1, h2, this]
    · intro j hj
      rcases Nat.lt_succ_iff_lt_or_eq.mp hj with h1 | rfl
      · exact i4 j h1
      · exact w1

/-- The 511th write of a distinct key takes the last slot and triggers the one compaction; the
new valid page then holds all 511 keys and has no free slot. -/
theorem writeKeys_full (fsr : Nat) (val : Nat → Nat) (s : Flash) (p : Nat)
    (h0 : Holds fsr s p 0) (hval : ∀ i, i < 511 → val i < 65536) :
    (flash_ee_data_write fsr (writeKeys fsr val 510 s) 510 (val 510)).1 = FMC_STATUS_COMPLETE ∧
    Holds fsr (writeKeys fsr val 511 s) (1 - p) 511 ∧
    (∀ k, k < 511 →
      lookup (writeKeys fsr val 511 s) (pageAddress fsr (1 - p)) k EE_PARA_MAX_NUMBER
        = some (val k)) ∧
    eraseCount (writeKeys fsr val 511 s) = eraseCount s + 1 := by
  obtain ⟨i1, i2, i3, -⟩ := writeKeys_spec fsr val s p h0 hval 510 (le_refl _)
  obtain ⟨-, p1, m1, e1, hpre, hcase⟩ :=
    data_write_spec fsr (writeKeys fsr val 510 s) p 510 i1 510 (val 510) _ rfl
  rw [← writeKeys_succ] at hcase
  have hv1 : val 510 % 65536 = val 510 := Nat.mod_eq_of_lt (hval 510 (by omega))
  rcases hpre with ⟨-, hp1, hm1, he1⟩ | ⟨hh, -⟩
  swap
  · omega
  rw [hp1, hm1, he1] at hcase
  rcases hcase with ⟨hh, -⟩ | ⟨-, w1, p2, m2, w2, w3, w4⟩
  · omega
  have hall : ∀ k, k < 511 →
      lookup (writeKeys fsr val 511 s) (pageAddress fsr p2) k EE_PARA_MAX_NUMBER
        = some (val k) := by
    intro k hk
    rw [w3 k hk, hv1, i2 k hk]
    by_cases h1 : k = 510
    · subst h1; simp
    · have : k < 510 := by omega
      simp [h1, this]
  rcases w4 with ⟨-, -, -, hle, w5, -⟩ | ⟨-, hp2, w5, w6⟩
  · have := w5 (by decide)
    omega
  · rw [hp2] at w2 w5 hall
    have hcount : foundCount (writeKeys fsr val 511 s) (pageAddress fsr (1 - p))
        EE_PARA_MAX_NUMBER = 511 :=
      foundCount_all _ _ 511 (fun k hk => by rw [hall k hk]; rfl)
    rw [hcount] at w5
    rw [w5] at w2
    exact ⟨w1, w2, hall, by rw [w6, i3]⟩

/-- Once all 511 keys are stored every further write compacts and then finds no free slot. -/
theorem write_when_all_stored (fsr : Nat) (s : Flash) (p : Nat) (h : Holds fsr s p 511)
    (hall : ∀ k, k < 511 → (lookup s (pageAddress fsr p) k EE_PARA_MAX_NUMBER).isSome)
    (k v : Nat) :
    (flash_ee_data_write fsr s k v).1 = FMC_STATUS_ERROR_PG := by
  obtain ⟨-, p1, m1, e1, hpre, hcase⟩ := data_write_spec fsr s p 511 h k v _ rfl
  rcases hpre with ⟨hh, -⟩ | ⟨-, -, hm1, -⟩
  · omega
  have : m1 = 511 := by
    rw [hm1, EE_PARA_MAX_NUMBER_eq]
    exact foundCount_all s _ 511 hall
  rcases hcase with ⟨-, w, -⟩ | ⟨hh, -⟩
  · exact w
  · omega

theorem lastSlotWord_holds (fsr : Nat) (s : Flash) (p m : Nat) (h : Holds fsr s p m) :
    lastSlotWord fsr s = 0xFFFFFFFF ↔ m ≤ 510 := by
  unfold lastSlotWord
  rw [stable_valid_read fsr s p h.1]
  have e : EE_BASE_ADDRESS fsr + p * EE_PAGE_SIZE + EE_PAGE_SIZE - 2 - 2
      = pageAddress fsr p + 4 * (510 + 1) := by
    unfold pageAddress; rw [EE_PAGE_SIZE_eq]; omega
  rw [e, ← slotFree_iff_read32]
  exact holds_slot510 fsr s p m h

/-! ### Adequacy of the loop bounds and of the address arithmetic -/

/-- The addresses of the two pages fit in 32 bits, so the `uint32_t` address arithmetic of
`eeprom.c` never wraps. -/
theorem addresses_fit (fsr : Nat) :
    EE_BASE_ADDRESS fsr = 134213632 + 1024 * (fsr % 65536) ∧
      EE_BASE_ADDRESS fsr + 2 * EE_PAGE_SIZE < 2 ^ 32 := by
  have h : fsr % 65536 < 65536 := Nat.mod_lt _ (by decide)
  unfold EE_BASE_ADDRESS EE_FLASH_SIZE
  rw [EE_PAGE_SIZE_eq]
  omega

/-- The bound passed to the read loop is never the reason why it stops: every bound of at least
the number of record slots gives the same result. -/
theorem read_loop_bound_irrelevant (s : Flash) (k P fuel pdata : Nat) (hf : 511 ≤ fuel) :
    flash_ee_data_read_loop s k (P + 4) fuel (P + 4 * 511 + 2) pdata
      = flash_ee_data_read_loop s k (P + 4) 511 (P + 4 * 511 + 2) pdata := by
  rw [read_loop_eq s k P 511 fuel pdata hf, read_loop_eq s k P 511 511 pdata (le_refl _)]

/-- The bound passed to the write loop is never the reason why it stops: every bound above the
number of words left to scan gives the same result. -/
theorem write_loop_bound_irrelevant (k v P : Nat) (s : Flash) (d : Nat) :
    ∀ fuel j, j + d = 512 → d < fuel →
      flash_ee_write_no_check_loop k v (P + 2046) fuel (P + 4 * j) s
        = flash_ee_write_no_check_loop k v (P + 2046) (d + 1) (P + 4 * j) s := by
  induction d with
  | zero =>
    intro fuel j hj _
    have : j = 512 := by omega
    subst this
    rw [write_loop_end, write_loop_end]
  | succ d ih =>
    intro fuel j hj hf
    cases fuel with
    | zero => omega
    | succ f =>
      have hlt : P + 4 * j < P + 2046 := by omega
      have e1 : P + 4 * j + 4 = P + 4 * (j + 1) := by omega
      rw [flash_ee_write_no_check_loop, flash_ee_write_no_check_loop]
      simp only [hlt, if_true]
      split_ifs
      · rfl
      · rfl
      · rfl
      · rw [e1]
        exact ih f (j + 1) (by omega) (by omega)

/-! ### Consequences for successful and failed writes -/

theorem write_complete (fsr : Nat) (s : Flash) (p m : Nat) (h : Holds fsr s p m) (k v : Nat)
    (hw : (flash_ee_data_write fsr s k v).1 = FMC_STATUS_COMPLETE) :
    ∃ p2 m2, Holds fsr (flash_ee_data_write fsr s k v).2 p2 m2 ∧
      (∀ k', k' < 511 →
        lookup (flash_ee_data_write fsr s k v).2 (pageAddress fsr p2) k' EE_PARA_MAX_NUMBER
          = if k' = k % 65536 then some (v % 65536)
            else lookup s (pageAddress fsr p) k' EE_PARA_MAX_NUMBER) ∧
      (m2 ≤ 510 ∨
        m2 = foundCount (flash_ee_data_write fsr s k v).2 (pageAddress fsr p2)
          EE_PARA_MAX_NUMBER) := by
  obtain ⟨-, p1, m1, e1, -, hcase⟩ := data_write_spec fsr s p m h k v _ rfl
  rcases hcase with ⟨-, he, -⟩ | ⟨-, -, p2, m2, w2, w3, w4⟩
  · rw [hw] at he
    exact absurd he (by decide)
  · refine ⟨p2, m2, w2, w3, ?_⟩
    rcases w4 with ⟨-, -, -, hle, -⟩ | ⟨-, -, hm2, -⟩
    · exact Or.inl hle
    · exact Or.inr hm2

theorem write_failed (fsr : Nat) (s : Flash) (p m : Nat) (h : Holds fsr s p m) (k v : Nat)
    (hw : (flash_ee_data_write fsr s k v).1 ≠ FMC_STATUS_COMPLETE) :
    ∃ p1, Holds fsr (flash_ee_data_write fsr s k v).2 p1 511 ∧
      (∀ k', k' < 511 →
        lookup (flash_ee_data_write fsr s k v).2 (pageAddress fsr p1) k' EE_PARA_MAX_NUMBER
          = lookup s (pageAddress fsr p) k' EE_PARA_MAX_NUMBER) := by
  obtain ⟨-, p1, m1, e1, -, hcase⟩ := data_write_spec fsr s p m h k v _ rfl
  rcases hcase with ⟨-, -, h1, h2, -⟩ | ⟨-, hc, -⟩
  · exact ⟨p1, h1, h2⟩
  · exact absurd hc hw

theorem holds_read (fsr : Nat) (s : Flash) (p m : Nat) (h : Holds fsr s p m) (k d : Nat) :
    flash_ee_data_read fsr s k d
      = readResult (lookup s (pageAddress fsr p) k EE_PARA_MAX_NUMBER) d :=
  stable_read fsr s p h.1 k d

theorem freshFlash_formatted (fsr : Nat) : FreshlyFormatted fsr (freshFlash fsr) := by
  refine ⟨rfl, ?_, ?_, ?_⟩
  · simp [read16, freshFlash, EE_PAGE_VALID]
  · intro a h1 h2
    have : a ≠ EE_PAGE0_ADDRESS fsr := by omega
    simp [read16, freshFlash, this]
  · intro a h1 h2
    have : a ≠ EE_PAGE0_ADDRESS fsr := by
      have : EE_PAGE1_ADDRESS fsr = EE_PAGE0_ADDRESS fsr + 2048 := rfl
      omega
    simp [read16, freshFlash, this]

theorem reachable_writeKeys (fsr : Nat) (val : Nat → Nat) (s : Flash) (h : Reachable fsr s) :
    ∀ n, Reachable fsr (writeKeys fsr val n s) := by
  intro n
  induction n with
  | zero => exact h
  | succ n ih => exact Reachable.write _ _ _ ih

/-! ## The claims -/

/-- C1 (round trip).  For every store state reachable from a freshly formatted store by calls to
`flash_ee_data_write`, every key `k` below `EE_PARA_MAX_NUMBER` and every 16-bit value `v`: on a
flash whose operations all succeed, if `flash_ee_data_write(k, v)` returns
`FMC_STATUS_COMPLETE` then the following `flash_ee_data_read(k)` returns 0 and yields `v`,
whether or not the write compacted before or after the append. -/
theorem C1_round_trip (fsr : Nat) (s : Flash) (k v pdata : Nat)
    (hs : Reachable fsr s) (hk : k < EE_PARA_MAX_NUMBER) (hv : v < 65536)
    (hw : (flash_ee_data_write fsr s k v).1 = FMC_STATUS_COMPLETE) :
    flash_ee_data_read fsr (flash_ee_data_write fsr s k v).2 k pdata = (0, v) := by
  rw [EE_PARA_MAX_NUMBER_eq] at hk
  obtain ⟨p, m, h⟩ := reachable_holds fsr s hs
  obtain ⟨p2, m2, w2, w3, -⟩ := write_complete fsr s p m h k v hw
  rw [holds_read fsr _ p2 m2 w2, w3 k hk, Nat.mod_eq_of_lt (show k < 65536 by omega),
    Nat.mod_eq_of_lt hv, if_pos rfl]
  rfl

/-- Witness of C1: key 3 and value 7 on the concrete freshly formatted flash. -/
theorem C1_round_trip_witness :
    Reachable 512 (freshFlash 512) ∧ 3 < EE_PARA_MAX_NUMBER ∧
    (flash_ee_data_write 512 (freshFlash 512) 3 7).1 = FMC_STATUS_COMPLETE ∧
    flash_ee_data_read 512 (flash_ee_data_write 512 (freshFlash 512) 3 7).2 3 0 = (0, 7) :=
  ⟨Reachable.fresh _ (freshFlash_formatted 512), by decide, by decide,
    C1_round_trip 512 (freshFlash 512) 3 7 0 (Reachable.fresh _ (freshFlash_formatted 512))
      (by decide) (by decide) (by decide)⟩

/-- C2 (last write wins).  For every reachable store state, every key `k` below
`EE_PARA_MAX_NUMBER` and all values `v1`, `v2` (`v2` a 16-bit value): if
`flash_ee_data_write(k, v1)` and then `flash_ee_data_write(k, v2)` both return
`FMC_STATUS_COMPLETE`, then `flash_ee_data_read(k)` returns 0 with the value `v2`, whether or
not a compaction ran between or after the two writes. -/
theorem C2_last_write_wins (fsr : Nat) (s : Flash) (k v1 v2 pdata : Nat)
    (hs : Reachable fsr s) (hk : k < EE_PARA_MAX_NUMBER) (hv2 : v2 < 65536)
    (_h1 : (flash_ee_data_write fsr s k v1).1 = FMC_STATUS_COMPLETE)
    (h2 : (flash_ee_data_write fsr (flash_ee_data_write fsr s k v1).2 k v2).1
      = FMC_STATUS_COMPLETE) :
    flash_ee_data_read fsr
      (flash_ee_data_write fsr (flash_ee_data_write fsr s k v1).2 k v2).2 k pdata = (0, v2) := by
  rw [EE_PARA_MAX_NUMBER_eq] at hk
  obtain ⟨p, m, h⟩ := reachable_holds fsr _ (Reachable.write s k v1 hs)
  obtain ⟨p2, m2, w2, w3, -⟩ := write_complete fsr _ p m h k v2 h2
  rw [holds_read fsr _ p2 m2 w2, w3 k hk, Nat.mod_eq_of_lt (show k < 65536 by omega),
    Nat.mod_eq_of_lt hv2, if_pos rfl]
  rfl

/-- Witness of C2: key 3 written with 7 and then with 9 on the concrete freshly formatted
flash. -/
theorem C2_last_write_wins_witness :
    Reachable 512 (freshFlash 512) ∧
    (flash_ee_data_write 512 (freshFlash 512) 3 7).1 = FMC_STATUS_COMPLETE ∧
    (flash_ee_data_write 512 (flash_ee_data_write 512 (freshFlash 512) 3 7).2 3 9).1
      = FMC_STATUS_COMPLETE ∧
    flash_ee_data_read 512
      (flash_ee_data_write 512 (flash_ee_data_write 512 (freshFlash 512) 3 7).2 3 9).2 3 0
      = (0, 9) :=
  ⟨Reachable.fresh _ (freshFlash_formatted 512), by decide, by decide,
    C2_last_write_wins 512 (freshFlash 512) 3 7 9 0
      (Reachable.fresh _ (freshFlash_formatted 512)) (by decide) (by decide) (by decide)
      (by decide)⟩

theorem strayKeyFlash_stable (fsr : Nat) : Stable fsr (strayKeyFlash fsr) 0 := by
  refine ⟨rfl, by omega, ?_, ?_⟩
  · simp [read16, strayKeyFlash, EE_PAGE_VALID, EE_PAGE0_ADDRESS_eq]
  · intro a h1 h2
    rw [Nat.sub_zero, pageAddress_one] at h1 h2
    have e0 : EE_PAGE0_ADDRESS fsr = EE_BASE_ADDRESS fsr := rfl
    have n1 : a ≠ EE_PAGE0_ADDRESS fsr := by omega
    have n2 : a ≠ EE_PAGE0_ADDRESS fsr + 4 := by omega
    have n3 : a ≠ EE_PAGE0_ADDRESS fsr + 6 := by omega
    simp [read16, strayKeyFlash, n1, n2, n3]

/-- Compaction keeps what the reader finds for every key below `EE_PARA_MAX_NUMBER` and drops
every other key except the erased pattern. -/
theorem compact_read (fsr : Nat) (s : Flash) (p : Nat) (h : Stable fsr s p) :
    (flash_ee_copy_to_new_page fsr s).1 = FMC_STATUS_COMPLETE ∧
    Stable fsr (flash_ee_copy_to_new_page fsr s).2 (1 - p) ∧
    ∀ k d, k ≠ 0xFFFF → flash_ee_data_read fsr (flash_ee_copy_to_new_page fsr s).2 k d
      = if k < EE_PARA_MAX_NUMBER then flash_ee_data_read fsr s k d else (1, d) := by
  rw [copy_unfold fsr s p h.2.1 (stable_valid_read fsr s p h)]
  obtain ⟨c1, c2, c3, -⟩ := compact_stable fsr s p h _ rfl
  refine ⟨c1, c2.1, ?_⟩
  intro k d hk
  rw [stable_read fsr _ (1 - p) c2.1, c3.2.2.2 k hk, stable_read fsr s p h]
  split_ifs <;> rfl

/-- C3 (compaction preserves data), amended to the keys below `EE_PARA_MAX_NUMBER`.  For every
state in which one page is Valid and the other page is entirely erased, on a flash whose
operations all succeed: `flash_ee_copy_to_new_page` returns `FMC_STATUS_COMPLETE` and, for every
key below `EE_PARA_MAX_NUMBER`, `flash_ee_data_read` returns after the compaction exactly what it
returned before it (the same status, and the same value when the key is found). -/
theorem C3_compaction_preserves_keys_in_range (fsr : Nat) (s : Flash) (p : Nat)
    (h : Stable fsr s p) :
    (flash_ee_copy_to_new_page fsr s).1 = FMC_STATUS_COMPLETE ∧
    ∀ k pdata, k < EE_PARA_MAX_NUMBER →
      flash_ee_data_read fsr (flash_ee_copy_to_new_page fsr s).2 k pdata
        = flash_ee_data_read fsr s k pdata := by
  obtain ⟨c1, -, c3⟩ := compact_read fsr s p h
  refine ⟨c1, ?_⟩
  intro k d hk
  rw [c3 k d (by rw [EE_PARA_MAX_NUMBER_eq] at hk; omega), if_pos hk]

set_option maxRecDepth 100000 in
/-- Counterexample to C3 as stated: in `strayKeyFlash` page 0 is valid, page 1 is entirely
erased and the key 511 has a record in the source page, which the reader finds with value 7;
the compaction completes and afterwards the key 511 is not found. -/
theorem C3_counterexample :
    Stable 512 (strayKeyFlash 512) 0 ∧
    flash_ee_data_read 512 (strayKeyFlash 512) 511 0 = (0, 7) ∧
    (flash_ee_copy_to_new_page 512 (strayKeyFlash 512)).1 = FMC_STATUS_COMPLETE ∧
    flash_ee_data_read 512 (flash_ee_copy_to_new_page 512 (strayKeyFlash 512)).2 511 0
      = (1, 0) := by
  have h := strayKeyFlash_stable 512
  obtain ⟨c1, -, c3⟩ := compact_read 512 (strayKeyFlash 512) 0 h
  refine ⟨h, by decide, c1, ?_⟩
  rw [c3 511 0 (by decide)]
  decide

/-- C5 (terminal state of init).  For every initial flash content, on a flash whose operations
all succeed, `flash_ee_init` returns `FMC_STATUS_COMPLETE` and afterwards exactly one page has
status Valid and the other has status Erased; in particular the two pages are not both Valid. -/
theorem C5_init_terminal_state (fsr : Nat) (s : Flash) (hs : s.script = []) :
    (flash_ee_init fsr s).1 = FMC_STATUS_COMPLETE ∧
    OneValidOtherErased fsr (flash_ee_init fsr s).2 ∧
    ¬ (read16 (flash_ee_init fsr s).2 (EE_PAGE0_ADDRESS fsr) = EE_PAGE_VALID ∧
      read16 (flash_ee_init fsr s).2 (EE_PAGE1_ADDRESS fsr) = EE_PAGE_VALID) := by
  obtain ⟨a, p', b⟩ := init_stable fsr s hs
  have hone := stable_one_valid fsr _ p' b
  refine ⟨a, hone, ?_⟩
  rintro ⟨h0, h1⟩
  rcases hone with ⟨-, e⟩ | ⟨e, -⟩
  · rw [h1] at e; exact absurd e (by decide)
  · rw [h0] at e; exact absurd e (by decide)

/-- Witness of C5: the flash in which every half-word is zero, so that both pages read Valid. -/
theorem C5_init_terminal_state_witness :
    (flash_ee_init 512 ⟨fun _ => 0, false, [], []⟩).1 = FMC_STATUS_COMPLETE ∧
    OneValidOtherErased 512 (flash_ee_init 512 ⟨fun _ => 0, false, [], []⟩).2 ∧
    ¬ (read16 (flash_ee_init 512 ⟨fun _ => 0, false, [], []⟩).2 (EE_PAGE0_ADDRESS 512)
        = EE_PAGE_VALID ∧
      read16 (flash_ee_init 512 ⟨fun _ => 0, false, [], []⟩).2 (EE_PAGE1_ADDRESS 512)
        = EE_PAGE_VALID) :=
  C5_init_terminal_state 512 ⟨fun _ => 0, false, [], []⟩ rfl

/-- C6 (format invalidity triggers reformat).  For every initial flash content whose two status
words are equal or where either status word is not one of `0xFFFF`, `0xCCCC`, `0x0000`, on a
flash whose operations all succeed: after `flash_ee_init` page 0 is Valid, page 1 is Erased,
every record slot of both pages is in the erased pattern, and `flash_ee_data_read` returns 1
(not found) for every key below `EE_PARA_MAX_NUMBER`. -/
theorem C6_format_invalid_reformats (fsr : Nat) (s : Flash) (hs : s.script = [])
    (hbad : read16 s (EE_PAGE0_ADDRESS fsr) = read16 s (EE_PAGE1_ADDRESS fsr) ∨
      (read16 s (EE_PAGE0_ADDRESS fsr) ≠ 0xFFFF ∧ read16 s (EE_PAGE0_ADDRESS fsr) ≠ 0xCCCC ∧
        read16 s (EE_PAGE0_ADDRESS fsr) ≠ 0x0000) ∨
      (read16 s (EE_PAGE1_ADDRESS fsr) ≠ 0xFFFF ∧ read16 s (EE_PAGE1_ADDRESS fsr) ≠ 0xCCCC ∧
        read16 s (EE_PAGE1_ADDRESS fsr) ≠ 0x0000)) :
    (flash_ee_init fsr s).1 = FMC_STATUS_COMPLETE ∧
    read16 (flash_ee_init fsr s).2 (EE_PAGE0_ADDRESS fsr) = EE_PAGE_VALID ∧
    read16 (flash_ee_init fsr s).2 (EE_PAGE1_ADDRESS fsr) = EE_PAGE_ERASED ∧
    (∀ i, i < EE_PARA_MAX_NUMBER →
      SlotFree (flash_ee_init fsr s).2 (EE_PAGE0_ADDRESS fsr) i ∧
      SlotFree (flash_ee_init fsr s).2 (EE_PAGE1_ADDRESS fsr) i) ∧
    ∀ k pdata, k < EE_PARA_MAX_NUMBER →
      flash_ee_data_read fsr (flash_ee_init fsr s).2 k pdata = (1, pdata) := by
  have hfc : flash_ee_format_check (read16 s (EE_PAGE0_ADDRESS fsr))
      (read16 s (EE_PAGE1_ADDRESS fsr)) ≠ 0 := by
    intro h0
    obtain ⟨hne, ha, hb⟩ := format_check_ok _ _ h0
    rcases hbad with h | ⟨h1, h2, h3⟩ | ⟨h1, h2, h3⟩
    · exact hne h
    · rcases ha with a | a | a
      · exact h1 a
      · exact h2 a
      · exact h3 a
    · rcases hb with a | a | a
      · exact h1 a
      · exact h2 a
      · exact h3 a
  obtain ⟨a, b⟩ := init_format fsr s hs hfc
  have hh := fresh_holds fsr _ b
  obtain ⟨-, hv, hrest, he⟩ := b
  refine ⟨a, hv, he _ (le_refl _) (by rw [EE_PAGE_SIZE_eq]; omega), ?_, ?_⟩
  · intro i hi
    rw [EE_PARA_MAX_NUMBER_eq] at hi
    rw [EE_PAGE_SIZE_eq] at hrest
    rw [PageErased, EE_PAGE_SIZE_eq] at he
    exact ⟨⟨hrest _ (by omega) (by omega), hrest _ (by omega) (by omega)⟩,
      ⟨he _ (by omega) (by omega), he _ (by omega) (by omega)⟩⟩
  · intro k d hk
    rw [EE_PARA_MAX_NUMBER_eq] at hk
    rw [holds_read fsr _ 0 0 hh, holds_empty_lookup fsr _ 0 hh k hk]
    rfl

/-- Witness of C6: the flash in which every half-word is zero, so that both pages read Valid. -/
theorem C6_format_invalid_reformats_witness :
    (flash_ee_init 512 ⟨fun _ => 0, false, [], []⟩).1 = FMC_STATUS_COMPLETE ∧
    read16 (flash_ee_init 512 ⟨fun _ => 0, false, [], []⟩).2 (EE_PAGE0_ADDRESS 512)
      = EE_PAGE_VALID ∧
    read16 (flash_ee_init 512 ⟨fun _ => 0, false, [], []⟩).2 (EE_PAGE1_ADDRESS 512)
      = EE_PAGE_ERASED ∧
    (∀ i, i < EE_PARA_MAX_NUMBER →
      SlotFree (flash_ee_init 512 ⟨fun _ => 0, false, [], []⟩).2 (EE_PAGE0_ADDRESS 512) i ∧
      SlotFree (flash_ee_init 512 ⟨fun _ => 0, false, [], []⟩).2 (EE_PAGE1_ADDRESS 512) i) ∧
    ∀ k pdata, k < EE_PARA_MAX_NUMBER →
      flash_ee_data_read 512 (flash_ee_init 512 ⟨fun _ => 0, false, [], []⟩).2 k pdata
        = (1, pdata) :=
  C6_format_invalid_reformats 512 ⟨fun _ => 0, false, [], []⟩ rfl (Or.inl rfl)

theorem lookup_same_cells (s t : Flash) (h : t.cell = s.cell) (P k n : Nat) :
    lookup t P k n = lookup s P k n := by
  apply lookup_congr
  intro i _
  unfold slotKey slotVal read16
  rw [h]
  exact ⟨rfl, rfl⟩

/-- Whatever the driver does during a compaction started on a store with one valid and one
erased page, the next `flash_ee_init` on a working flash succeeds, leaves one valid and one
erased page, and the reader finds what the valid page held for every key below
`EE_PARA_MAX_NUMBER`. -/
theorem crash_recover (fsr : Nat) (s : Flash) (p : Nat) (h : Stable fsr s p)
    (sc : List FMC_STATUS_T) (c : Flash)
    (hc : c.cell = (flash_ee_copy_to_new_page fsr { s with script := sc }).2.cell)
    (hcs : c.script = []) :
    (flash_ee_init fsr c).1 = FMC_STATUS_COMPLETE ∧
    ∃ p', Stable fsr (flash_ee_init fsr c).2 p' ∧
      ∀ k, k < 511 →
        lookup (flash_ee_init fsr c).2 (pageAddress fsr p') k EE_PARA_MAX_NUMBER
          = lookup s (pageAddress fsr p) k EE_PARA_MAX_NUMBER := by
  obtain ⟨-, hp, hv, he⟩ := h
  have hv' : read16 { s with script := sc } (pageAddress fsr p) = EE_PAGE_VALID := hv
  have he' : PageErased { s with script := sc } (pageAddress fsr (1 - p)) := he
  have hread : flash_ee_valid_page_get fsr { s with script := sc } EE_VALID_PAGE_READ = p :=
    valid_page_read fsr _ p hp hv'
      (by rw [he' _ (le_refl _) (by rw [EE_PAGE_SIZE_eq]; omega)]; decide)
  rw [copy_unfold fsr _ p hp hread] at hc
  obtain ⟨c1, c2, -⟩ := copy_body_spec fsr _ p hp hv' he' _ rfl
  have hr16 : ∀ a, read16 c a = read16 (flash_ee_copy_to_new_page_body fsr
      { s with script := sc } (pageAddress fsr p) (pageAddress fsr (1 - p))).2 a :=
    fun a => read16_of_cell (by rw [hc])
  have hsame : ∀ k, lookup { s with script := sc } (pageAddress fsr p) k EE_PARA_MAX_NUMBER
      = lookup s (pageAddress fsr p) k EE_PARA_MAX_NUMBER :=
    fun k => lookup_same_cells s { s with script := sc } rfl _ _ _
  have e11 : 1 - (1 - p) = p := by omega
  have hq : 1 - p ≤ 1 := by omega
  -- recovery from the target page once the data is migrated
  have fromTarget : Migrated fsr { s with script := sc }
      (flash_ee_copy_to_new_page_body fsr { s with script := sc } (pageAddress fsr p)
        (pageAddress fsr (1 - p))).2 p →
      ((read16 c (pageAddress fsr (1 - p)) = EE_PAGE_VALID ∧
          (read16 c (pageAddress fsr (1 - (1 - p))) = EE_PAGE_ERASED ∨
            read16 c (pageAddress fsr (1 - (1 - p))) = EE_PAGE_TRANSFER)) ∨
        (read16 c (pageAddress fsr (1 - p)) = EE_PAGE_TRANSFER ∧
          read16 c (pageAddress fsr (1 - (1 - p))) = EE_PAGE_ERASED)) →
      (flash_ee_init fsr c).1 = FMC_STATUS_COMPLETE ∧
      ∃ p', Stable fsr (flash_ee_init fsr c).2 p' ∧
        ∀ k, k < 511 →
          lookup (flash_ee_init fsr c).2 (pageAddress fsr p') k EE_PARA_MAX_NUMBER
            = lookup s (pageAddress fsr p) k EE_PARA_MAX_NUMBER := by
    intro hmig hcase
    obtain ⟨a, p', b, d⟩ := init_source fsr c (1 - p) hq hcs hcase
    refine ⟨a, p', b, ?_⟩
    intro k hk
    rw [d k hk, lookup_same_cells _ c hc, migrated_lookup fsr _ _ p hmig k hk, hsame k]
  by_cases hcomp : (flash_ee_copy_to_new_page_body fsr { s with script := sc }
      (pageAddress fsr p) (pageAddress fsr (1 - p))).1 = FMC_STATUS_COMPLETE
  · obtain ⟨m1, m2, -⟩ := c1 hcomp
    apply fromTarget m1
    left
    refine ⟨by rw [hr16, m2], Or.inl ?_⟩
    rw [e11, hr16]
    exact m1.1 _ (le_refl _) (by rw [EE_PAGE_SIZE_eq]; omega)
  · rcases c2 hcomp with ⟨i1, i2⟩ | ⟨m1, m2⟩
    · have hcase : (read16 c (pageAddress fsr p) = EE_PAGE_VALID ∧
            (read16 c (pageAddress fsr (1 - p)) = EE_PAGE_ERASED ∨
              read16 c (pageAddress fsr (1 - p)) = EE_PAGE_TRANSFER)) ∨
          (read16 c (pageAddress fsr p) = EE_PAGE_TRANSFER ∧
            read16 c (pageAddress fsr (1 - p)) = EE_PAGE_ERASED) := by
        left
        refine ⟨?_, ?_⟩
        · rw [hr16, ← hv']
          exact read16_of_cell (i1 _ (le_refl _) (by rw [EE_PAGE_SIZE_eq]; omega))
        · rw [hr16]
          exact i2
      obtain ⟨a, p', b, d⟩ := init_source fsr c p hp hcs hcase
      refine ⟨a, p', b, ?_⟩
      intro k hk
      rw [d k hk, ← hsame k]
      apply lookup_page_congr
      intro x hx1 hx2
      rw [hr16]
      exact read16_of_cell (i1 x (by omega) (by rw [EE_PAGE_SIZE_eq]; exact hx2))
    · apply fromTarget m1
      right
      refine ⟨by rw [hr16, m2], ?_⟩
      rw [e11, hr16]
      exact m1.1 _ (le_refl _) (by rw [EE_PAGE_SIZE_eq]; omega)

/-- C7 (spare capacity), amended.  For every reachable store state, on a flash whose operations
all succeed: whenever `flash_ee_data_write` returns `FMC_STATUS_COMPLETE` and afterwards at
least one key below `EE_PARA_MAX_NUMBER` is not stored (the reader does not find it), the page
that is then Valid has a free record slot: its last 4-byte slot reads `0xFFFFFFFF`. -/
theorem C7_spare_capacity_unless_all_stored (fsr : Nat) (s : Flash) (k v : Nat)
    (hs : Reachable fsr s)
    (hw : (flash_ee_data_write fsr s k v).1 = FMC_STATUS_COMPLETE)
    (hmiss : ∃ k0, k0 < EE_PARA_MAX_NUMBER ∧
      (flash_ee_data_read fsr (flash_ee_data_write fsr s k v).2 k0 0).1 ≠ 0) :
    lastSlotWord fsr (flash_ee_data_write fsr s k v).2 = 0xFFFFFFFF := by
  obtain ⟨p, m, h⟩ := reachable_holds fsr s hs
  obtain ⟨p2, m2, w2, -, w4⟩ := write_complete fsr s p m h k v hw
  rw [lastSlotWord_holds fsr _ p2 m2 w2]
  rcases w4 with hle | hcount
  · exact hle
  · by_contra hgt
    have hm2 := w2.2.1
    rw [EE_PARA_MAX_NUMBER_eq] at hm2
    have h511 : m2 = 511 := by omega
    rw [h511, EE_PARA_MAX_NUMBER_eq] at hcount
    obtain ⟨k0, hk0, hnf⟩ := hmiss
    rw [EE_PARA_MAX_NUMBER_eq] at hk0
    have hsome := foundCount_full _ _ 511 hcount.symm k0 hk0
    rw [holds_read fsr _ p2 m2 w2] at hnf
    cases hl : lookup (flash_ee_data_write fsr s k v).2 (pageAddress fsr p2) k0
        EE_PARA_MAX_NUMBER with
    | none => rw [hl] at hsome; exact absurd hsome (by decide)
    | some x => rw [hl] at hnf; exact hnf rfl

set_option maxRecDepth 100000 in
/-- Witness of C7 (amended): key 3 and value 7 on the concrete freshly formatted flash; the key
4 is not stored afterwards. -/
theorem C7_spare_capacity_unless_all_stored_witness :
    Reachable 512 (freshFlash 512) ∧
    (flash_ee_data_write 512 (freshFlash 512) 3 7).1 = FMC_STATUS_COMPLETE ∧
    (flash_ee_data_read 512 (flash_ee_data_write 512 (freshFlash 512) 3 7).2 4 0).1 ≠ 0 ∧
    lastSlotWord 512 (flash_ee_data_write 512 (freshFlash 512) 3 7).2 = 0xFFFFFFFF :=
  ⟨Reachable.fresh _ (freshFlash_formatted 512), by decide, by decide,
    C7_spare_capacity_unless_all_stored 512 (freshFlash 512) 3 7
      (Reachable.fresh _ (freshFlash_formatted 512)) (by decide)
      ⟨4, by decide, by decide⟩⟩

/-- Counterexample to C7 as stated: on the concrete freshly formatted flash, after the keys
0..509 have been written (each with value 0), the write of the key 510 returns
`FMC_STATUS_COMPLETE`, and the last slot of the page that is then Valid is occupied: the
compaction inside that call has copied all 511 keys into the 511 slots of the new page. -/
theorem C7_counterexample :
    Reachable 512 (writeKeys 512 (fun _ => 0) 510 (freshFlash 512)) ∧
    510 < EE_PARA_MAX_NUMBER ∧
    (flash_ee_data_write 512 (writeKeys 512 (fun _ => 0) 510 (freshFlash 512)) 510 0).1
      = FMC_STATUS_COMPLETE ∧
    lastSlotWord 512
      (flash_ee_data_write 512 (writeKeys 512 (fun _ => 0) 510 (freshFlash 512)) 510 0).2
      ≠ 0xFFFFFFFF := by
  have h0 := fresh_holds 512 _ (freshFlash_formatted 512)
  obtain ⟨w1, w2, -, -⟩ := writeKeys_full 512 (fun _ => 0) (freshFlash 512) 0 h0
    (fun _ _ => by simp)
  refine ⟨reachable_writeKeys 512 _ _ (Reachable.fresh _ (freshFlash_formatted 512)) 510,
    by decide, w1, ?_⟩
  intro hh
  have h511 := (lastSlotWord_holds 512 _ _ 511 w2).mp hh
  omega

/-- C8 (capacity boundary).  `EE_PAGE_SIZE` is 2048 and `EE_PARA_MAX_NUMBER` is 511.  Starting
from a freshly formatted store, on a flash whose operations all succeed, writing the keys
0..510 in order (with 16-bit values `val k`) makes every one of the 511 calls return
`FMC_STATUS_COMPLETE`.  No page is erased, and page 0 stays the valid page, up to and including
the 510th call; exactly one page erase, that of the one compaction, has happened after the
511th call, which leaves page 1 Valid and page 0 Erased.  Afterwards `flash_ee_data_read(k)`
returns 0 with the written value for every key `k` in 0..510. -/
theorem C8_capacity_boundary (fsr : Nat) (s : Flash) (val : Nat → Nat)
    (hs : FreshlyFormatted fsr s) (hval : ∀ k, k < 511 → val k < 65536) :
    EE_PAGE_SIZE = 2048 ∧ EE_PARA_MAX_NUMBER = 511 ∧
    (∀ j, j < 511 →
      (flash_ee_data_write fsr (writeKeys fsr val j s) j (val j)).1 = FMC_STATUS_COMPLETE) ∧
    (∀ n, n ≤ 510 → eraseCount (writeKeys fsr val n s) = eraseCount s ∧
      flash_ee_valid_page_get fsr (writeKeys fsr val n s) EE_VALID_PAGE_READ = EE_VALID_PAGE0) ∧
    eraseCount (writeKeys fsr val 511 s) = eraseCount s + 1 ∧
    read16 (writeKeys fsr val 511 s) (EE_PAGE1_ADDRESS fsr) = EE_PAGE_VALID ∧
    read16 (writeKeys fsr val 511 s) (EE_PAGE0_ADDRESS fsr) = EE_PAGE_ERASED ∧
    ∀ k pdata, k < 511 →
      flash_ee_data_read fsr (writeKeys fsr val 511 s) k pdata = (0, val k) := by
  have h0 := fresh_holds fsr s hs
  obtain ⟨w1, w2, w3, w4⟩ := writeKeys_full fsr val s 0 h0 hval
  refine ⟨rfl, rfl, ?_, ?_, w4, ?_, ?_, ?_⟩
  · intro j hj
    rcases Nat.lt_succ_iff_lt_or_eq.mp hj with h1 | rfl
    · exact (writeKeys_spec fsr val s 0 h0 hval 510 (le_refl _)).2.2.2 j h1
    · exact w1
  · intro n hn
    obtain ⟨a, -, c, -⟩ := writeKeys_spec fsr val s 0 h0 hval n hn
    exact ⟨c, stable_valid_read fsr _ 0 a.1⟩
  · rw [EE_PAGE1_ADDRESS_eq]
    exact w2.1.2.2.1
  · rw [EE_PAGE0_ADDRESS_eq]
    exact stable_other_erased fsr _ 1 w2.1
  · intro k d hk
    rw [holds_read fsr _ 1 511 w2, w3 k hk]
    rfl

/-- Witness of C8: the concrete freshly formatted flash, each key written with itself as the
value. -/
theorem C8_capacity_boundary_witness :
    FreshlyFormatted 512 (freshFlash 512) ∧ (∀ k, k < 511 → (fun i => i) k < 65536) ∧
    ∀ k pdata, k < 511 →
      flash_ee_data_read 512 (writeKeys 512 (fun i => i) 511 (freshFlash 512)) k pdata
        = (0, k) :=
  ⟨freshFlash_formatted 512, fun _ _ => by simp only; omega,
    (C8_capacity_boundary 512 (freshFlash 512) (fun i => i) (freshFlash_formatted 512)
      (fun _ _ => by simp only; omega)).2.2.2.2.2.2.2⟩

/-- C9 (page-full does not corrupt state).  For every reachable store state, on a flash whose
operations all succeed: if `flash_ee_data_write(k, v)` returns `FMC_STATUS_ERROR_PG` (the write
scan found no free slot), then afterwards exactly one page is Valid and the other Erased, and
for every key below `EE_PARA_MAX_NUMBER` `flash_ee_data_read` gives the same result as before
the failed call. -/
theorem C9_page_full_keeps_state (fsr : Nat) (s : Flash) (k v : Nat)
    (hs : Reachable fsr s)
    (hw : (flash_ee_data_write fsr s k v).1 = FMC_STATUS_ERROR_PG) :
    OneValidOtherErased fsr (flash_ee_data_write fsr s k v).2 ∧
    ∀ k' pdata, k' < EE_PARA_MAX_NUMBER →
      flash_ee_data_read fsr (flash_ee_data_write fsr s k v).2 k' pdata
        = flash_ee_data_read fsr s k' pdata := by
  obtain ⟨p, m, h⟩ := reachable_holds fsr s hs
  obtain ⟨p1, h1, h2⟩ := write_failed fsr s p m h k v (by rw [hw]; decide)
  refine ⟨stable_one_valid fsr _ p1 h1.1, ?_⟩
  intro k' d hk'
  rw [EE_PARA_MAX_NUMBER_eq] at hk'
  rw [holds_read fsr _ p1 511 h1, h2 k' hk', holds_read fsr s p m h]

/-- Witness of C9: the store that holds all 511 keys after the keys 0..510 have been written to
the concrete freshly formatted flash, then one more write. -/
theorem C9_page_full_keeps_state_witness :
    Reachable 512 (writeKeys 512 (fun _ => 0) 511 (freshFlash 512)) ∧
    (flash_ee_data_write 512 (writeKeys 512 (fun _ => 0) 511 (freshFlash 512)) 0 1).1
      = FMC_STATUS_ERROR_PG ∧
    OneValidOtherErased 512
      (flash_ee_data_write 512 (writeKeys 512 (fun _ => 0) 511 (freshFlash 512)) 0 1).2 ∧
    ∀ k' pdata, k' < EE_PARA_MAX_NUMBER →
      flash_ee_data_read 512
        (flash_ee_data_write 512 (writeKeys 512 (fun _ => 0) 511 (freshFlash 512)) 0 1).2
        k' pdata
        = flash_ee_data_read 512 (writeKeys 512 (fun _ => 0) 511 (freshFlash 512)) k' pdata :=
  have hr := reachable_writeKeys 512 (fun _ => 0) _
    (Reachable.fresh _ (freshFlash_formatted 512)) 511
  have hf := writeKeys_full 512 (fun _ => 0) (freshFlash 512) 0
    (fresh_holds 512 _ (freshFlash_formatted 512)) (fun _ _ => by simp)
  have hw := write_when_all_stored 512 _ 1 hf.2.1
    (fun k hk => by rw [hf.2.2.1 k hk]; rfl) 0 1
  ⟨hr, hw, C9_page_full_keeps_state 512 _ 0 1 hr hw⟩

/-! ### The demo -/

theorem buf_write_getD (i : Nat) (hi : i < 10) : buf_write.getD i 0 = 0x2000 + i := by
  interval_cases i <;> rfl

theorem buf_write_lt (i : Nat) : buf_write.getD i 0 < 65536 := by
  by_cases hi : i < 10
  · rw [buf_write_getD i hi]; omega
  · have : buf_write.length ≤ i := by simp [buf_write]; omega
    rw [List.getD_eq_default _ _ this]
    omega

theorem main_write_loop_eq (fsr : Nat) (s : Flash) :
    ∀ n i, i + n ≤ BUF_SIZE →
      main_write_loop fsr n i (writeKeys fsr (fun j => buf_write.getD j 0) i s)
        = writeKeys fsr (fun j => buf_write.getD j 0) (i + n) s := by
  intro n
  induction n with
  | zero => intro i _; rfl
  | succ n ih =>
    intro i hi
    have hlt : i < BUF_SIZE := by omega
    rw [main_write_loop, if_pos hlt]
    have := ih (i + 1) (by omega)
    rw [writeKeys_succ] at this
    rw [this]
    congr 1
    omega

/-- On a freshly formatted store `flash_ee_init` only erases the erased page again. -/
theorem init_fresh (fsr : Nat) (s : Flash) (h : FreshlyFormatted fsr s) :
    FreshlyFormatted fsr (flash_ee_init fsr s).2 := by
  obtain ⟨hs, hv, hrest, he⟩ := h
  have hq : (0 : Nat) ≤ 1 := by omega
  have hv0 : read16 (FMC_Unlock s) (pageAddress fsr 0) = EE_PAGE_VALID := by
    rw [← EE_PAGE0_ADDRESS_eq]; exact hv
  have he0 : read16 (FMC_Unlock s) (pageAddress fsr (1 - 0)) = EE_PAGE_ERASED := by
    rw [Nat.sub_zero, ← EE_PAGE1_ADDRESS_eq]
    exact he _ (le_refl _) (by rw [EE_PAGE_SIZE_eq]; omega)
  obtain ⟨e1, e2, e3, e4⟩ := page_erase_nil (FMC_Unlock s) (pageAddress fsr (1 - 0)) hs
  have hb := init_body_valid_erased_eq fsr (FMC_Unlock s) 0 hq hs hv0 he0
  have h10 : EE_PAGE1_ADDRESS fsr = EE_PAGE0_ADDRESS fsr + 2048 := rfl
  have hu : FreshlyFormatted fsr (flash_ee_page_erase (FMC_Unlock s)
      (pageAddress fsr (1 - 0))).2 := by
    rw [Nat.sub_zero, ← EE_PAGE1_ADDRESS_eq] at e2 e3 e4 ⊢
    refine ⟨e2, ?_, ?_, e3⟩
    · rw [← hv]
      exact read16_of_cell (e4 _ (by omega))
    · intro a h1 h2
      rw [EE_PAGE_SIZE_eq] at h2
      rw [read16_of_cell (e4 a (by omega))]
      exact hrest a h1 (by rw [EE_PAGE_SIZE_eq]; exact h2)
  have hh := fresh_holds fsr _ hu
  have hfree : SlotFree (flash_ee_page_erase (FMC_Unlock s) (pageAddress fsr (1 - 0))).2
      (pageAddress fsr 0) 510 :=
    hh.2.2.2 510 (by omega) (by rw [EE_PARA_MAX_NUMBER_eq]; omega)
  rw [full_check_free fsr _ 0 hq (stable_valid_read fsr _ 0 hh.1) hfree] at hb
  unfold flash_ee_init
  rw [hb]
  exact hu

/-- The demo on a freshly formatted store: the ten keys read back with the written values and
the comparison of the two buffers succeeds. -/
theorem main_spec (fsr : Nat) (s : Flash) (h : FreshlyFormatted fsr s) :
    (∀ i pdata, i < BUF_SIZE →
      flash_ee_data_read fsr (main fsr s).2.2 i pdata = (0, 0x2000 + i)) ∧
    (main fsr s).2.1 = buf_write ∧ (main fsr s).1 = true := by
  have hf : FreshlyFormatted fsr (flash_ee_init fsr (FMC_Unlock s)).2 := init_fresh fsr _ h
  have h0 := fresh_holds fsr _ hf
  have hw := main_write_loop_eq fsr (flash_ee_init fsr (FMC_Unlock s)).2 BUF_SIZE 0 (by omega)
  obtain ⟨w1, w2, -⟩ := writeKeys_spec fsr (fun j => buf_write.getD j 0) _ 0 h0
    (fun i _ => buf_write_lt i) 10 (by omega)
  have hread : ∀ i pdata, i < 10 →
      flash_ee_data_read fsr
        (main_write_loop fsr BUF_SIZE 0 (flash_ee_init fsr (FMC_Unlock s)).2) i pdata
        = (0, 0x2000 + i) := by
    intro i d hi
    have e : main_write_loop fsr BUF_SIZE 0 (flash_ee_init fsr (FMC_Unlock s)).2
        = writeKeys fsr (fun j => buf_write.getD j 0) 10 (flash_ee_init fsr (FMC_Unlock s)).2 :=
      hw
    rw [e, holds_read fsr _ 0 10 w1, w2 i (by omega), if_pos hi]
    simp only [readResult, buf_write_getD i hi]
  have hbuf : main_read_loop fsr
      (main_write_loop fsr BUF_SIZE 0 (flash_ee_init fsr (FMC_Unlock s)).2) BUF_SIZE 0
      (List.replicate BUF_SIZE 0) = buf_write := by
    have hread10 := hread
    simp only [BUF_SIZE] at hread10
    simp [main_read_loop, BUF_SIZE, hread10, buf_write, List.replicate]
  refine ⟨hread, hbuf, ?_⟩
  show (buffer_compare buf_write (main_read_loop fsr _ BUF_SIZE 0 (List.replicate BUF_SIZE 0))
    BUF_SIZE == 0) = true
  rw [hbuf]
  decide

/-- C10 (writes to one key do not disturb other keys).  For every reachable store state and all
keys `k`, `k1` below `EE_PARA_MAX_NUMBER` with `k1` different from `k`, on a flash whose
operations all succeed: if `flash_ee_data_write(k, v)` returns `FMC_STATUS_COMPLETE` then
`flash_ee_data_read(k1)` gives the same result after the write as before it.  And the demo of
`main.c` on a freshly formatted store succeeds: after the keys 0..9 have been written with the
values `0x2000..0x2009`, reading the keys 0..9 back yields exactly those ten values, `buf_read`
equals `buf_write` and the comparison switches LED2 on. -/
theorem C10_write_frame_and_demo :
    (∀ (fsr : Nat) (s : Flash) (k k1 v pdata : Nat), Reachable fsr s →
      k < EE_PARA_MAX_NUMBER → k1 < EE_PARA_MAX_NUMBER → k1 ≠ k →
      (flash_ee_data_write fsr s k v).1 = FMC_STATUS_COMPLETE →
      flash_ee_data_read fsr (flash_ee_data_write fsr s k v).2 k1 pdata
        = flash_ee_data_read fsr s k1 pdata) ∧
    (∀ (fsr : Nat) (s : Flash), FreshlyFormatted fsr s →
      (∀ i pdata, i < BUF_SIZE →
        flash_ee_data_read fsr (main fsr s).2.2 i pdata = (0, 0x2000 + i)) ∧
      (main fsr s).2.1 = buf_write ∧ (main fsr s).1 = true) := by
  refine ⟨?_, fun fsr s h => main_spec fsr s h⟩
  intro fsr s k k1 v d hs hk hk1 hne hw
  rw [EE_PARA_MAX_NUMBER_eq] at hk hk1
  obtain ⟨p, m, h⟩ := reachable_holds fsr s hs
  obtain ⟨p2, m2, w2, w3, -⟩ := write_complete fsr s p m h k v hw
  rw [holds_read fsr _ p2 m2 w2, w3 k1 hk1, Nat.mod_eq_of_lt (show k < 65536 by omega),
    if_neg hne, holds_read fsr s p m h]

/-- Witness of C10: on the concrete freshly formatted flash a write of the key 3 leaves the key
4 as it was, and the demo succeeds. -/
theorem C10_write_frame_and_demo_witness :
    flash_ee_data_read 512 (flash_ee_data_write 512 (freshFlash 512) 3 7).2 4 0
      = flash_ee_data_read 512 (freshFlash 512) 4 0 ∧
    (main 512 (freshFlash 512)).1 = true :=
  ⟨C10_write_frame_and_demo.1 512 (freshFlash 512) 3 4 7 0
      (Reachable.fresh _ (freshFlash_formatted 512)) (by decide) (by decide) (by decide)
      (by decide),
    (C10_write_frame_and_demo.2 512 (freshFlash 512) (freshFlash_formatted 512)).2.2⟩

/-! ### Runs: the driver calls of a function and the propagation of driver errors -/

theorem nextStatus_eq_statusAt (s : Flash) : nextStatus s = statusAt s 0 := by
  unfold nextStatus statusAt
  cases s.script <;> rfl

theorem statusAt_drop (s t : Flash) (c : Nat) (h : t.script = s.script.drop c) (i : Nat) :
    statusAt t i = statusAt s (c + i) := by
  unfold statusAt
  rw [h]
  simp [List.getElem?_drop]

theorem run_pure (s : Flash) (st : FMC_STATUS_T) : Run s (st, s) := by
  refine ⟨[], rfl, rfl, rfl, ?_, Or.inl ?_⟩
  · intro op hop
    cases hop
  · intro i hi
    cases hi

theorem run_program (s : Flash) (a d : Nat) : Run s (FMC_ProgramHalfWord s a d) := by
  refine ⟨[FlashOp.program a d s.unlocked], program_log s a d, ?_, program_unlocked s a d, ?_, ?_⟩
  · rw [program_script]
    cases s.script <;> rfl
  · intro op hop
    rw [List.mem_singleton] at hop
    rw [hop]
    rfl
  · by_cases h : statusAt s 0 = FMC_STATUS_COMPLETE
    · left
      intro i hi
      have : i = 0 := by simpa using hi
      rw [this]
      exact h
    · right
      exact ⟨0, rfl, fun i hi => by omega, h, by rw [program_fst, nextStatus_eq_statusAt]⟩

theorem run_erase (n : Nat) (s : Flash) (a : Nat) : Run s (FMC_ErasePage n s a) := by
  refine ⟨[FlashOp.erase a s.unlocked], erase_log n s a, ?_, erase_unlocked n s a, ?_, ?_⟩
  · rw [erase_script]
    cases s.script <;> rfl
  · intro op hop
    rw [List.mem_singleton] at hop
    rw [hop]
    rfl
  · by_cases h : statusAt s 0 = FMC_STATUS_COMPLETE
    · left
      intro i hi
      have : i = 0 := by simpa using hi
      rw [this]
      exact h
    · right
      exact ⟨0, rfl, fun i hi => by omega, h, by rw [erase_fst, nextStatus_eq_statusAt]⟩

/-- Sequential composition with the early return on a status other than
`FMC_STATUS_COMPLETE`. -/
theorem run_seq (s : Flash) (r1 r2 : FMC_STATUS_T × Flash) (h1 : Run s r1) (h2 : Run r1.2 r2) :
    Run s (if r1.1 ≠ FMC_STATUS_COMPLETE then r1 else r2) := by
  by_cases hc : r1.1 = FMC_STATUS_COMPLETE
  swap
  · rw [if_pos hc]; exact h1
  rw [if_neg (fun hne => hne hc)]
  obtain ⟨new1, a1, a2, a3, a4, a5⟩ := h1
  obtain ⟨new2, b1, b2, b3, b4, b5⟩ := h2
  have hall1 : ∀ i, i < new1.length → statusAt s i = FMC_STATUS_COMPLETE := by
    rcases a5 with h | ⟨n, -, -, h3, h4⟩
    · exact h
    · rw [hc] at h4
      exact absurd h4.symm h3
  have hst : ∀ i, statusAt r1.2 i = statusAt s (new1.length + i) :=
    statusAt_drop s r1.2 new1.length a2
  have hsplit : ∀ i, i < new1.length + new2.length →
      (∀ j, j < new2.length → j + new1.length = i → statusAt r1.2 j = FMC_STATUS_COMPLETE) →
      statusAt s i = FMC_STATUS_COMPLETE := by
    intro i hi hj
    by_cases hlt : i < new1.length
    · exact hall1 i hlt
    · have := hj (i - new1.length) (by omega) (by omega)
      rw [hst] at this
      rw [← this]
      congr 1
      omega
  refine ⟨new2 ++ new1, ?_, ?_, ?_, ?_, ?_⟩
  · rw [b1, a1, List.append_assoc]
  · rw [b2, a2, List.drop_drop, List.length_append, Nat.add_comm]
  · rw [b3, a3]
  · intro op hop
    rcases List.mem_append.mp hop with h | h
    · rw [b4 op h, a3]
    · exact a4 op h
  · rw [List.length_append]
    rcases b5 with h | ⟨n, h1, h2, h3, h4⟩
    · left
      intro i hi
      exact hsplit i (by omega) (fun j hj _ => h j hj)
    · right
      refine ⟨new1.length + n, by omega, ?_, ?_, ?_⟩
      · intro i hi
        exact hsplit i (by omega) (fun j _ hji => h2 j (by omega))
      · rw [← hst]; exact h3
      · rw [← hst]; exact h4

/-- A run whose result is repackaged with the status `FMC_STATUS_COMPLETE` on success. -/
theorem run_tail (s : Flash) (r : FMC_STATUS_T × Flash) (h : Run s r) :
    Run s (if r.1 ≠ FMC_STATUS_COMPLETE then r else (FMC_STATUS_COMPLETE, r.2)) := by
  rw [init_body_tail]; exact h

theorem run_ite (c : Prop) [Decidable c] (s : Flash) (r : FMC_STATUS_T × Flash)
    (h : Run s r) : Run s (if c then r else (FMC_STATUS_COMPLETE, s)) := by
  split_ifs
  · exact h
  · exact run_pure s _

theorem run_page_erase (s : Flash) (P : Nat) : Run s (flash_ee_page_erase s P) := by
  rw [page_erase_eq]; exact run_erase _ s P

theorem run_programRecord (s : Flash) (a k v : Nat) : Run s (programRecord s a k v) := by
  unfold programRecord
  exact run_seq _ _ _ (run_program _ _ _) (run_tail _ _ (run_program _ _ _))

theorem run_write_loop (k v ea : Nat) :
    ∀ fuel fa s, Run s (flash_ee_write_no_check_loop k v ea fuel fa s) := by
  intro fuel
  induction fuel with
  | zero => intro fa s; exact run_pure s _
  | succ f ih =>
    intro fa s
    rw [flash_ee_write_no_check_loop]
    by_cases h1 : fa < ea
    · rw [if_pos h1]
      by_cases h2 : read32 s fa = 0xFFFFFFFF
      · rw [if_pos h2]
        exact run_programRecord s fa k v
      · rw [if_neg h2]
        exact ih _ s
    · rw [if_neg h1]
      exact run_pure s _

theorem run_write_no_check (fsr : Nat) (s : Flash) (k v : Nat) :
    Run s (flash_ee_write_no_check fsr s k v) := by
  unfold flash_ee_write_no_check
  simp only
  split_ifs
  · exact run_pure s _
  · exact run_write_loop _ _ _ _ _ s

theorem run_copy_loop (fsr : Nat) :
    ∀ n idx data t, Run t (flash_ee_copy_to_new_page_loop fsr n idx data t) := by
  intro n
  induction n with
  | zero => intro idx data t; exact run_pure t _
  | succ n ih =>
    intro idx data t
    rw [flash_ee_copy_to_new_page_loop]
    by_cases h1 : idx < EE_PARA_MAX_NUMBER
    · rw [if_pos h1]
      by_cases h2 : (flash_ee_data_read fsr t idx data).1 = 0
      · simp only [h2, if_true]
        exact run_seq _ _ _ (run_write_no_check fsr t idx _) (ih _ _ _)
      · simp only [h2, if_false]
        exact ih _ _ t
    · rw [if_neg h1]
      exact run_pure t _

theorem run_copy_body (fsr : Nat) (s : Flash) (A T : Nat) :
    Run s (flash_ee_copy_to_new_page_body fsr s A T) := by
  unfold flash_ee_copy_to_new_page_body
  exact run_seq _ _ _ (run_program _ _ _)
    (run_seq _ _ _ (run_copy_loop fsr _ _ _ _)
      (run_seq _ _ _ (run_page_erase _ _) (run_tail _ _ (run_program _ _ _))))

theorem run_copy (fsr : Nat) (s : Flash) : Run s (flash_ee_copy_to_new_page fsr s) := by
  unfold flash_ee_copy_to_new_page
  simp only
  split_ifs
  · exact run_copy_body fsr s _ _
  · exact run_copy_body fsr s _ _
  · exact run_pure s _

theorem run_format (fsr : Nat) (s : Flash) : Run s (flash_ee_format fsr s) := by
  unfold flash_ee_format
  exact run_seq _ _ _ (run_page_erase _ _) (run_seq _ _ _ (run_page_erase _ _) (run_program _ _ _))

theorem run_full_check (fsr : Nat) (s : Flash) : Run s (flash_ee_full_check fsr s) := by
  unfold flash_ee_full_check
  simp only
  split_ifs with h1 h2 h3
  · exact run_pure s _
  · exact run_copy fsr s
  · have hc : (flash_ee_copy_to_new_page fsr s).1 = FMC_STATUS_COMPLETE := not_not.mp h3
    rw [← hc]
    exact run_copy fsr s
  · exact run_pure s _

theorem run_erase_transfer (fsr : Nat) (s : Flash) (a b : Nat) :
    Run s (flash_ee_erase_transfer fsr s a b) := by
  unfold flash_ee_erase_transfer
  split_ifs <;> exact run_program _ _ _

theorem run_valid_transfer (fsr : Nat) (s : Flash) (a b : Nat) :
    Run s (flash_ee_valid_transfer fsr s a b) := by
  unfold flash_ee_valid_transfer
  exact run_seq _ _ _ (run_page_erase _ _) (run_copy fsr _)

theorem run_init_body (fsr : Nat) (s : Flash) : Run s (flash_ee_init_body fsr s) := by
  unfold flash_ee_init_body
  exact run_seq _ _ _ (run_ite _ _ _ (run_page_erase _ _))
    (run_seq _ _ _ (run_ite _ _ _ (run_page_erase _ _))
      (run_seq _ _ _ (run_ite _ _ _ (run_format fsr _))
        (run_seq _ _ _ (run_ite _ _ _ (run_erase_transfer fsr _ _ _))
          (run_seq _ _ _ (run_ite _ _ _ (run_valid_transfer fsr _ _ _))
            (run_tail _ _ (run_full_check fsr _))))))

theorem run_data_write_body (fsr : Nat) (s : Flash) (k v : Nat) :
    Run s (flash_ee_data_write_body fsr s k v) := by
  unfold flash_ee_data_write_body
  exact run_seq _ _ _ (run_full_check fsr _)
    (run_seq _ _ _ (run_write_no_check fsr _ _ _) (run_tail _ _ (run_full_check fsr _)))

/-- In a run the first failing driver call is the last call, and its status is the result. -/
theorem run_first_failure (s : Flash) (r : FMC_STATUS_T × Flash) (h : Run s r) (n : Nat)
    (hfirst : ∀ i, i < n → statusAt s i = FMC_STATUS_COMPLETE)
    (hfail : statusAt s n ≠ FMC_STATUS_COMPLETE)
    (hmade : n < callsBetween s r.2) :
    r.1 = statusAt s n ∧ callsBetween s r.2 = n + 1 := by
  obtain ⟨new, a1, -, -, -, a5⟩ := h
  have hc : callsBetween s r.2 = new.length := by
    unfold callsBetween
    rw [a1, List.length_append]
    omega
  rw [hc] at hmade ⊢
  rcases a5 with h | ⟨m, h1, h2, h3, h4⟩
  · exact absurd (h n hmade) hfail
  · have hmn : m = n := by
      by_contra hne
      rcases Nat.lt_or_gt_of_ne hne with hlt | hgt
      · exact h3 (hfirst m hlt)
      · exact hfail (h2 n hgt)
    subst hmn
    exact ⟨h4, h1⟩

/-- The driver calls of a run are made with the flag as it is at the start. -/
theorem run_enabled (s : Flash) (r : FMC_STATUS_T × Flash) (h : Run s r) :
    r.2.unlocked = s.unlocked ∧
    ∃ new, r.2.log = new ++ s.log ∧ ∀ op, op ∈ new → opEnabled op = s.unlocked := by
  obtain ⟨new, a1, -, a3, a4, -⟩ := h
  exact ⟨a3, new, a1, a4⟩

/-- C11 (flash errors are propagated verbatim).  For every initial state and every behaviour of
the flash driver: if during `flash_ee_init` or `flash_ee_data_write` the driver call number `n`
(an `FMC_ErasePage` or `FMC_ProgramHalfWord` call, counted from 0) is made and is the first one
that reports a status other than `FMC_STATUS_COMPLETE`, then the entry point makes no further
driver call (it has made exactly `n + 1` calls when it returns) and returns exactly that
status. -/
theorem C11_flash_errors_propagated (fsr : Nat) (s : Flash) (k v n : Nat)
    (hfirst : ∀ i, i < n → statusAt s i = FMC_STATUS_COMPLETE)
    (hfail : statusAt s n ≠ FMC_STATUS_COMPLETE) :
    (n < callsBetween s (flash_ee_init fsr s).2 →
      (flash_ee_init fsr s).1 = statusAt s n ∧
      callsBetween s (flash_ee_init fsr s).2 = n + 1) ∧
    (n < callsBetween s (flash_ee_data_write fsr s k v).2 →
      (flash_ee_data_write fsr s k v).1 = statusAt s n ∧
      callsBetween s (flash_ee_data_write fsr s k v).2 = n + 1) := by
  constructor
  · intro hmade
    exact run_first_failure (FMC_Unlock s) _ (run_init_body fsr (FMC_Unlock s)) n hfirst hfail
      hmade
  · intro hmade
    exact run_first_failure (FMC_Unlock s) _ (run_data_write_body fsr (FMC_Unlock s) k v) n
      hfirst hfail hmade

/-- Witness of C11: on a flash whose pages both read Valid `flash_ee_init` formats, its second
erase times out and is its last driver call; on the freshly formatted flash
`flash_ee_data_write` programs the value, and the program call for the key times out and is its
last driver call. -/
theorem C11_flash_errors_propagated_witness :
    ((flash_ee_init 512 zeroFlashOneCall).1 = FMC_STATUS_TIMEOUT ∧
      callsBetween zeroFlashOneCall (flash_ee_init 512 zeroFlashOneCall).2 = 2) ∧
    ((flash_ee_data_write 512 (freshFlashOneCall 512) 3 7).1 = FMC_STATUS_TIMEOUT ∧
      callsBetween (freshFlashOneCall 512)
        (flash_ee_data_write 512 (freshFlashOneCall 512) 3 7).2 = 2) :=
  ⟨(C11_flash_errors_propagated 512 zeroFlashOneCall 0 0 1 (by decide) (by decide)).1
      (by decide),
    (C11_flash_errors_propagated 512 (freshFlashOneCall 512) 3 7 1 (by decide) (by decide)).2
      (by decide)⟩

/-- C13 (balanced flash enable).  For every initial state and every behaviour of the flash
driver, `flash_ee_init` and `flash_ee_data_write` return with the write-enable flag cleared, on
the success path and on every error path, and every erase or program call they make is made
with the flag set, that is after their `FMC_Unlock` and before their `FMC_Lock`. -/
theorem C13_balanced_flash_enable (fsr : Nat) (s : Flash) (k v : Nat) :
    ((flash_ee_init fsr s).2.unlocked = false ∧
      ∃ new, (flash_ee_init fsr s).2.log = new ++ s.log ∧
        ∀ op, op ∈ new → opEnabled op = true) ∧
    ((flash_ee_data_write fsr s k v).2.unlocked = false ∧
      ∃ new, (flash_ee_data_write fsr s k v).2.log = new ++ s.log ∧
        ∀ op, op ∈ new → opEnabled op = true) := by
  constructor
  · exact ⟨rfl, (run_enabled (FMC_Unlock s) _ (run_init_body fsr (FMC_Unlock s))).2⟩
  · exact ⟨rfl, (run_enabled (FMC_Unlock s) _ (run_data_write_body fsr (FMC_Unlock s) k v)).2⟩

/-! ### Without a valid page -/

theorem valid_page_read_none (fsr : Nat) (s : Flash)
    (h0 : read16 s (EE_PAGE0_ADDRESS fsr) ≠ EE_PAGE_VALID)
    (h1 : read16 s (EE_PAGE1_ADDRESS fsr) ≠ EE_PAGE_VALID) :
    flash_ee_valid_page_get fsr s EE_VALID_PAGE_READ = EE_VALID_PAGE_NONE := by
  unfold flash_ee_valid_page_get
  simp [h0, h1]

theorem read_none (fsr : Nat) (s : Flash)
    (h0 : read16 s (EE_PAGE0_ADDRESS fsr) ≠ EE_PAGE_VALID)
    (h1 : read16 s (EE_PAGE1_ADDRESS fsr) ≠ EE_PAGE_VALID) (k pdata : Nat) :
    flash_ee_data_read fsr s k pdata = (EE_VALID_PAGE_NONE, pdata) := by
  unfold flash_ee_data_read
  simp [valid_page_read_none fsr s h0 h1]

theorem data_write_none (fsr : Nat) (s : Flash)
    (h0 : read16 s (EE_PAGE0_ADDRESS fsr) ≠ EE_PAGE_VALID)
    (h1 : read16 s (EE_PAGE1_ADDRESS fsr) ≠ EE_PAGE_VALID) (k v : Nat) :
    flash_ee_data_write fsr s k v = (FMC_STATUS_ERROR_PG, FMC_Lock (FMC_Unlock s)) := by
  have hn : flash_ee_valid_page_get fsr (FMC_Unlock s) EE_VALID_PAGE_READ = EE_VALID_PAGE_NONE :=
    valid_page_read_none fsr (FMC_Unlock s) h0 h1
  have hf : flash_ee_full_check fsr (FMC_Unlock s) = (FMC_STATUS_ERROR_PG, FMC_Unlock s) := by
    unfold flash_ee_full_check
    simp [hn]
  unfold flash_ee_data_write flash_ee_data_write_body
  simp [hf]

/-- C12 (no valid page is reported without side effects).  For every flash content in which
neither page status is Valid, and every behaviour of the flash driver:
`flash_ee_data_write(k, v)` returns `FMC_STATUS_ERROR_PG`, makes no erase or program call and
leaves every half-word of the flash as it was, and `flash_ee_data_read` returns a non-zero
status for every key, before as well as after that call. -/
theorem C12_no_valid_page (fsr : Nat) (s : Flash) (k v : Nat)
    (h0 : read16 s (EE_PAGE0_ADDRESS fsr) ≠ EE_PAGE_VALID)
    (h1 : read16 s (EE_PAGE1_ADDRESS fsr) ≠ EE_PAGE_VALID) :
    (flash_ee_data_write fsr s k v).1 = FMC_STATUS_ERROR_PG ∧
    (flash_ee_data_write fsr s k v).1 ≠ FMC_STATUS_COMPLETE ∧
    (flash_ee_data_write fsr s k v).2.log = s.log ∧
    (flash_ee_data_write fsr s k v).2.cell = s.cell ∧
    (∀ k1 pdata, (flash_ee_data_read fsr s k1 pdata).1 ≠ 0) ∧
    (∀ k1 pdata, (flash_ee_data_read fsr (flash_ee_data_write fsr s k v).2 k1 pdata).1 ≠ 0) := by
  rw [data_write_none fsr s h0 h1 k v]
  refine ⟨rfl, (fun h => by cases h), rfl, rfl, ?_, ?_⟩
  · intro k1 d
    rw [read_none fsr s h0 h1]
    simp [EE_VALID_PAGE_NONE]
  · intro k1 d
    rw [read_none fsr (FMC_Lock (FMC_Unlock s)) h0 h1]
    simp [EE_VALID_PAGE_NONE]

/-- Witness of C12: the blank flash, on which both page status words read Erased. -/
theorem C12_no_valid_page_witness :
    read16 blankFlash (EE_PAGE0_ADDRESS 512) ≠ EE_PAGE_VALID ∧
    read16 blankFlash (EE_PAGE1_ADDRESS 512) ≠ EE_PAGE_VALID ∧
    (flash_ee_data_write 512 blankFlash 3 7).1 = FMC_STATUS_ERROR_PG ∧
    (flash_ee_data_write 512 blankFlash 3 7).2.log = blankFlash.log ∧
    (flash_ee_data_write 512 blankFlash 3 7).2.cell = blankFlash.cell :=
  ⟨by decide, by decide,
    (C12_no_valid_page 512 blankFlash 3 7 (by decide) (by decide)).1,
    (C12_no_valid_page 512 blankFlash 3 7 (by decide) (by decide)).2.2.1,
    (C12_no_valid_page 512 blankFlash 3 7 (by decide) (by decide)).2.2.2.1⟩

/-- C14 (page resolution).  For every flash content, with `s0` and `s1` the status words of
page 0 and page 1: in read mode `flash_ee_valid_page_get` returns page 0 if `s0` is Valid, else
page 1 if `s1` is Valid, else `EE_VALID_PAGE_NONE`; in write mode it returns page 0 if `s0` is
Transfer, else page 1 if `s1` is Transfer, and otherwise the read-mode result.  The read-mode
result is `EE_VALID_PAGE_NONE` iff neither status is Valid, the write-mode result iff neither
status is Valid or Transfer. -/
theorem C14_page_resolution (fsr : Nat) (s : Flash) :
    flash_ee_valid_page_get fsr s EE_VALID_PAGE_READ
      = (if read16 s (EE_PAGE0_ADDRESS fsr) = EE_PAGE_VALID then EE_VALID_PAGE0
        else if read16 s (EE_PAGE1_ADDRESS fsr) = EE_PAGE_VALID then EE_VALID_PAGE1
        else EE_VALID_PAGE_NONE) ∧
    flash_ee_valid_page_get fsr s EE_VALID_PAGE_WRITE
      = (if read16 s (EE_PAGE0_ADDRESS fsr) = EE_PAGE_TRANSFER then EE_VALID_PAGE0
        else if read16 s (EE_PAGE1_ADDRESS fsr) = EE_PAGE_TRANSFER then EE_VALID_PAGE1
        else flash_ee_valid_page_get fsr s EE_VALID_PAGE_READ) ∧
    (flash_ee_valid_page_get fsr s EE_VALID_PAGE_READ = EE_VALID_PAGE_NONE ↔
      read16 s (EE_PAGE0_ADDRESS fsr) ≠ EE_PAGE_VALID ∧
        read16 s (EE_PAGE1_ADDRESS fsr) ≠ EE_PAGE_VALID) ∧
    (flash_ee_valid_page_get fsr s EE_VALID_PAGE_WRITE = EE_VALID_PAGE_NONE ↔
      read16 s (EE_PAGE0_ADDRESS fsr) ≠ EE_PAGE_VALID ∧
        read16 s (EE_PAGE1_ADDRESS fsr) ≠ EE_PAGE_VALID ∧
        read16 s (EE_PAGE0_ADDRESS fsr) ≠ EE_PAGE_TRANSFER ∧
        read16 s (EE_PAGE1_ADDRESS fsr) ≠ EE_PAGE_TRANSFER) := by
  unfold flash_ee_valid_page_get
  simp only [EE_VALID_PAGE0, EE_VALID_PAGE1, EE_VALID_PAGE_NONE]
  refine ⟨by simp, by simp, ?_, ?_⟩
  · simp only [if_true]
    split_ifs <;> simp_all
  · simp only [reduceCtorEq, if_false]
    split_ifs <;> simp_all

/-! ### The format check -/

theorem format_check_zero_iff (a b : Nat) :
    flash_ee_format_check a b = 0 ↔
      a ≠ b ∧ (a = EE_PAGE_ERASED ∨ a = EE_PAGE_TRANSFER ∨ a = EE_PAGE_VALID) ∧
        (b = EE_PAGE_ERASED ∨ b = EE_PAGE_TRANSFER ∨ b = EE_PAGE_VALID) := by
  unfold flash_ee_format_check
  split_ifs with h1 h2 h3
  · simp [h1]
  · have := h2.1
    have := h2.2.1
    have := h2.2.2
    simp_all
  · have := h3.1
    have := h3.2.1
    have := h3.2.2
    simp_all
  · simp only [true_iff]
    refine ⟨h1, ?_, ?_⟩
    · by_contra hc
      exact h2 ⟨fun h => hc (Or.inl h), fun h => hc (Or.inr (Or.inl h)),
        fun h => hc (Or.inr (Or.inr h))⟩
    · by_contra hc
      exact h3 ⟨fun h => hc (Or.inl h), fun h => hc (Or.inr (Or.inl h)),
        fun h => hc (Or.inr (Or.inr h))⟩

theorem format_check_range (a b : Nat) :
    flash_ee_format_check a b = 0 ∨ flash_ee_format_check a b = 1 := by
  unfold flash_ee_format_check
  split_ifs <;> simp

theorem format_check_accepted :
    (Finset.range 65536 ×ˢ Finset.range 65536).filter
        (fun p => flash_ee_format_check p.1 p.2 = 0)
      = {(0xFFFF, 0xCCCC), (0xFFFF, 0), (0xCCCC, 0xFFFF), (0xCCCC, 0), (0, 0xFFFF), (0, 0xCCCC)} := by
  ext ⟨a, b⟩
  simp only [Finset.mem_filter, Finset.mem_product, Finset.mem_range, format_check_zero_iff,
    EE_PAGE_ERASED, EE_PAGE_TRANSFER, EE_PAGE_VALID, Finset.mem_insert, Finset.mem_singleton,
    Prod.mk.injEq]
  constructor
  · rintro ⟨-, hne, ha, hb⟩
    rcases ha with ha | ha | ha <;> rcases hb with hb | hb | hb <;> subst ha <;> subst hb <;>
      simp at hne ⊢
  · intro h
    rcases h with ⟨ha, hb⟩ | ⟨ha, hb⟩ | ⟨ha, hb⟩ | ⟨ha, hb⟩ | ⟨ha, hb⟩ | ⟨ha, hb⟩ <;>
      subst ha <;> subst hb <;> simp

/-- C15 (format check).  For all status words `s0` and `s1`, `flash_ee_format_check(s0, s1)`
returns 0 if and only if `s0` differs from `s1` and each of them is one of Erased (0xFFFF),
Transfer (0xCCCC) and Valid (0x0000); otherwise it returns 1.  Exactly 6 of the
65536 x 65536 pairs of 16-bit status words are accepted. -/
theorem C15_format_check (s0 s1 : Nat) :
    (flash_ee_format_check s0 s1 = 0 ↔
      s0 ≠ s1 ∧ (s0 = 0xFFFF ∨ s0 = 0xCCCC ∨ s0 = 0x0000) ∧
        (s1 = 0xFFFF ∨ s1 = 0xCCCC ∨ s1 = 0x0000)) ∧
    (flash_ee_format_check s0 s1 = 0 ∨ flash_ee_format_check s0 s1 = 1) ∧
    ((Finset.range 65536 ×ˢ Finset.range 65536).filter
        (fun p => flash_ee_format_check p.1 p.2 = 0)).card = 6 := by
  refine ⟨?_, ?_, ?_⟩
  · simpa only [EE_PAGE_ERASED, EE_PAGE_TRANSFER, EE_PAGE_VALID] using
      format_check_zero_iff s0 s1
  · exact format_check_range s0 s1
  · rw [format_check_accepted]
    rfl

/-! ### The reader picks the newest record -/

theorem lookup_some_iff (s : Flash) (P k v : Nat) (n : Nat) :
    lookup s P k n = some v ↔
      ∃ i, i < n ∧ slotKey s P i = k ∧ slotVal s P i = v ∧
        ∀ j, i < j → j < n → slotKey s P j ≠ k := by
  induction n with
  | zero => simp [lookup]
  | succ n ih =>
    rw [lookup_succ]
    by_cases hk : k = slotKey s P n
    · rw [if_pos hk]
      constructor
      · intro h
        cases h
        exact ⟨n, Nat.lt_succ_self n, hk.symm, rfl, fun j h1 h2 => by omega⟩
      · rintro ⟨i, hi, hki, hvi, hlast⟩
        rcases Nat.lt_succ_iff_lt_or_eq.mp hi with h1 | h1
        · exact absurd hk.symm (hlast n h1 (Nat.lt_succ_self n))
        · rw [h1] at hvi
          rw [hvi]
    · rw [if_neg hk, ih]
      constructor
      · rintro ⟨i, hi, hki, hvi, hlast⟩
        refine ⟨i, Nat.lt_succ_of_lt hi, hki, hvi, ?_⟩
        intro j h1 h2
        rcases Nat.lt_succ_iff_lt_or_eq.mp h2 with h3 | h3
        · exact hlast j h1 h3
        · rw [h3]
          exact fun e => hk e.symm
      · rintro ⟨i, hi, hki, hvi, hlast⟩
        rcases Nat.lt_succ_iff_lt_or_eq.mp hi with h1 | h1
        · exact ⟨i, h1, hki, hvi, fun j h2 h3 => hlast j h2 (Nat.lt_succ_of_lt h3)⟩
        · rw [h1] at hki
          exact absurd hki.symm hk

theorem read_newest (fsr : Nat) (s : Flash) (p : Nat) (hp : p ≤ 1)
    (hr : flash_ee_valid_page_get fsr s EE_VALID_PAGE_READ = p) (k pdata i : Nat)
    (hi : i < EE_PARA_MAX_NUMBER) (hk : slotKey s (pageAddress fsr p) i = k)
    (hlast : ∀ j, i < j → j < EE_PARA_MAX_NUMBER → slotKey s (pageAddress fsr p) j ≠ k) :
    flash_ee_data_read fsr s k pdata = (0, slotVal s (pageAddress fsr p) i) := by
  rw [read_eq fsr s p hp hr]
  have h : lookup s (pageAddress fsr p) k EE_PARA_MAX_NUMBER
      = some (slotVal s (pageAddress fsr p) i) :=
    (lookup_some_iff s _ k _ _).mpr ⟨i, hi, hk, rfl, hlast⟩
  rw [h]
  rfl

theorem read_not_found_iff (fsr : Nat) (s : Flash) (p : Nat) (hp : p ≤ 1)
    (hr : flash_ee_valid_page_get fsr s EE_VALID_PAGE_READ = p) (k pdata : Nat) :
    (flash_ee_data_read fsr s k pdata).1 = 1 ↔
      ∀ i, i < EE_PARA_MAX_NUMBER → slotKey s (pageAddress fsr p) i ≠ k := by
  rw [read_eq fsr s p hp hr, ← lookup_none_iff]
  cases h : lookup s (pageAddress fsr p) k EE_PARA_MAX_NUMBER with
  | none => simp [readResult]
  | some v => simp [readResult]

/-- C16 (the reader picks the newest record).  For every flash content whose read-mode page `p`
exists (one page is Valid) and every key `k`: if slot `i` is the record slot at the highest
address, among the 511 slots `0 .. 510` of that page, whose key half-word equals `k`, then
`flash_ee_data_read(k)` returns 0 and the value half-word of slot `i`; this covers the first
slot (`i = 0`, offsets 4 and 6) and the last one (`i = 510`, offsets 2044 and 2046).  The read
returns 1 if and only if none of the 511 slots has key half-word `k`, and a failed read leaves
`*pdata` as it was. -/
theorem C16_reader_picks_newest (fsr : Nat) (s : Flash) (p k pdata : Nat) (hp : p ≤ 1)
    (hr : flash_ee_valid_page_get fsr s EE_VALID_PAGE_READ = p) :
    (∀ i, i < EE_PARA_MAX_NUMBER → read16 s (pageAddress fsr p + 6 + 4 * i) = k →
      (∀ j, i < j → j < EE_PARA_MAX_NUMBER → read16 s (pageAddress fsr p + 6 + 4 * j) ≠ k) →
      flash_ee_data_read fsr s k pdata = (0, read16 s (pageAddress fsr p + 4 + 4 * i))) ∧
    ((flash_ee_data_read fsr s k pdata).1 = 1 ↔
      ∀ i, i < EE_PARA_MAX_NUMBER → read16 s (pageAddress fsr p + 6 + 4 * i) ≠ k) ∧
    ((flash_ee_data_read fsr s k pdata).1 = 1 → (flash_ee_data_read fsr s k pdata).2 = pdata) ∧
    EE_PARA_MAX_NUMBER = 511 := by
  refine ⟨?_, read_not_found_iff fsr s p hp hr k pdata, ?_, rfl⟩
  · intro i hi hk hlast
    exact read_newest fsr s p hp hr k pdata i hi hk hlast
  · rw [read_eq fsr s p hp hr]
    cases h : lookup s (pageAddress fsr p) k EE_PARA_MAX_NUMBER with
    | none => simp [readResult]
    | some v => simp [readResult]

/-- Witness of C16: the store after one write of key 3 to a freshly formatted flash, whose
read-mode page is page 0. -/
theorem C16_reader_picks_newest_witness :
    (0 : Nat) ≤ 1 ∧
    flash_ee_valid_page_get 512 (flash_ee_data_write 512 (freshFlash 512) 3 7).2
      EE_VALID_PAGE_READ = 0 ∧
    ((flash_ee_data_read 512 (flash_ee_data_write 512 (freshFlash 512) 3 7).2 3 0).1 = 1 ↔
      ∀ i, i < EE_PARA_MAX_NUMBER →
        read16 (flash_ee_data_write 512 (freshFlash 512) 3 7).2
          (pageAddress 512 0 + 6 + 4 * i) ≠ 3) :=
  ⟨by decide, by decide,
    (C16_reader_picks_newest 512 (flash_ee_data_write 512 (freshFlash 512) 3 7).2 0 3 0
      (by decide) (by decide)).2.1⟩

/-! ### The writer is append-only -/

theorem exists_lowest_free (s : Flash) (P n : Nat) (h : ∃ i, i < n ∧ SlotFree s P i) :
    ∃ m, m < n ∧ SlotFree s P m ∧ ∀ i, i < m → ¬ SlotFree s P i := by
  classical
  exact ⟨Nat.find h, (Nat.find_spec h).1, (Nat.find_spec h).2,
    fun i hi hf => Nat.find_min h hi ⟨lt_trans hi (Nat.find_spec h).1, hf⟩⟩

theorem slotFree_iff_word (s : Flash) (P i : Nat) :
    SlotFree s P i ↔ read32 s (P + 4 + 4 * i) = 0xFFFFFFFF := by
  rw [slotFree_iff_read32]
  have e : P + 4 * (i + 1) = P + 4 + 4 * i := by omega
  rw [e]

theorem programRecord_log (s : Flash) (a k v : Nat)
    (h : (programRecord s a k v).1 = FMC_STATUS_COMPLETE) :
    (programRecord s a k v).2.log
      = [FlashOp.program (a + 2) k s.unlocked, FlashOp.program a v s.unlocked] ++ s.log := by
  obtain ⟨-, -, h3⟩ := programRecord_steps s a k v h
  rw [h3, program_log, program_log, program_unlocked]
  rfl

/-- The effect of `flash_ee_write_no_check` when `m` is the lowest free slot of the write-mode
page `q` and the flash operations succeed. -/
theorem write_no_check_append (fsr : Nat) (s : Flash) (q m : Nat) (hq : q ≤ 1)
    (hw : flash_ee_valid_page_get fsr s EE_VALID_PAGE_WRITE = q) (hs : s.script = [])
    (hm : m < 511) (hused : ∀ i, i < m → ¬ SlotFree s (pageAddress fsr q) i)
    (hfree : SlotFree s (pageAddress fsr q) m) (k v : Nat) :
    (flash_ee_write_no_check fsr s k v).1 = FMC_STATUS_COMPLETE ∧
    (flash_ee_write_no_check fsr s k v).2.log
      = [FlashOp.program (pageAddress fsr q + 6 + 4 * m) k s.unlocked,
          FlashOp.program (pageAddress fsr q + 4 + 4 * m) v s.unlocked] ++ s.log ∧
    read16 (flash_ee_write_no_check fsr s k v).2 (pageAddress fsr q + 4 + 4 * m) = v % 65536 ∧
    read16 (flash_ee_write_no_check fsr s k v).2 (pageAddress fsr q + 6 + 4 * m) = k % 65536 ∧
    (∀ a, a ≠ pageAddress fsr q + 4 + 4 * m → a ≠ pageAddress fsr q + 6 + 4 * m →
      (flash_ee_write_no_check fsr s k v).2.cell a = s.cell a) := by
  rw [write_no_check_found fsr s q m hq hw hm hused hfree k v]
  have hc := (programRecord_nil s (pageAddress fsr q + 4 + 4 * m) k v hs).1
  have e : pageAddress fsr q + 4 + 4 * m + 2 = pageAddress fsr q + 6 + 4 * m := by omega
  refine ⟨hc, ?_, ?_, ?_, ?_⟩
  · rw [programRecord_log s _ k v hc, e]
  · exact programRecord_read16_val s _ k v hc hfree.1
  · have hk := programRecord_read16_key s (pageAddress fsr q + 4 + 4 * m) k v hc
      (by rw [e]; exact hfree.2)
    rw [e] at hk
    exact hk
  · intro a h1 h2
    exact programRecord_frame s _ k v a h1 (by rw [e]; exact h2)

/-- C17 (the writer is append-only).  For every flash content whose write-mode page `q` has at
least one of its 511 record slots reading 0xFFFFFFFF, on a flash whose operations succeed,
`flash_ee_write_no_check(key, value)` returns `FMC_STATUS_COMPLETE`; with `m` the lowest such
slot, it makes exactly two driver calls, programming the value half-word at offset `4 + 4m` and
then the key half-word at offset `6 + 4m`, after which these read `value` and `key`; every
other half-word of the flash, in particular both status headers and all other slots, keeps its
content. -/
theorem C17_writer_append_only (fsr : Nat) (s : Flash) (q key value : Nat) (hq : q ≤ 1)
    (hw : flash_ee_valid_page_get fsr s EE_VALID_PAGE_WRITE = q) (hs : s.script = [])
    (hfree : ∃ i, i < EE_PARA_MAX_NUMBER ∧
      read32 s (pageAddress fsr q + 4 + 4 * i) = 0xFFFFFFFF) :
    ∃ m, m < EE_PARA_MAX_NUMBER ∧ read32 s (pageAddress fsr q + 4 + 4 * m) = 0xFFFFFFFF ∧
      (∀ i, i < m → read32 s (pageAddress fsr q + 4 + 4 * i) ≠ 0xFFFFFFFF) ∧
      (flash_ee_write_no_check fsr s key value).1 = FMC_STATUS_COMPLETE ∧
      (flash_ee_write_no_check fsr s key value).2.log
        = [FlashOp.program (pageAddress fsr q + 6 + 4 * m) key s.unlocked,
            FlashOp.program (pageAddress fsr q + 4 + 4 * m) value s.unlocked] ++ s.log ∧
      read16 (flash_ee_write_no_check fsr s key value).2 (pageAddress fsr q + 4 + 4 * m)
        = value % 65536 ∧
      read16 (flash_ee_write_no_check fsr s key value).2 (pageAddress fsr q + 6 + 4 * m)
        = key % 65536 ∧
      (∀ a, a ≠ pageAddress fsr q + 4 + 4 * m → a ≠ pageAddress fsr q + 6 + 4 * m →
        (flash_ee_write_no_check fsr s key value).2.cell a = s.cell a) := by
  have hfree2 : ∃ i, i < 511 ∧ SlotFree s (pageAddress fsr q) i := by
    obtain ⟨i, hi, hf⟩ := hfree
    exact ⟨i, hi, (slotFree_iff_word s _ i).mpr hf⟩
  obtain ⟨m, hm, hfm, hused⟩ := exists_lowest_free s (pageAddress fsr q) 511 hfree2
  refine ⟨m, hm, (slotFree_iff_word s _ m).mp hfm,
    fun i hi hf => hused i hi ((slotFree_iff_word s _ i).mpr hf), ?_⟩
  exact write_no_check_append fsr s q m hq hw hs hm hused hfm key value

/-- Witness of C17: a freshly formatted flash, whose write-mode page is page 0 and whose first
record slot is free. -/
theorem C17_writer_append_only_witness :
    (0 : Nat) ≤ 1 ∧
    flash_ee_valid_page_get 512 (freshFlash 512) EE_VALID_PAGE_WRITE = 0 ∧
    (freshFlash 512).script = [] ∧
    (∃ i, i < EE_PARA_MAX_NUMBER ∧
      read32 (freshFlash 512) (pageAddress 512 0 + 4 + 4 * i) = 0xFFFFFFFF) ∧
    ∃ m, m < EE_PARA_MAX_NUMBER ∧
      (flash_ee_write_no_check 512 (freshFlash 512) 3 7).1 = FMC_STATUS_COMPLETE ∧
      read16 (flash_ee_write_no_check 512 (freshFlash 512) 3 7).2 (pageAddress 512 0 + 4 + 4 * m)
        = 7 % 65536 :=
  ⟨by decide, by decide, rfl, ⟨0, by decide, by decide⟩,
    (C17_writer_append_only 512 (freshFlash 512) 0 3 7 (by decide) (by decide) rfl
      ⟨0, by decide, by decide⟩).imp
      (fun _ h => ⟨h.1, h.2.2.2.1, h.2.2.2.2.2.1⟩)⟩

/-! ### The persisted layout -/

/-- A write to a page that holds at most 509 records is the append alone: neither fullness
check finds the last slot occupied. -/
theorem data_write_simple (fsr : Nat) (s : Flash) (p m : Nat) (h : Holds fsr s p m)
    (hm : m ≤ 509) (k v : Nat) :
    flash_ee_data_write fsr s k v
      = (FMC_STATUS_COMPLETE, FMC_Lock (flash_ee_write_no_check fsr (FMC_Unlock s) k v).2) := by
  have hu : Holds fsr (FMC_Unlock s) p m := (holds_unlock fsr s p m).mpr h
  have hp : p ≤ 1 := h.1.2.1
  have h510 : SlotFree (FMC_Unlock s) (pageAddress fsr p) 510 :=
    hu.2.2.2 510 (by omega) (by rw [EE_PARA_MAX_NUMBER_eq]; omega)
  have hf1 : flash_ee_full_check fsr (FMC_Unlock s) = (FMC_STATUS_COMPLETE, FMC_Unlock s) :=
    full_check_free fsr _ p hp (stable_valid_read fsr _ p hu.1) h510
  obtain ⟨hc, ⟨m2, hm2, -, hle, -⟩, -, -, -⟩ :=
    append_holds fsr (FMC_Unlock s) p m hu (by omega) k v _ rfl
  have h510b : SlotFree (flash_ee_write_no_check fsr (FMC_Unlock s) k v).2
      (pageAddress fsr p) 510 :=
    hm2.2.2.2 510 (by omega) (by rw [EE_PARA_MAX_NUMBER_eq]; omega)
  have hf2 : flash_ee_full_check fsr (flash_ee_write_no_check fsr (FMC_Unlock s) k v).2
      = (FMC_STATUS_COMPLETE, (flash_ee_write_no_check fsr (FMC_Unlock s) k v).2) :=
    full_check_free fsr _ p hp (stable_valid_read fsr _ p hm2.1) h510b
  unfold flash_ee_data_write flash_ee_data_write_body
  simp only [hf1, hc, hf2, ne_eq, not_true_eq_false, if_false]

/-- C18 (persisted layout), as the code has it.  In a valid page `p` that holds exactly `i`
records (`i = 0` and `p = 0` on a freshly formatted store) `flash_ee_write_no_check(k, v)`
programs the value half-word at byte offset `4 + 4i` and the key half-word at byte offset
`6 + 4i` of the page, so that the `i`-th record (counting from 0, up to `i = 510`) occupies the
byte offsets `4 + 4i .. 7 + 4i`; the same holds of `flash_ee_data_write(k, v)` as long as the
write does not fill the page (`i <= 509`).  No other half-word changes: the half-word at byte
offset 2, between the status header and the first record, is never programmed. -/
theorem C18_layout (fsr : Nat) (s : Flash) (p i k v : Nat) (h : Holds fsr s p i)
    (hi : i ≤ 510) :
    ((flash_ee_write_no_check fsr s k v).1 = FMC_STATUS_COMPLETE ∧
      (flash_ee_write_no_check fsr s k v).2.log
        = [FlashOp.program (pageAddress fsr p + 6 + 4 * i) k s.unlocked,
            FlashOp.program (pageAddress fsr p + 4 + 4 * i) v s.unlocked] ++ s.log ∧
      read16 (flash_ee_write_no_check fsr s k v).2 (pageAddress fsr p + 4 + 4 * i) = v % 65536 ∧
      read16 (flash_ee_write_no_check fsr s k v).2 (pageAddress fsr p + 6 + 4 * i) = k % 65536 ∧
      (∀ a, a ≠ pageAddress fsr p + 4 + 4 * i → a ≠ pageAddress fsr p + 6 + 4 * i →
        (flash_ee_write_no_check fsr s k v).2.cell a = s.cell a)) ∧
    (i ≤ 509 →
      (flash_ee_data_write fsr s k v).1 = FMC_STATUS_COMPLETE ∧
      (flash_ee_data_write fsr s k v).2.log
        = [FlashOp.program (pageAddress fsr p + 6 + 4 * i) k true,
            FlashOp.program (pageAddress fsr p + 4 + 4 * i) v true] ++ s.log ∧
      read16 (flash_ee_data_write fsr s k v).2 (pageAddress fsr p + 4 + 4 * i) = v % 65536 ∧
      read16 (flash_ee_data_write fsr s k v).2 (pageAddress fsr p + 6 + 4 * i) = k % 65536 ∧
      read16 (flash_ee_data_write fsr s k v).2 (pageAddress fsr p + 2)
        = read16 s (pageAddress fsr p + 2) ∧
      (∀ a, a ≠ pageAddress fsr p + 4 + 4 * i → a ≠ pageAddress fsr p + 6 + 4 * i →
        (flash_ee_data_write fsr s k v).2.cell a = s.cell a)) := by
  have hfree : ∀ t, Holds fsr t p i → SlotFree t (pageAddress fsr p) i := fun t ht =>
    ht.2.2.2 i (le_refl i) (by rw [EE_PARA_MAX_NUMBER_eq]; omega)
  refine ⟨?_, ?_⟩
  · exact write_no_check_append fsr s p i h.1.2.1 (stable_valid_write fsr s p h.1) h.1.1
      (by omega) h.2.2.1 (hfree s h) k v
  · intro hi2
    have hu : Holds fsr (FMC_Unlock s) p i := (holds_unlock fsr s p i).mpr h
    obtain ⟨a1, a2, a3, a4, a5⟩ :=
      write_no_check_append fsr (FMC_Unlock s) p i hu.1.2.1
        (stable_valid_write fsr _ p hu.1) hu.1.1 (by omega) hu.2.2.1 (hfree _ hu) k v
    rw [data_write_simple fsr s p i h hi2 k v]
    refine ⟨rfl, a2, a3, a4, ?_, ?_⟩
    · have e := a5 (pageAddress fsr p + 2) (by omega) (by omega)
      show (flash_ee_write_no_check fsr (FMC_Unlock s) k v).2.cell (pageAddress fsr p + 2) % 65536
        = s.cell (pageAddress fsr p + 2) % 65536
      rw [e]
      rfl
    · intro a h1 h2
      exact a5 a h1 h2

/-- Witness of C18: the concrete freshly formatted flash, whose page 0 holds no record. -/
theorem C18_layout_witness :
    Holds 512 (freshFlash 512) 0 0 ∧ (0 : Nat) ≤ 510 ∧
    (flash_ee_write_no_check 512 (freshFlash 512) 3 7).1 = FMC_STATUS_COMPLETE ∧
    read16 (flash_ee_write_no_check 512 (freshFlash 512) 3 7).2 (pageAddress 512 0 + 4 + 4 * 0)
      = 7 % 65536 ∧
    read16 (flash_ee_write_no_check 512 (freshFlash 512) 3 7).2 (pageAddress 512 0 + 6 + 4 * 0)
      = 3 % 65536 :=
  ⟨fresh_holds 512 _ (freshFlash_formatted 512), by decide,
    (C18_layout 512 (freshFlash 512) 0 0 3 7
      (fresh_holds 512 _ (freshFlash_formatted 512)) (by decide)).1.1,
    (C18_layout 512 (freshFlash 512) 0 0 3 7
      (fresh_holds 512 _ (freshFlash_formatted 512)) (by decide)).1.2.2.1,
    (C18_layout 512 (freshFlash 512) 0 0 3 7
      (fresh_holds 512 _ (freshFlash_formatted 512)) (by decide)).1.2.2.2.1⟩

/-- Counterexample to C18 as stated: after the first `flash_ee_data_write(3, 7)` on the
concrete freshly formatted flash, the half-word at byte offset 2 of page 0 is still erased, so
it does not hold the value 7, and the half-word at byte offset 4 holds the value 7, not the
key 3; the two program calls went to the offsets 4 (value) and 6 (key). -/
theorem C18_counterexample :
    FreshlyFormatted 512 (freshFlash 512) ∧
    read16 (flash_ee_data_write 512 (freshFlash 512) 3 7).2 (EE_PAGE0_ADDRESS 512 + 2) = 0xFFFF ∧
    read16 (flash_ee_data_write 512 (freshFlash 512) 3 7).2 (EE_PAGE0_ADDRESS 512 + 2) ≠ 7 ∧
    read16 (flash_ee_data_write 512 (freshFlash 512) 3 7).2 (EE_PAGE0_ADDRESS 512 + 4) = 7 ∧
    read16 (flash_ee_data_write 512 (freshFlash 512) 3 7).2 (EE_PAGE0_ADDRESS 512 + 4) ≠ 3 ∧
    (flash_ee_data_write 512 (freshFlash 512) 3 7).2.log
      = [FlashOp.program (EE_PAGE0_ADDRESS 512 + 6) 3 true,
          FlashOp.program (EE_PAGE0_ADDRESS 512 + 4) 7 true] :=
  ⟨freshFlash_formatted 512, by decide, by decide, by decide, by decide, by decide⟩

/-! ### Read status codes and the erased pattern -/

theorem read_status_valid (fsr : Nat) (s : Flash) (p : Nat) (hp : p ≤ 1)
    (hr : flash_ee_valid_page_get fsr s EE_VALID_PAGE_READ = p) (k pdata : Nat) :
    (flash_ee_data_read fsr s k pdata).1 = 0 ∨ (flash_ee_data_read fsr s k pdata).1 = 1 := by
  rw [read_eq fsr s p hp hr]
  cases lookup s (pageAddress fsr p) k EE_PARA_MAX_NUMBER with
  | none => exact Or.inr rfl
  | some v => exact Or.inl rfl

/-- C19 (read status codes), at the failing input.  On the blank flash, where neither page is
Valid, `flash_ee_data_read(5, &d)` returns 2 (`EE_VALID_PAGE_NONE`), which is neither of the
two documented status codes 0 and 1, and leaves `d` as it was. -/
theorem C19_read_returns_two_without_valid_page :
    flash_ee_valid_page_get 512 blankFlash EE_VALID_PAGE_READ = EE_VALID_PAGE_NONE ∧
    flash_ee_data_read 512 blankFlash 5 0 = (2, 0) ∧
    (flash_ee_data_read 512 blankFlash 5 0).1 ≠ 0 ∧
    (flash_ee_data_read 512 blankFlash 5 0).1 ≠ 1 := by
  refine ⟨by decide, by decide, by decide, by decide⟩

theorem lookup_phantom (s : Flash) (P i : Nat) (hfree : SlotFree s P i) :
    ∀ n, i < n →
      (∀ j, i < j → j < n → slotKey s P j = 0xFFFF → slotVal s P j = 0xFFFF) →
      lookup s P 0xFFFF n = some 0xFFFF := by
  intro n
  induction n with
  | zero => intro hi; omega
  | succ n ih =>
    intro hi hno
    rw [lookup_succ]
    by_cases hk : 0xFFFF = slotKey s P n
    · rw [if_pos hk]
      rcases Nat.lt_succ_iff_lt_or_eq.mp hi with h1 | h1
      · rw [hno n h1 (Nat.lt_succ_self n) hk.symm]
      · rw [← h1, hfree.1]
    · rw [if_neg hk]
      rcases Nat.lt_succ_iff_lt_or_eq.mp hi with h1 | h1
      · exact ih h1 (fun j h2 h3 => hno j h2 (Nat.lt_succ_of_lt h3))
      · rw [h1] at hfree
        exact absurd hfree.2.symm hk

/-- C20 (phantom hit on the erased pattern).  For every flash content whose read-mode page `p`
has a fully erased record slot `i` and no programmed record with key half-word 0xFFFF at a
higher address (every higher slot whose key half-word is 0xFFFF is itself erased),
`flash_ee_data_read(0xFFFF)` returns 0 with the value 0xFFFF.  For every key `k` other than
0xFFFF an erased slot never matches `k`, and a read of `k` that returns 0 takes its value from
a slot that is not erased. -/
theorem C20_phantom_hit (fsr : Nat) (s : Flash) (p i pdata : Nat) (hp : p ≤ 1)
    (hr : flash_ee_valid_page_get fsr s EE_VALID_PAGE_READ = p)
    (hi : i < EE_PARA_MAX_NUMBER) (hfree : SlotFree s (pageAddress fsr p) i)
    (hno : ∀ j, i < j → j < EE_PARA_MAX_NUMBER → slotKey s (pageAddress fsr p) j = 0xFFFF →
      SlotFree s (pageAddress fsr p) j) :
    flash_ee_data_read fsr s 0xFFFF pdata = (0, 0xFFFF) ∧
    (∀ k, k ≠ 0xFFFF → ∀ j, SlotFree s (pageAddress fsr p) j →
      slotKey s (pageAddress fsr p) j ≠ k) ∧
    (∀ k v, k ≠ 0xFFFF → flash_ee_data_read fsr s k pdata = (0, v) →
      ∃ j, j < EE_PARA_MAX_NUMBER ∧ slotKey s (pageAddress fsr p) j = k ∧
        slotVal s (pageAddress fsr p) j = v ∧ ¬ SlotFree s (pageAddress fsr p) j) := by
  refine ⟨?_, ?_, ?_⟩
  · rw [read_eq fsr s p hp hr,
      lookup_phantom s (pageAddress fsr p) i hfree EE_PARA_MAX_NUMBER hi
        (fun j h1 h2 h3 => (hno j h1 h2 h3).1)]
    rfl
  · intro k hk j hf e
    rw [hf.2] at e
    exact hk e.symm
  · intro k v hk hread
    rw [read_eq fsr s p hp hr] at hread
    cases hl : lookup s (pageAddress fsr p) k EE_PARA_MAX_NUMBER with
    | none =>
      rw [hl] at hread
      simp [readResult] at hread
    | some w =>
      rw [hl] at hread
      have hw : w = v := by
        simp only [readResult, Prod.mk.injEq, true_and] at hread
        exact hread
      rw [hw] at hl
      obtain ⟨j, hj, hkj, hvj, -⟩ := (lookup_some_iff s _ k v _).mp hl
      refine ⟨j, hj, hkj, hvj, ?_⟩
      intro hf
      rw [hf.2] at hkj
      exact hk hkj.symm

/-- Witness of C20: the concrete freshly formatted flash, every record slot of which is
erased. -/
theorem C20_phantom_hit_witness :
    (0 : Nat) ≤ 1 ∧
    flash_ee_valid_page_get 512 (freshFlash 512) EE_VALID_PAGE_READ = 0 ∧
    (0 : Nat) < EE_PARA_MAX_NUMBER ∧ SlotFree (freshFlash 512) (pageAddress 512 0) 0 ∧
    flash_ee_data_read 512 (freshFlash 512) 0xFFFF 0 = (0, 0xFFFF) :=
  ⟨by decide, by decide, by decide,
    (fresh_holds 512 _ (freshFlash_formatted 512)).2.2.2 0 (le_refl 0) (by decide),
    (C20_phantom_hit 512 (freshFlash 512) 0 0 0 (by decide) (by decide) (by decide)
      ((fresh_holds 512 _ (freshFlash_formatted 512)).2.2.2 0 (le_refl 0) (by decide))
      (fun j _ h2 _ => (fresh_holds 512 _ (freshFlash_formatted 512)).2.2.2 j
        (Nat.zero_le j) h2)).1⟩

/-! ### Keys outside the key range -/

/-- A write of a key other than the erased pattern to a page that keeps a free slot afterwards is
found by the reader, whether or not the key is below `EE_PARA_MAX_NUMBER`. -/
theorem write_then_read (fsr : Nat) (s : Flash) (p m : Nat) (h : Holds fsr s p m)
    (hm : m ≤ 509) (k v d : Nat) (hk : k < 0xFFFF) :
    (flash_ee_data_write fsr s k v).1 = FMC_STATUS_COMPLETE ∧
    Stable fsr (flash_ee_data_write fsr s k v).2 p ∧
    flash_ee_data_read fsr (flash_ee_data_write fsr s k v).2 k d = (0, v % 65536) := by
  have hu : Holds fsr (FMC_Unlock s) p m := (holds_unlock fsr s p m).mpr h
  obtain ⟨-, ⟨m2, hm2, -⟩, hl, -, -⟩ :=
    append_holds fsr (FMC_Unlock s) p m hu (by omega) k v _ rfl
  rw [data_write_simple fsr s p m h hm k v]
  have hst : Stable fsr (FMC_Lock (flash_ee_write_no_check fsr (FMC_Unlock s) k v).2) p :=
    (stable_lock fsr _ p).mpr hm2.1
  refine ⟨rfl, hst, ?_⟩
  rw [stable_read fsr _ p hst, lookup_lock, hl k (by omega),
    if_pos (Nat.mod_eq_of_lt (by omega)).symm]
  rfl

/-- A write of a key that is not below `EE_PARA_MAX_NUMBER` into the last free slot: the second
fullness check compacts the page before the call returns, and the compaction drops the key. -/
theorem write_last_slot_stray (fsr : Nat) (s : Flash) (p : Nat) (h : Holds fsr s p 510)
    (k v d : Nat) (hk1 : 511 ≤ k) (hk2 : k < 0xFFFF) :
    (flash_ee_data_write fsr s k v).1 = FMC_STATUS_COMPLETE ∧
    Stable fsr (flash_ee_data_write fsr s k v).2 (1 - p) ∧
    flash_ee_data_read fsr (flash_ee_data_write fsr s k v).2 k d = (1, d) := by
  have hu : Holds fsr (FMC_Unlock s) p 510 := (holds_unlock fsr s p 510).mpr h
  have hp : p ≤ 1 := h.1.2.1
  have hf1 : flash_ee_full_check fsr (FMC_Unlock s) = (FMC_STATUS_COMPLETE, FMC_Unlock s) :=
    full_check_free fsr _ p hp (stable_valid_read fsr _ p hu.1)
      ((holds_slot510 fsr _ p 510 hu).mpr (le_refl _))
  obtain ⟨hc, ⟨m2, hm2, -, -, hfull⟩, -, -, -⟩ :=
    append_holds fsr (FMC_Unlock s) p 510 hu (le_refl _) k v _ rfl
  have hkm : k % 65536 = k := Nat.mod_eq_of_lt (by omega)
  have e2 : m2 = 511 := hfull (by rw [hkm]; omega)
  rw [e2] at hm2
  rcases full_check_holds fsr _ p 511 hm2 _ rfl with ⟨hh, -⟩ | ⟨-, hc3, hh3, hmig, -, -⟩
  · omega
  have hw : flash_ee_data_write fsr s k v
      = (FMC_STATUS_COMPLETE,
          FMC_Lock (flash_ee_full_check fsr
            (flash_ee_write_no_check fsr (FMC_Unlock s) k v).2).2) := by
    unfold flash_ee_data_write flash_ee_data_write_body
    simp only [hf1, hc, hc3, ne_eq, not_true_eq_false, if_false]
  rw [hw]
  have hst : Stable fsr (FMC_Lock (flash_ee_full_check fsr
      (flash_ee_write_no_check fsr (FMC_Unlock s) k v).2).2) (1 - p) :=
    (stable_lock fsr _ (1 - p)).mpr hh3.1
  refine ⟨rfl, hst, ?_⟩
  rw [stable_read fsr _ (1 - p) hst, lookup_lock, hmig.2.2.2 k (by omega),
    if_neg (by rw [EE_PARA_MAX_NUMBER_eq]; omega)]
  rfl

/-- C21 (out-of-range keys are accepted and then lost), with the boundary case set apart.  In a
store whose valid page `p` holds exactly `m <= 510` records, on a flash whose operations
succeed, `flash_ee_data_write(k, v)` with `EE_PARA_MAX_NUMBER <= k < 0xFFFF` returns
`FMC_STATUS_COMPLETE`.  When the page has at least two free slots (`m <= 509`),
`flash_ee_data_read(k)` then returns 0 and the value; when the write takes the last free slot
(`m = 510`) the page is compacted before the call returns and `flash_ee_data_read(k)` returns 1
at once.  In both cases, and in every state with one valid and one erased page,
`flash_ee_copy_to_new_page` completes and afterwards `flash_ee_data_read(k)` returns 1 and
leaves `*pdata` as it was. -/
theorem C21_out_of_range_keys (fsr : Nat) (s : Flash) (p m k v d : Nat)
    (h : Holds fsr s p m) (hm : m ≤ 510) (hk1 : EE_PARA_MAX_NUMBER ≤ k) (hk2 : k < 0xFFFF) :
    (flash_ee_data_write fsr s k v).1 = FMC_STATUS_COMPLETE ∧
    (m ≤ 509 → flash_ee_data_read fsr (flash_ee_data_write fsr s k v).2 k d = (0, v % 65536)) ∧
    (m = 510 → flash_ee_data_read fsr (flash_ee_data_write fsr s k v).2 k d = (1, d)) ∧
    (flash_ee_copy_to_new_page fsr (flash_ee_data_write fsr s k v).2).1 = FMC_STATUS_COMPLETE ∧
    flash_ee_data_read fsr
      (flash_ee_copy_to_new_page fsr (flash_ee_data_write fsr s k v).2).2 k d = (1, d) ∧
    (∀ t q, Stable fsr t q →
      (flash_ee_copy_to_new_page fsr t).1 = FMC_STATUS_COMPLETE ∧
      flash_ee_data_read fsr (flash_ee_copy_to_new_page fsr t).2 k d = (1, d)) := by
  rw [EE_PARA_MAX_NUMBER_eq] at hk1
  have hcompact : ∀ t q, Stable fsr t q →
      (flash_ee_copy_to_new_page fsr t).1 = FMC_STATUS_COMPLETE ∧
      flash_ee_data_read fsr (flash_ee_copy_to_new_page fsr t).2 k d = (1, d) := by
    intro t q ht
    obtain ⟨c1, -, c3⟩ := compact_read fsr t q ht
    refine ⟨c1, ?_⟩
    rw [c3 k d (by omega), if_neg (by rw [EE_PARA_MAX_NUMBER_eq]; omega)]
  have hafter : (flash_ee_data_write fsr s k v).1 = FMC_STATUS_COMPLETE ∧
      ∃ q, Stable fsr (flash_ee_data_write fsr s k v).2 q := by
    rcases Nat.lt_or_ge m 510 with h1 | h1
    · obtain ⟨a, b, -⟩ := write_then_read fsr s p m h (by omega) k v d hk2
      exact ⟨a, p, b⟩
    · have e : m = 510 := by omega
      rw [e] at h
      obtain ⟨a, b, -⟩ := write_last_slot_stray fsr s p h k v d hk1 hk2
      exact ⟨a, 1 - p, b⟩
  obtain ⟨hc, q, hq⟩ := hafter
  refine ⟨hc, ?_, ?_, (hcompact _ q hq).1, (hcompact _ q hq).2, hcompact⟩
  · intro h1
    exact (write_then_read fsr s p m h h1 k v d hk2).2.2
  · intro h1
    rw [h1] at h
    exact (write_last_slot_stray fsr s p h k v d hk1 hk2).2.2

/-- Witness of C21: the key 600 written to the concrete freshly formatted flash. -/
theorem C21_out_of_range_keys_witness :
    Holds 512 (freshFlash 512) 0 0 ∧ (0 : Nat) ≤ 510 ∧ EE_PARA_MAX_NUMBER ≤ 600 ∧
    (600 : Nat) < 0xFFFF ∧
    (flash_ee_data_write 512 (freshFlash 512) 600 7).1 = FMC_STATUS_COMPLETE ∧
    flash_ee_data_read 512
      (flash_ee_copy_to_new_page 512 (flash_ee_data_write 512 (freshFlash 512) 600 7).2).2
      600 0 = (1, 0) :=
  ⟨fresh_holds 512 _ (freshFlash_formatted 512), by decide, by decide, by decide,
    (C21_out_of_range_keys 512 (freshFlash 512) 0 0 600 7 0
      (fresh_holds 512 _ (freshFlash_formatted 512)) (by decide) (by decide) (by decide)).1,
    (C21_out_of_range_keys 512 (freshFlash 512) 0 0 600 7 0
      (fresh_holds 512 _ (freshFlash_formatted 512)) (by decide) (by decide)
      (by decide)).2.2.2.2.1⟩

/-- Counterexample to C21 as stated: after the keys 0 .. 509 have been written to the concrete
freshly formatted flash, the valid page 0 has one free slot left, the last one.
`flash_ee_data_write(511, 7)` into that page returns `FMC_STATUS_COMPLETE`, and
`flash_ee_data_read(511)` then returns 1: the value is not found. -/
theorem C21_counterexample :
    Holds 512 (writeKeys 512 (fun _ => 0) 510 (freshFlash 512)) 0 510 ∧
    SlotFree (writeKeys 512 (fun _ => 0) 510 (freshFlash 512)) (pageAddress 512 0) 510 ∧
    (flash_ee_data_write 512 (writeKeys 512 (fun _ => 0) 510 (freshFlash 512)) 511 7).1
      = FMC_STATUS_COMPLETE ∧
    flash_ee_data_read 512
      (flash_ee_data_write 512 (writeKeys 512 (fun _ => 0) 510 (freshFlash 512)) 511 7).2
      511 0 = (1, 0) := by
  have h := (writeKeys_spec 512 (fun _ => 0) (freshFlash 512) 0
    (fresh_holds 512 _ (freshFlash_formatted 512)) (fun _ _ => by simp) 510 (le_refl _)).1
  obtain ⟨a, -, c⟩ := write_last_slot_stray 512 _ 0 h 511 7 0 (by omega) (by omega)
  exact ⟨h, (holds_slot510 512 _ 0 510 h).mpr (le_refl _), a, c⟩

/-! ### The inactive page is blank -/

/-- The append on a store with one valid and one erased page, whatever the valid page holds:
either the page has no free slot and nothing changes, or the record is programmed into the
lowest free slot and the store still has one valid and one erased page. -/
theorem append_stable (fsr : Nat) (s : Flash) (p : Nat) (h : Stable fsr s p) (k v : Nat) :
    flash_ee_write_no_check fsr s k v = (FMC_STATUS_ERROR_PG, s) ∨
    ((flash_ee_write_no_check fsr s k v).1 = FMC_STATUS_COMPLETE ∧
      Stable fsr (flash_ee_write_no_check fsr s k v).2 p) := by
  have hw := stable_valid_write fsr s p h
  obtain ⟨hs, hp, hv, he⟩ := h
  by_cases hfree : ∃ i, i < 511 ∧ SlotFree s (pageAddress fsr p) i
  · obtain ⟨m, hm, hfm, hused⟩ := exists_lowest_free s (pageAddress fsr p) 511 hfree
    right
    rw [write_no_check_found fsr s p m hp hw hm hused hfm k v]
    have hd := pages_disjoint fsr p hp
    obtain ⟨hc, hscr⟩ := programRecord_nil s (pageAddress fsr p + 4 + 4 * m) k v hs
    refine ⟨hc, hscr, hp, ?_, ?_⟩
    · rw [programRecord_read16_other s _ k v _ (by omega) (by omega)]
      exact hv
    · intro a ha1 ha2
      rw [EE_PAGE_SIZE_eq] at ha2
      rw [programRecord_read16_other s _ k v _ (by omega) (by omega)]
      exact he a ha1 (by rw [EE_PAGE_SIZE_eq]; exact ha2)
  · left
    exact write_no_check_full fsr s p hp hw (fun i hi hf => hfree ⟨i, hi, hf⟩) k v

/-- The write entry point keeps a store with one valid and one erased page, and returns either
success or the page-full error. -/
theorem data_write_stable (fsr : Nat) (s : Flash) (p : Nat) (h : Stable fsr s p) (k v : Nat) :
    ((flash_ee_data_write fsr s k v).1 = FMC_STATUS_COMPLETE ∨
      (flash_ee_data_write fsr s k v).1 = FMC_STATUS_ERROR_PG) ∧
    ∃ p', Stable fsr (flash_ee_data_write fsr s k v).2 p' := by
  have hu : Stable fsr (FMC_Unlock s) p := (stable_unlock fsr s p).mpr h
  obtain ⟨f1, p1, hp1, -, -⟩ := full_check_stable fsr (FMC_Unlock s) p hu
  rcases append_stable fsr _ p1 hp1 k v with hfull | ⟨hc, hst⟩
  · have hw : flash_ee_data_write fsr s k v
        = (FMC_STATUS_ERROR_PG, FMC_Lock (flash_ee_full_check fsr (FMC_Unlock s)).2) := by
      unfold flash_ee_data_write flash_ee_data_write_body
      simp [f1, hfull]
    rw [hw]
    exact ⟨Or.inr rfl, p1, (stable_lock fsr _ p1).mpr hp1⟩
  · obtain ⟨f3, p3, hp3, -, -⟩ := full_check_stable fsr _ p1 hst
    have hw : flash_ee_data_write fsr s k v
        = (FMC_STATUS_COMPLETE,
            FMC_Lock (flash_ee_full_check fsr
              (flash_ee_write_no_check fsr (flash_ee_full_check fsr (FMC_Unlock s)).2 k v).2).2) := by
      unfold flash_ee_data_write flash_ee_data_write_body
      simp [f1, hc, f3]
    rw [hw]
    exact ⟨Or.inl rfl, p3, (stable_lock fsr _ p3).mpr hp3⟩

/-- On a store that satisfies the invariant `flash_ee_init` keeps the invariant. -/
theorem init_holds (fsr : Nat) (s : Flash) (p m : Nat) (h : Holds fsr s p m) :
    ∃ p' m', Holds fsr (flash_ee_init fsr s).2 p' m' := by
  have hu : Holds fsr (FMC_Unlock s) p m := (holds_unlock fsr s p m).mpr h
  have hp : p ≤ 1 := hu.1.2.1
  have hs : (FMC_Unlock s).script = [] := hu.1.1
  have hv := hu.1.2.2.1
  have he := stable_other_erased fsr _ p hu.1
  have hb := init_body_valid_erased_eq fsr (FMC_Unlock s) p hp hs hv he
  obtain ⟨-, e2, e3, e4⟩ := page_erase_nil (FMC_Unlock s) (pageAddress fsr (1 - p)) hs
  have hd := pages_disjoint fsr p hp
  have hcell : ∀ a, pageAddress fsr p ≤ a → a < pageAddress fsr p + 2048 →
      read16 (flash_ee_page_erase (FMC_Unlock s) (pageAddress fsr (1 - p))).2 a
        = read16 (FMC_Unlock s) a :=
    fun a h1 h2 => read16_of_cell (e4 a (by omega))
  have hcong := slotFree_congr (FMC_Unlock s)
    (flash_ee_page_erase (FMC_Unlock s) (pageAddress fsr (1 - p))).2 (pageAddress fsr p)
    (fun a h1 h2 => hcell a (by omega) h2)
  have hU : Holds fsr (flash_ee_page_erase (FMC_Unlock s) (pageAddress fsr (1 - p))).2 p m := by
    refine ⟨⟨e2, hp, ?_, e3⟩, hu.2.1, ?_, ?_⟩
    · rw [hcell _ (le_refl _) (by omega)]
      exact hv
    · intro i hi hf
      have hm := hu.2.1
      rw [EE_PARA_MAX_NUMBER_eq] at hm
      exact hu.2.2.1 i hi ((hcong i (by omega)).mp hf)
    · intro i h1 h2
      exact (hcong i (by rw [EE_PARA_MAX_NUMBER_eq] at h2; exact h2)).mpr (hu.2.2.2 i h1 h2)
  unfold flash_ee_init
  rw [hb]
  rcases full_check_holds fsr _ p m hU _ rfl with ⟨-, hr⟩ | ⟨-, -, hh, -⟩
  · rw [hr]
    exact ⟨p, m, (holds_lock fsr _ p m).mpr hU⟩
  · exact ⟨1 - p, _, (holds_lock fsr _ _ _).mpr hh⟩

theorem afterInit_stable (fsr : Nat) (s0 t : Flash) (hs : s0.script = [])
    (hb : AfterInit fsr s0 t) : ∃ p, Stable fsr t p := by
  induction hb with
  | init _ => exact (init_stable fsr s0 hs).2
  | write t k v _ ih =>
    obtain ⟨p, hp⟩ := ih
    exact (data_write_stable fsr t p hp k v).2

theorem afterInit_holds (fsr : Nat) (s0 t : Flash)
    (hinit : ∃ p m, Holds fsr (flash_ee_init fsr s0).2 p m) (hb : AfterInit fsr s0 t) :
    ∃ p m, Holds fsr t p m := by
  induction hb with
  | init _ => exact hinit
  | write t k v _ ih =>
    obtain ⟨p, m, hh⟩ := ih
    obtain ⟨-, p1, m1, e1, -, hcase⟩ := data_write_spec fsr t p m hh k v _ rfl
    rcases hcase with ⟨-, -, h1, -⟩ | ⟨-, -, p2, m2, h2, -⟩
    · exact ⟨p1, 511, h1⟩
    · exact ⟨p2, m2, h2⟩

/-- C22 (the inactive page is always blank), with the part on the free slots made conditional.
On a flash whose operations succeed, in the state `t` in which `flash_ee_init` has returned
`FMC_STATUS_COMPLETE` on any initial content `s0`, and in every state in which a later
`flash_ee_data_write` has returned: one page `p` is Valid and every half-word of the other
page, status header included, reads 0xFFFF; the next write returns `FMC_STATUS_COMPLETE` or
`FMC_STATUS_ERROR_PG`.  If the free slots of the Valid page form a suffix of its record area
when `flash_ee_init` returns, they do so in `t`; they do when `flash_ee_init` finds the format
invalid and formats, and when the initial content already had one Valid page with such a
suffix and the other page blank. -/
theorem C22_inactive_page_blank (fsr : Nat) (s0 t : Flash) (hs : s0.script = [])
    (hb : AfterInit fsr s0 t) :
    (∃ p, p ≤ 1 ∧ read16 t (pageAddress fsr p) = EE_PAGE_VALID ∧
      (∀ a, pageAddress fsr (1 - p) ≤ a → a < pageAddress fsr (1 - p) + EE_PAGE_SIZE →
        read16 t a = 0xFFFF)) ∧
    (∀ k v, (flash_ee_data_write fsr t k v).1 = FMC_STATUS_COMPLETE ∨
      (flash_ee_data_write fsr t k v).1 = FMC_STATUS_ERROR_PG) ∧
    ((∃ p m, Holds fsr (flash_ee_init fsr s0).2 p m) → ∃ p m, Holds fsr t p m) ∧
    (flash_ee_format_check (read16 s0 (EE_PAGE0_ADDRESS fsr))
        (read16 s0 (EE_PAGE1_ADDRESS fsr)) ≠ 0 →
      Holds fsr (flash_ee_init fsr s0).2 0 0) ∧
    ((∃ p m, Holds fsr s0 p m) → ∃ p m, Holds fsr (flash_ee_init fsr s0).2 p m) := by
  obtain ⟨p, hp⟩ := afterInit_stable fsr s0 t hs hb
  refine ⟨⟨p, hp.2.1, hp.2.2.1, hp.2.2.2⟩, ?_, ?_, ?_, ?_⟩
  · intro k v
    exact (data_write_stable fsr t p hp k v).1
  · intro hinit
    exact afterInit_holds fsr s0 t hinit hb
  · intro hfc
    exact fresh_holds fsr _ (init_format fsr s0 hs hfc).2
  · rintro ⟨q, m, hh⟩
    exact init_holds fsr s0 q m hh

/-- Witness of C22: the blank flash, which `flash_ee_init` formats, after one write. -/
theorem C22_inactive_page_blank_witness :
    blankFlash.script = [] ∧
    AfterInit 512 blankFlash (flash_ee_data_write 512 (flash_ee_init 512 blankFlash).2 3 7).2 ∧
    ∃ p, p ≤ 1 ∧
      read16 (flash_ee_data_write 512 (flash_ee_init 512 blankFlash).2 3 7).2
        (pageAddress 512 p) = EE_PAGE_VALID ∧
      (∀ a, pageAddress 512 (1 - p) ≤ a → a < pageAddress 512 (1 - p) + EE_PAGE_SIZE →
        read16 (flash_ee_data_write 512 (flash_ee_init 512 blankFlash).2 3 7).2 a = 0xFFFF) :=
  ⟨rfl, AfterInit.write _ 3 7 (AfterInit.init (by decide)),
    (C22_inactive_page_blank 512 blankFlash _ rfl
      (AfterInit.write _ 3 7 (AfterInit.init (by decide)))).1⟩

/-- Counterexample to C22 as stated: on `gapFlash`, whose valid page 0 has the erased slot 0
below the programmed slot 1, `flash_ee_init` returns `FMC_STATUS_COMPLETE` on a flash whose
operations succeed and keeps page 0 as the Valid page with that content, so that the free slots
of the Valid page do not form a suffix of its record area. -/
theorem C22_counterexample :
    (gapFlash 512).script = [] ∧
    (flash_ee_init 512 (gapFlash 512)).1 = FMC_STATUS_COMPLETE ∧
    read16 (flash_ee_init 512 (gapFlash 512)).2 (pageAddress 512 0) = EE_PAGE_VALID ∧
    read16 (flash_ee_init 512 (gapFlash 512)).2 (pageAddress 512 0 + 4) = 0xFFFF ∧
    read16 (flash_ee_init 512 (gapFlash 512)).2 (pageAddress 512 0 + 6) = 0xFFFF ∧
    read16 (flash_ee_init 512 (gapFlash 512)).2 (pageAddress 512 0 + 8) = 9 ∧
    read16 (flash_ee_init 512 (gapFlash 512)).2 (pageAddress 512 0 + 10) = 5 ∧
    ¬ ∃ p m, Holds 512 (flash_ee_init 512 (gapFlash 512)).2 p m := by
  refine ⟨rfl, by decide, by decide, by decide, by decide, by decide, by decide, ?_⟩
  rintro ⟨p, m, hst, -, hused, hfree⟩
  have h1 : read16 (flash_ee_init 512 (gapFlash 512)).2 (pageAddress 512 1) ≠ EE_PAGE_VALID := by
    decide
  have hp : p = 0 := by
    rcases Nat.le_one_iff_eq_zero_or_eq_one.mp hst.2.1 with h0 | h0
    · exact h0
    · have hv := hst.2.2.1
      rw [h0] at hv
      exact absurd hv h1
  rw [hp] at hused hfree
  have hf0 : SlotFree (flash_ee_init 512 (gapFlash 512)).2 (pageAddress 512 0) 0 :=
    ⟨by decide, by decide⟩
  have hv1 : slotVal (flash_ee_init 512 (gapFlash 512)).2 (pageAddress 512 0) 1 ≠ 0xFFFF := by
    decide
  rcases Nat.eq_zero_or_pos m with hm | hm
  · rw [hm] at hfree
    exact hv1 (hfree 1 (by omega) (by decide)).1
  · exact hused 0 hm hf0

/-! ### The states in which a compaction starts -/

/-- On a store with one valid and one erased page the fullness check that finds the last slot
occupied is the compaction. -/
theorem full_check_starts_copy (fsr : Nat) (s : Flash) (p : Nat) (h : Stable fsr s p)
    (hfull : ¬ SlotFree s (pageAddress fsr p) 510) :
    flash_ee_full_check fsr s = flash_ee_copy_to_new_page fsr s := by
  rw [full_check_full fsr s p h.2.1 (stable_valid_read fsr s p h) hfull,
    copy_unfold fsr s p h.2.1 (stable_valid_read fsr s p h)]

/-- Both fullness checks of `flash_ee_data_write`, on a store with one valid and one erased
page, run in a state with one valid and one erased page: the first in the unlocked store, the
second in the state after the append. -/
theorem write_compaction_start (fsr : Nat) (t : Flash) (p : Nat) (h : Stable fsr t p)
    (k v : Nat) :
    Stable fsr (FMC_Unlock t) p ∧
    ∃ q, Stable fsr
      (flash_ee_write_no_check fsr (flash_ee_full_check fsr (FMC_Unlock t)).2 k v).2 q := by
  have hu : Stable fsr (FMC_Unlock t) p := (stable_unlock fsr t p).mpr h
  obtain ⟨-, p1, hp1, -, -⟩ := full_check_stable fsr (FMC_Unlock t) p hu
  refine ⟨hu, p1, ?_⟩
  rcases append_stable fsr _ p1 hp1 k v with hfull | ⟨-, hst⟩
  · rw [hfull]
    exact hp1
  · exact hst

/-- The state after an append that takes the last slot of the valid page: the page is still
valid with its last slot occupied, the other page is erased, so the fullness check is the
compaction, and the key just written reads its value. -/
theorem last_slot_taken (fsr : Nat) (w : Flash) (p : Nat) (h : Holds fsr w p 510) :
    Stable fsr (flash_ee_write_no_check fsr (FMC_Unlock w) 510 7).2 p ∧
    flash_ee_full_check fsr (flash_ee_write_no_check fsr (FMC_Unlock w) 510 7).2
      = flash_ee_copy_to_new_page fsr (flash_ee_write_no_check fsr (FMC_Unlock w) 510 7).2 ∧
    flash_ee_data_read fsr (flash_ee_write_no_check fsr (FMC_Unlock w) 510 7).2 510 0
      = (0, 7) := by
  have hU := (holds_unlock fsr w p 510).mpr h
  obtain ⟨-, ⟨m2, hm2, -, -, hfull⟩, hl, -, -⟩ :=
    append_holds fsr _ p 510 hU (le_refl _) 510 7 _ rfl
  have e2 : m2 = 511 := hfull (by omega)
  rw [e2] at hm2
  refine ⟨hm2.1, full_check_starts_copy fsr _ p hm2.1 (hm2.2.2.1 510 (by omega)), ?_⟩
  rw [stable_read fsr _ p hm2.1]
  have h510 := hl 510 (by omega)
  rw [if_pos (by omega)] at h510
  rw [h510]
  rfl

/-- The store after the keys 0 .. 509 have been written to the concrete freshly formatted
flash: page 0 is valid and holds 510 records, page 1 is erased. -/
theorem writeKeys_510_holds (fsr : Nat) :
    Holds fsr (writeKeys fsr (fun _ => 0) 510 (freshFlash fsr)) 0 510 :=
  (writeKeys_spec fsr (fun _ => 0) (freshFlash fsr) 0
    (fresh_holds fsr _ (freshFlash_formatted fsr)) (fun _ _ => by simp) 510 (le_refl _)).1

/-- C4 (crash recovery).  Take any state in which the code starts `flash_ee_copy_to_new_page`,
that is any state `s` with one page Valid and the other page entirely erased (such are the states
of both fullness checks of every write, `write_compaction_start`), and cut the sequence of flash
operations of the compaction after any number `n` of them (after the Transfer mark, after any
number of copied half-words, also between the value and the key of a record, after the erase of
the source, after the Valid mark).  When `flash_ee_init` then runs on the resulting flash with
all flash operations succeeding, it returns `FMC_STATUS_COMPLETE`, leaves exactly one page Valid
and the other Erased, and for every key below `EE_PARA_MAX_NUMBER` `flash_ee_data_read` gives
the same result as in `s`, before the compaction started. -/
theorem C4_crash_recovery (fsr : Nat) (s : Flash) (p n : Nat) (hs : Stable fsr s p) :
    (flash_ee_init fsr (crashDuringCopy fsr s n)).1 = FMC_STATUS_COMPLETE ∧
    OneValidOtherErased fsr (flash_ee_init fsr (crashDuringCopy fsr s n)).2 ∧
    ∀ k pdata, k < EE_PARA_MAX_NUMBER →
      flash_ee_data_read fsr (flash_ee_init fsr (crashDuringCopy fsr s n)).2 k pdata
        = flash_ee_data_read fsr s k pdata := by
  obtain ⟨a, p', b, d⟩ := crash_recover fsr s p hs (cutAfter n) (crashDuringCopy fsr s n) rfl rfl
  refine ⟨a, stable_one_valid fsr _ p' b, ?_⟩
  intro k pd hk
  rw [EE_PARA_MAX_NUMBER_eq] at hk
  rw [stable_read fsr _ p' b, d k hk, stable_read fsr s p hs]

/-- Witness of C4: the 511th write to a freshly formatted flash, `flash_ee_data_write(510, 7)`
on the store that holds the keys 0 .. 509.  In the state after its append has taken the last
slot of page 0 the second fullness check is the compaction; that compaction is cut after two
flash operations, that is between the value and the key half-word of the first copied record.
After the recovery the key 510, written just before the compaction started, still reads 7. -/
theorem C4_crash_recovery_witness :
    Stable 512
      (flash_ee_write_no_check 512
        (FMC_Unlock (writeKeys 512 (fun _ => 0) 510 (freshFlash 512))) 510 7).2 0 ∧
    flash_ee_full_check 512
      (flash_ee_write_no_check 512
        (FMC_Unlock (writeKeys 512 (fun _ => 0) 510 (freshFlash 512))) 510 7).2
      = flash_ee_copy_to_new_page 512
      (flash_ee_write_no_check 512
        (FMC_Unlock (writeKeys 512 (fun _ => 0) 510 (freshFlash 512))) 510 7).2 ∧
    (flash_ee_init 512 (crashDuringCopy 512
      (flash_ee_write_no_check 512
        (FMC_Unlock (writeKeys 512 (fun _ => 0) 510 (freshFlash 512))) 510 7).2 2)).1 = FMC_STATUS_COMPLETE ∧
    OneValidOtherErased 512 (flash_ee_init 512 (crashDuringCopy 512
      (flash_ee_write_no_check 512
        (FMC_Unlock (writeKeys 512 (fun _ => 0) 510 (freshFlash 512))) 510 7).2 2)).2 ∧
    flash_ee_data_read 512 (flash_ee_init 512 (crashDuringCopy 512
      (flash_ee_write_no_check 512
        (FMC_Unlock (writeKeys 512 (fun _ => 0) 510 (freshFlash 512))) 510 7).2 2)).2 510 0 = (0, 7) :=
  ⟨(last_slot_taken 512 _ 0 (writeKeys_510_holds 512)).1,
    (last_slot_taken 512 _ 0 (writeKeys_510_holds 512)).2.1,
    (C4_crash_recovery 512 _ 0 2 (last_slot_taken 512 _ 0 (writeKeys_510_holds 512)).1).1,
    (C4_crash_recovery 512 _ 0 2 (last_slot_taken 512 _ 0 (writeKeys_510_holds 512)).1).2.1,
    ((C4_crash_recovery 512 _ 0 2 (last_slot_taken 512 _ 0 (writeKeys_510_holds 512)).1).2.2
      510 0 (by decide)).trans (last_slot_taken 512 _ 0 (writeKeys_510_holds 512)).2.2⟩

/-- Witness of C3 (amended): the store that holds the value 7 under the key 3, whose page 0 is
valid and whose page 1 is erased.  The key reads 7 before the compaction, the compaction copies
its record to page 1 and completes, and the key reads 7 afterwards. -/
theorem C3_compaction_preserves_keys_in_range_witness :
    Stable 512 (flash_ee_data_write 512 (freshFlash 512) 3 7).2 0 ∧
    flash_ee_data_read 512 (flash_ee_data_write 512 (freshFlash 512) 3 7).2 3 0 = (0, 7) ∧
    (flash_ee_copy_to_new_page 512 (flash_ee_data_write 512 (freshFlash 512) 3 7).2).1
      = FMC_STATUS_COMPLETE ∧
    flash_ee_data_read 512
      (flash_ee_copy_to_new_page 512 (flash_ee_data_write 512 (freshFlash 512) 3 7).2).2 3 0
      = (0, 7) :=
  ⟨(write_then_read 512 (freshFlash 512) 0 0 (fresh_holds 512 _ (freshFlash_formatted 512))
      (by decide) 3 7 0 (by decide)).2.1,
    (write_then_read 512 (freshFlash 512) 0 0 (fresh_holds 512 _ (freshFlash_formatted 512))
      (by decide) 3 7 0 (by decide)).2.2,
    (C3_compaction_preserves_keys_in_range 512 (flash_ee_data_write 512 (freshFlash 512) 3 7).2 0
      (write_then_read 512 (freshFlash 512) 0 0 (fresh_holds 512 _ (freshFlash_formatted 512))
        (by decide) 3 7 0 (by decide)).2.1).1,
    ((C3_compaction_preserves_keys_in_range 512 (flash_ee_data_write 512 (freshFlash 512) 3 7).2 0
      (write_then_read 512 (freshFlash 512) 0 0 (fresh_holds 512 _ (freshFlash_formatted 512))
        (by decide) 3 7 0 (by decide)).2.1).2 3 0 (by decide)).trans
      (write_then_read 512 (freshFlash 512) 0 0 (fresh_holds 512 _ (freshFlash_formatted 512))
        (by decide) 3 7 0 (by decide)).2.2⟩

end EEPROM
